import Mathlib

/-!
# Filesystem management layer (`src/lib/formats/fsmgr.cpp`, `fsmgr.h`)

A shallow embedding of the bounds-checked block accessors of `fsblk_t::block_t`
and of the strong/weak reference counter `fs_refcounted_inner`, followed by the
properties established about them.

Conventions
* `uint32_t` values are natural numbers; arithmetic that the source performs in
  32 bits is reduced with `to_u32`.
* A byte is a `uint8_t := Fin 256`; a `std::string` written to or read from a block
  is the list of its bytes, a `std::string` of text is a `String`.
* `fatalerror(...)` is an outcome of its own, carrying the arguments of the call.
-/

namespace fsmgr

/-! ## Machine integers -/

/-- A byte of block storage. -/
abbrev uint8_t := Fin 256

/-- Conversion to `uint8_t` keeps the low eight bits. -/
def to_u8 (n : Nat) : uint8_t := ⟨n % 256, Nat.mod_lt n (by decide)⟩

/-- Conversion to `uint16_t`. -/
def to_u16 (n : Nat) : Nat := n % 65536

/-- Conversion to `uint32_t`; also the result of 32-bit unsigned arithmetic. -/
def to_u32 (n : Nat) : Nat := n % 4294967296

/-! ## Blocks -/

/-- The object behind a block handle (`fsblk_t::iblock_t`): the declared size
`m_size` and the storage that the pure virtual `data()` / `rodata()` point to. -/
structure iblock_t where
  m_size : Nat
  bytes : List uint8_t
deriving DecidableEq, Repr

/-- The storage of a block is `m_size` bytes long. -/
def iblock_t.wf (b : iblock_t) : Prop := b.bytes.length = b.m_size

instance (b : iblock_t) : Decidable b.wf := by
  unfold iblock_t.wf; infer_instance

/-- The arguments handed to `fatalerror` by `offset` and `rooffset`:
`"block_t::%s out-of-block access, offset=%d, size=%d, block size=%d\n"`
(`rooffset` says `out-of-block read access`). -/
structure out_of_block where
  function : String
  read_access : Bool
  off : Nat
  size : Nat
  block_size : Nat
deriving DecidableEq, Repr

/-- What a call of an accessor comes to. -/
inductive outcome (α : Type) where
  /-- normal return -/
  | ok (val : α)
  /-- `fatalerror` was raised by the bounds check -/
  | fatal (e : out_of_block)
  /-- the check passed and a byte outside the storage was read or written -/
  | outside
deriving DecidableEq, Repr

/-- `uint8_t *iblock_t::offset(const char *function, uint32_t off, uint32_t size)`:
the sum `off + size` is computed in 32 bits; the result is the position
`data() + off`, as an index from `data()`. -/
def iblock_t.offset (b : iblock_t) (function : String) (off size : Nat) :
    Except out_of_block Nat :=
  if to_u32 (off + size) > b.m_size then
    .error ⟨function, false, off, size, b.m_size⟩
  else
    .ok off

/-- `const uint8_t *iblock_t::rooffset(const char *function, uint32_t off, uint32_t size)`. -/
def iblock_t.rooffset (b : iblock_t) (function : String) (off size : Nat) :
    Except out_of_block Nat :=
  if to_u32 (off + size) > b.m_size then
    .error ⟨function, true, off, size, b.m_size⟩
  else
    .ok off

/-- The block after the bytes `xs` have been stored at positions `p, p+1, ...`
from `data()`: the stores that land inside the storage change it, the others
land outside. -/
def poke (bytes : List uint8_t) (p : Nat) (xs : List uint8_t) : List uint8_t :=
  bytes.take p ++ xs.take (bytes.length - p) ++ bytes.drop (p + xs.length)

/-- The storage after `memset(data() + p, d, n)`. -/
def poke_fill (bytes : List uint8_t) (p : Nat) (d : uint8_t) (n : Nat) : List uint8_t :=
  bytes.take p ++ List.replicate (min n (bytes.length - p)) d ++ bytes.drop (p + n)

/-- Stores `blk[0] = xs[0]; blk[1] = xs[1]; ...` (also `memcpy(blk, xs, |xs|)`)
through the pointer `blk = data() + p`. -/
def iblock_t.store (b : iblock_t) (p : Nat) (xs : List uint8_t) : outcome Unit × iblock_t :=
  (if p + xs.length ≤ b.bytes.length then .ok () else .outside,
   { b with bytes := poke b.bytes p xs })

/-- `memset(blk, d, n)` through the pointer `blk = data() + p`. -/
def iblock_t.set (b : iblock_t) (p : Nat) (d : uint8_t) (n : Nat) : outcome Unit × iblock_t :=
  (if p + n ≤ b.bytes.length then .ok () else .outside,
   { b with bytes := poke_fill b.bytes p d n })

/-- The read `blk[i]` through the pointer `blk = data() + p`, as a promoted integer. -/
def iblock_t.load (b : iblock_t) (p i : Nat) : outcome Nat :=
  match b.bytes[p + i]? with
  | some x => .ok x.val
  | none => .outside

/-- Sequencing of reads. -/
def outcome.bind {α β : Type} (x : outcome α) (f : α → outcome β) : outcome β :=
  match x with
  | .ok v => f v
  | .fatal e => .fatal e
  | .outside => .outside

/-! ### Write accessors of `fsblk_t::block_t` -/

/-- `void block_t::copy(u32 offset, const uint8_t *src, u32 size)`; `src` is the
buffer the pointer refers to, of which `memcpy` reads the first `size` bytes. -/
def copy (b : iblock_t) (offset : Nat) (src : List uint8_t) (size : Nat) :
    outcome Unit × iblock_t :=
  match b.offset "copy" offset size with
  | .error e => (.fatal e, b)
  | .ok blk =>
    if size ≤ src.length then b.store blk (src.take size)
    else (.outside, (b.store blk src).2)

/-- `void block_t::fill(u32 offset, uint8_t data, u32 size)`. -/
def fill (b : iblock_t) (offset : Nat) (data : uint8_t) (size : Nat) :
    outcome Unit × iblock_t :=
  match b.offset "fill" offset size with
  | .error e => (.fatal e, b)
  | .ok blk => b.set blk data size

/-- `void block_t::fill(uint8_t data)`: the whole block, without a check. -/
def fill_all (b : iblock_t) (data : uint8_t) : outcome Unit × iblock_t :=
  b.set 0 data b.m_size

/-- `void block_t::wstr(u32 offset, const std::string &str)`: `str.size()` is
narrowed to 32 bits for the check, `memcpy` copies the whole string. -/
def wstr (b : iblock_t) (offset : Nat) (str : List uint8_t) : outcome Unit × iblock_t :=
  match b.offset "wstr" offset (to_u32 str.length) with
  | .error e => (.fatal e, b)
  | .ok blk => b.store blk str

/-- `void block_t::w8(u32 offset, uint8_t data)`. -/
def w8 (b : iblock_t) (offset data : Nat) : outcome Unit × iblock_t :=
  match b.offset "w8" offset 1 with
  | .error e => (.fatal e, b)
  | .ok blk => b.store blk [to_u8 data]

/-- `void block_t::w16b(u32 offset, u16 data)`. -/
def w16b (b : iblock_t) (offset data : Nat) : outcome Unit × iblock_t :=
  match b.offset "w16b" offset 2 with
  | .error e => (.fatal e, b)
  | .ok blk => b.store blk [to_u8 (data >>> 8), to_u8 data]

/-- `void block_t::w24b(u32 offset, u32 data)`. -/
def w24b (b : iblock_t) (offset data : Nat) : outcome Unit × iblock_t :=
  match b.offset "w24b" offset 3 with
  | .error e => (.fatal e, b)
  | .ok blk => b.store blk [to_u8 (data >>> 16), to_u8 (data >>> 8), to_u8 data]

/-- `void block_t::w32b(u32 offset, u32 data)`. -/
def w32b (b : iblock_t) (offset data : Nat) : outcome Unit × iblock_t :=
  match b.offset "w32b" offset 4 with
  | .error e => (.fatal e, b)
  | .ok blk =>
    b.store blk [to_u8 (data >>> 24), to_u8 (data >>> 16), to_u8 (data >>> 8), to_u8 data]

/-- `void block_t::w16l(u32 offset, u16 data)`. -/
def w16l (b : iblock_t) (offset data : Nat) : outcome Unit × iblock_t :=
  match b.offset "w16l" offset 2 with
  | .error e => (.fatal e, b)
  | .ok blk => b.store blk [to_u8 data, to_u8 (data >>> 8)]

/-- `void block_t::w24l(u32 offset, u32 data)`. -/
def w24l (b : iblock_t) (offset data : Nat) : outcome Unit × iblock_t :=
  match b.offset "w24l" offset 3 with
  | .error e => (.fatal e, b)
  | .ok blk => b.store blk [to_u8 data, to_u8 (data >>> 8), to_u8 (data >>> 16)]

/-- `void block_t::w32l(u32 offset, u32 data)`. -/
def w32l (b : iblock_t) (offset data : Nat) : outcome Unit × iblock_t :=
  match b.offset "w32l" offset 4 with
  | .error e => (.fatal e, b)
  | .ok blk =>
    b.store blk [to_u8 data, to_u8 (data >>> 8), to_u8 (data >>> 16), to_u8 (data >>> 24)]

/-! ### Read accessors of `fsblk_t::block_t` -/

/-- The loop of `rstr`: `for(u32 i=0; i != size; i++) res += char(*d++);`
with `n` iterations left, `d` the position read next. -/
def rstr_loop (b : iblock_t) : Nat → Nat → List uint8_t → outcome (List uint8_t)
  | 0, _, res => .ok res
  | n + 1, d, res =>
    match b.bytes[d]? with
    | some c => rstr_loop b n (d + 1) (res ++ [c])
    | none => .outside

/-- `std::string block_t::rstr(u32 offset, u32 size)`. -/
def rstr (b : iblock_t) (offset size : Nat) : outcome (List uint8_t) :=
  match b.rooffset "rstr" offset size with
  | .error e => .fatal e
  | .ok d => rstr_loop b size d []

/-- `uint8_t block_t::r8(u32 offset)`. -/
def r8 (b : iblock_t) (offset : Nat) : outcome Nat :=
  match b.offset "r8" offset 1 with
  | .error e => .fatal e
  | .ok blk => b.load blk 0

/-- `uint16_t block_t::r16b(u32 offset)`. -/
def r16b (b : iblock_t) (offset : Nat) : outcome Nat :=
  match b.offset "r16b" offset 2 with
  | .error e => .fatal e
  | .ok blk =>
    (b.load blk 0).bind fun b0 => (b.load blk 1).bind fun b1 =>
    .ok (to_u16 ((b0 <<< 8) ||| b1))

/-- `uint32_t block_t::r24b(u32 offset)`. -/
def r24b (b : iblock_t) (offset : Nat) : outcome Nat :=
  match b.offset "r24b" offset 3 with
  | .error e => .fatal e
  | .ok blk =>
    (b.load blk 0).bind fun b0 => (b.load blk 1).bind fun b1 => (b.load blk 2).bind fun b2 =>
    .ok (to_u32 ((b0 <<< 16) ||| (b1 <<< 8) ||| b2))

/-- `uint32_t block_t::r32b(u32 offset)`; the promoted `int` expression is
converted to `uint32_t`, which keeps its low 32 bits. -/
def r32b (b : iblock_t) (offset : Nat) : outcome Nat :=
  match b.offset "r32b" offset 4 with
  | .error e => .fatal e
  | .ok blk =>
    (b.load blk 0).bind fun b0 => (b.load blk 1).bind fun b1 => (b.load blk 2).bind fun b2 =>
    (b.load blk 3).bind fun b3 =>
    .ok (to_u32 ((b0 <<< 24) ||| (b1 <<< 16) ||| (b2 <<< 8) ||| b3))

/-- `uint16_t block_t::r16l(u32 offset)`. -/
def r16l (b : iblock_t) (offset : Nat) : outcome Nat :=
  match b.offset "r16l" offset 2 with
  | .error e => .fatal e
  | .ok blk =>
    (b.load blk 0).bind fun b0 => (b.load blk 1).bind fun b1 =>
    .ok (to_u16 (b0 ||| (b1 <<< 8)))

/-- `uint32_t block_t::r24l(u32 offset)`. -/
def r24l (b : iblock_t) (offset : Nat) : outcome Nat :=
  match b.offset "r24l" offset 3 with
  | .error e => .fatal e
  | .ok blk =>
    (b.load blk 0).bind fun b0 => (b.load blk 1).bind fun b1 => (b.load blk 2).bind fun b2 =>
    .ok (to_u32 (b0 ||| (b1 <<< 8) ||| (b2 <<< 16)))

/-- `uint32_t block_t::r32l(u32 offset)`. -/
def r32l (b : iblock_t) (offset : Nat) : outcome Nat :=
  match b.offset "r32l" offset 4 with
  | .error e => .fatal e
  | .ok blk =>
    (b.load blk 0).bind fun b0 => (b.load blk 1).bind fun b1 => (b.load blk 2).bind fun b2 =>
    (b.load blk 3).bind fun b3 =>
    .ok (to_u32 (b0 ||| (b1 <<< 8) ||| (b2 <<< 16) ||| (b3 <<< 24)))

/-! ### Calls of the checked accessors -/

/-- A call of one of the eighteen checked accessors, with its arguments. -/
inductive call where
  | copy (offset : Nat) (src : List uint8_t) (size : Nat)
  | fill (offset : Nat) (data : uint8_t) (size : Nat)
  | wstr (offset : Nat) (str : List uint8_t)
  | w8 (offset data : Nat)
  | w16b (offset data : Nat)
  | w24b (offset data : Nat)
  | w32b (offset data : Nat)
  | w16l (offset data : Nat)
  | w24l (offset data : Nat)
  | w32l (offset data : Nat)
  | rstr (offset size : Nat)
  | r8 (offset : Nat)
  | r16b (offset : Nat)
  | r24b (offset : Nat)
  | r32b (offset : Nat)
  | r16l (offset : Nat)
  | r24l (offset : Nat)
  | r32l (offset : Nat)
deriving DecidableEq, Repr

/-- What an accessor returns: nothing, a number or a string. -/
inductive value where
  | none
  | num (n : Nat)
  | str (s : List uint8_t)
deriving DecidableEq, Repr

/-- Lifts the result of a reader. -/
def outcome.map {α β : Type} (f : α → β) : outcome α → outcome β
  | .ok v => .ok (f v)
  | .fatal e => .fatal e
  | .outside => .outside

/-- Performs the call on the block: the outcome and the block afterwards. -/
def run (b : iblock_t) : call → outcome value × iblock_t
  | .copy o src n => ((copy b o src n).1.map fun _ => value.none, (copy b o src n).2)
  | .fill o d n => ((fill b o d n).1.map fun _ => value.none, (fill b o d n).2)
  | .wstr o s => ((wstr b o s).1.map fun _ => value.none, (wstr b o s).2)
  | .w8 o d => ((w8 b o d).1.map fun _ => value.none, (w8 b o d).2)
  | .w16b o d => ((w16b b o d).1.map fun _ => value.none, (w16b b o d).2)
  | .w24b o d => ((w24b b o d).1.map fun _ => value.none, (w24b b o d).2)
  | .w32b o d => ((w32b b o d).1.map fun _ => value.none, (w32b b o d).2)
  | .w16l o d => ((w16l b o d).1.map fun _ => value.none, (w16l b o d).2)
  | .w24l o d => ((w24l b o d).1.map fun _ => value.none, (w24l b o d).2)
  | .w32l o d => ((w32l b o d).1.map fun _ => value.none, (w32l b o d).2)
  | .rstr o n => ((rstr b o n).map value.str, b)
  | .r8 o => ((r8 b o).map value.num, b)
  | .r16b o => ((r16b b o).map value.num, b)
  | .r24b o => ((r24b b o).map value.num, b)
  | .r32b o => ((r32b b o).map value.num, b)
  | .r16l o => ((r16l b o).map value.num, b)
  | .r24l o => ((r24l b o).map value.num, b)
  | .r32l o => ((r32l b o).map value.num, b)

/-- The name under which the accessor is declared in `block_t`. -/
def call.name : call → String
  | .copy .. => "copy"
  | .fill .. => "fill"
  | .wstr .. => "wstr"
  | .w8 .. => "w8"
  | .w16b .. => "w16b"
  | .w24b .. => "w24b"
  | .w32b .. => "w32b"
  | .w16l .. => "w16l"
  | .w24l .. => "w24l"
  | .w32l .. => "w32l"
  | .rstr .. => "rstr"
  | .r8 .. => "r8"
  | .r16b .. => "r16b"
  | .r24b .. => "r24b"
  | .r32b .. => "r32b"
  | .r16l .. => "r16l"
  | .r24l .. => "r24l"
  | .r32l .. => "r32l"

/-- The offset argument of the call. -/
def call.offset : call → Nat
  | .copy o _ _ | .fill o _ _ | .wstr o _ | .rstr o _ => o
  | .w8 o _ | .w16b o _ | .w24b o _ | .w32b o _ | .w16l o _ | .w24l o _ | .w32l o _ => o
  | .r8 o | .r16b o | .r24b o | .r32b o | .r16l o | .r24l o | .r32l o => o

/-- The number of bytes the call accesses: the size argument, the length of the
string, or the fixed width of a typed accessor. -/
def call.size : call → Nat
  | .copy _ _ n | .fill _ _ n | .rstr _ n => n
  | .wstr _ s => s.length
  | .w8 .. | .r8 .. => 1
  | .w16b .. | .w16l .. | .r16b .. | .r16l .. => 2
  | .w24b .. | .w24l .. | .r24b .. | .r24l .. => 3
  | .w32b .. | .w32l .. | .r32b .. | .r32l .. => 4

/-- The write accessors. -/
def call.is_write : call → Bool
  | .copy .. | .fill .. | .wstr .. | .w8 .. | .w16b .. | .w24b .. | .w32b ..
  | .w16l .. | .w24l .. | .w32l .. => true
  | _ => false

/-- The size that an accessor hands to the bounds check: the 32-bit value of
the size of the call. -/
def call.checked_size : call → Nat
  | .wstr _ s => to_u32 s.length
  | c => c.size

/-! ## Reference counting (`fs_refcounted_inner`) -/

/-- The decrement `--` of a `uint32_t`: zero wraps to `0xffffffff`. -/
def dec_u32 (n : Nat) : Nat := to_u32 (n + 4294967295)

/-- What happens to an object, in the order in which it happens. -/
inductive event where
  /-- `delete this` -/
  | freed
  /-- `drop_weak_references()` was entered -/
  | dropped
  /-- `fatalerror("drop_weak_references kept %d active references\n", m_weak_ref)` -/
  | kept (n : Nat)
deriving DecidableEq, Repr

/-- An object derived from `fs_refcounted_inner`: the two 32-bit counters and the
record of what has happened to it. After `delete this` the counters keep the
values they had. -/
structure fs_refcounted_inner where
  m_ref : Nat
  m_weak_ref : Nat
  log : List event
deriving DecidableEq, Repr

namespace fs_refcounted_inner

/-- `fs_refcounted_inner() : m_ref(0), m_weak_ref(0) {}`. -/
def fresh : fs_refcounted_inner := ⟨0, 0, []⟩

/-- `void fs_refcounted_inner::ref()`. -/
def ref (o : fs_refcounted_inner) : fs_refcounted_inner :=
  { o with m_ref := to_u32 (o.m_ref + 1) }

/-- `void fs_refcounted_inner::ref_weak()`. -/
def ref_weak (o : fs_refcounted_inner) : fs_refcounted_inner :=
  { o with m_weak_ref := to_u32 (o.m_weak_ref + 1) }

/-- `delete this`. -/
def delete_this (o : fs_refcounted_inner) : fs_refcounted_inner :=
  { o with log := o.log ++ [event.freed] }

/-- `void fs_refcounted_inner::unref_weak()`. -/
def unref_weak (o : fs_refcounted_inner) : fs_refcounted_inner :=
  let o1 := { o with m_weak_ref := dec_u32 o.m_weak_ref }
  if o1.m_weak_ref = 0 ∧ o1.m_ref = 0 then delete_this o1 else o1

/-- The pure virtual `drop_weak_references()`, for an override that releases
`k` of the weak references, each through `unref_weak()`. -/
def drop_weak_references (k : Nat) (o : fs_refcounted_inner) : fs_refcounted_inner :=
  unref_weak^[k] { o with log := o.log ++ [event.dropped] }

/-- `void fs_refcounted_inner::unref()`, on an object whose override of
`drop_weak_references()` releases `k` weak references. -/
def unref (k : Nat) (o : fs_refcounted_inner) : fs_refcounted_inner :=
  let o1 := { o with m_ref := dec_u32 o.m_ref }
  if o1.m_ref = 0 then
    if o1.m_weak_ref ≠ 0 then
      let o2 := drop_weak_references k o1
      if o2.m_weak_ref ≠ 0 then
        { o2 with log := o2.log ++ [event.kept o2.m_weak_ref] }
      else o2
    else delete_this o1
  else o1

/-- How many times the object has been freed. -/
def frees (o : fs_refcounted_inner) : Nat := o.log.count event.freed

/-- How many times `drop_weak_references()` has been invoked. -/
def drops (o : fs_refcounted_inner) : Nat := o.log.count event.dropped

/-- How many times the fatal error of `unref` has been raised. -/
def errors (o : fs_refcounted_inner) : Nat := o.log.countP fun e =>
  match e with
  | event.kept _ => true
  | _ => false

end fs_refcounted_inner

/-! ### Sequences of calls on one object -/

/-- One call of the public interface of `fs_refcounted_inner`; an `unref` comes
with the number of weak references that the override of
`drop_weak_references()` would release. -/
inductive op where
  | ref
  | ref_weak
  | unref (k : Nat)
  | unref_weak
deriving DecidableEq, Repr

namespace fs_refcounted_inner

/-- Performs the call. -/
def apply (o : fs_refcounted_inner) : op → fs_refcounted_inner
  | .ref => o.ref
  | .ref_weak => o.ref_weak
  | .unref k => o.unref k
  | .unref_weak => o.unref_weak

/-- Performs the calls, first to last. -/
def calls (o : fs_refcounted_inner) (ops : List op) : fs_refcounted_inner :=
  ops.foldl apply o

/-- The hook releases only weak references that the object has. -/
def hook_ok (o : fs_refcounted_inner) : op → Prop
  | .unref k => k ≤ o.m_weak_ref
  | _ => True

/-- Every call of the sequence is made on the object while it has not been
freed, with a hook that releases only weak references that the object has. -/
def live_calls : fs_refcounted_inner → List op → Prop
  | _, [] => True
  | o, c :: cs => o.frees = 0 ∧ hook_ok o c ∧ live_calls (o.apply c) cs

instance hook_ok_decidable (o : fs_refcounted_inner) : (c : op) → Decidable (hook_ok o c)
  | .unref k => inferInstanceAs (Decidable (k ≤ o.m_weak_ref))
  | .ref => isTrue trivial
  | .ref_weak => isTrue trivial
  | .unref_weak => isTrue trivial

instance live_calls_decidable :
    (o : fs_refcounted_inner) → (ops : List op) → Decidable (live_calls o ops)
  | _, [] => isTrue trivial
  | o, c :: cs =>
    have := live_calls_decidable (o.apply c) cs
    inferInstanceAs (Decidable (o.frees = 0 ∧ hook_ok o c ∧ live_calls (o.apply c) cs))

end fs_refcounted_inner

/-! ## Handles (`fs_refcounted_outer`) -/

/-- The objects that handles point to, by address. -/
abbrev heap := List fs_refcounted_inner

/-- A handle `fs_refcounted_outer<T>`: the pointer `m_object` (`none` for
`nullptr`, otherwise the address of the object) and the kind of reference. -/
structure fs_refcounted_outer where
  m_object : Option Nat
  m_is_weak_ref : Bool
deriving DecidableEq, Repr

namespace fs_refcounted_outer

/-- The call `m_object->f()` on the object at address `p`. -/
def on_object (hp : heap) (p : Nat) (f : fs_refcounted_inner → fs_refcounted_inner) : heap :=
  match hp[p]? with
  | some o => hp.set p (f o)
  | none => hp

/-- The private `void ref()`. -/
def ref (h : fs_refcounted_outer) (hp : heap) : heap :=
  match h.m_object with
  | some p =>
    if h.m_is_weak_ref then on_object hp p fs_refcounted_inner.ref_weak
    else on_object hp p fs_refcounted_inner.ref
  | none => hp

/-- The private `void unref()`; `k` is the number of weak references released by
the `drop_weak_references()` of the object. -/
def unref (k : Nat) (h : fs_refcounted_outer) (hp : heap) : heap :=
  match h.m_object with
  | some p =>
    if h.m_is_weak_ref then on_object hp p fs_refcounted_inner.unref_weak
    else on_object hp p (fs_refcounted_inner.unref k)
  | none => hp

/-- `fs_refcounted_outer(bool weak = false)`. -/
def empty (weak : Bool) : fs_refcounted_outer := ⟨none, weak⟩

/-- `fs_refcounted_outer(T *object, bool weak = false)`. -/
def from_object (object : Option Nat) (weak : Bool) (hp : heap) :
    fs_refcounted_outer × heap :=
  ((⟨object, weak⟩ : fs_refcounted_outer), ref ⟨object, weak⟩ hp)

/-- `fs_refcounted_outer(const fs_refcounted_outer &cref)`. -/
def copy_construct (cref : fs_refcounted_outer) (hp : heap) : fs_refcounted_outer × heap :=
  ((⟨cref.m_object, cref.m_is_weak_ref⟩ : fs_refcounted_outer),
    ref ⟨cref.m_object, cref.m_is_weak_ref⟩ hp)

/-- `fs_refcounted_outer(fs_refcounted_outer &&cref)`: the new handle, and `cref`
as the constructor leaves it. No member of an object is called. -/
def move_construct (cref : fs_refcounted_outer) : fs_refcounted_outer × fs_refcounted_outer :=
  (⟨cref.m_object, cref.m_is_weak_ref⟩, { cref with m_object := none })

/-- `~fs_refcounted_outer()`. -/
def destroy (k : Nat) (h : fs_refcounted_outer) (hp : heap) : heap :=
  unref k h hp

/-- `operator =(T *dir)`: the handle afterwards and the heap. -/
def assign_object (k : Nat) (h : fs_refcounted_outer) (dir : Option Nat) (hp : heap) :
    fs_refcounted_outer × heap :=
  (({ h with m_object := dir } : fs_refcounted_outer),
    ref { h with m_object := dir } (unref k h hp))

/-- `operator =(const fs_refcounted_outer<T> &cref)`. -/
def copy_assign (k : Nat) (h cref : fs_refcounted_outer) (hp : heap) :
    fs_refcounted_outer × heap :=
  ((⟨cref.m_object, cref.m_is_weak_ref⟩ : fs_refcounted_outer),
    ref ⟨cref.m_object, cref.m_is_weak_ref⟩ (unref k h hp))

/-- `operator =(fs_refcounted_outer<T> &&cref)`: the handle afterwards, and
`cref` as the assignment leaves it. No member of an object is called. -/
def move_assign (_h cref : fs_refcounted_outer) : fs_refcounted_outer × fs_refcounted_outer :=
  (⟨cref.m_object, cref.m_is_weak_ref⟩, { cref with m_object := none })

/-- `operator bool() const`. -/
def to_bool (h : fs_refcounted_outer) : Bool := h.m_object.isSome

/-- `block_t strong() { return block_t(m_object, false); }`, the same in `dir_t`
and `file_t`. -/
def strong (h : fs_refcounted_outer) (hp : heap) : fs_refcounted_outer × heap :=
  from_object h.m_object false hp

/-- `block_t weak() { return block_t(m_object, true); }`, the same in `dir_t`
and `file_t`. -/
def weak (h : fs_refcounted_outer) (hp : heap) : fs_refcounted_outer × heap :=
  from_object h.m_object true hp

/-- The number of handles among `hs` of the given kind that refer to the object
at address `p`. -/
def referring (hs : List fs_refcounted_outer) (weak : Bool) (p : Nat) : Nat :=
  hs.countP fun h => h.m_object = some p ∧ h.m_is_weak_ref = weak

end fs_refcounted_outer

/-! ## Matching of form factor and variant (`filesystem_manager_t`) -/

/-- The loop `for(uint32_t v : variants) if(variant == v) return true; return false;`
that ends both `has_variant` and `has`. -/
def variant_loop (variant : Nat) : List Nat → Bool
  | [] => false
  | v :: rest => if variant = v then true else variant_loop variant rest

/-- `bool filesystem_manager_t::has_variant(const std::vector<uint32_t> &variants,
uint32_t variant)`. -/
def has_variant (variants : List Nat) (variant : Nat) : Bool :=
  variant_loop variant variants

/-- `bool filesystem_manager_t::has(uint32_t form_factor, const std::vector<uint32_t>
&variants, uint32_t ff, uint32_t variant)`. The constant `floppy_image::FF_UNKNOWN`
is declared in `flopimg.h`, outside the sources at hand, and is a parameter. -/
def has (FF_UNKNOWN form_factor : Nat) (variants : List Nat) (ff variant : Nat) : Bool :=
  if form_factor = FF_UNKNOWN then true
  else if form_factor ≠ ff then false
  else variant_loop variant variants

/-! ## Metadata values (`fs_meta`) and their text -/

/-- `enum class fs_meta_type`. -/
inductive fs_meta_type where
  | date
  | flag
  | number
  | string
deriving DecidableEq, Repr

/-- `util::arbitrary_datetime` (declared in `timeconv.h`): the six `int` fields
that `fs_meta_to_string` reads. -/
structure arbitrary_datetime where
  year : Int
  month : Int
  day_of_month : Int
  hour : Int
  minute : Int
  second : Int
deriving DecidableEq, Repr

/-- `class fs_meta`: the value of
`std::variant<std::string, uint64_t, bool, util::arbitrary_datetime>`. -/
inductive fs_meta where
  | string (str : String)
  | number (num : Nat)
  | flag (b : Bool)
  | date (dt : arbitrary_datetime)
deriving DecidableEq, Repr

namespace fs_meta

/-- The `fs_meta_type` that names the alternative held by the value. -/
def type : fs_meta → fs_meta_type
  | .string _ => .string
  | .number _ => .number
  | .flag _ => .flag
  | .date _ => .date

/-- `*std::get_if<util::arbitrary_datetime>(&value)`: `std::get_if` gives the
null pointer for another alternative, and there is no value behind it. -/
def as_date : fs_meta → Option arbitrary_datetime
  | .date dt => some dt
  | _ => none

/-- `*std::get_if<bool>(&value)`. -/
def as_flag : fs_meta → Option Bool
  | .flag b => some b
  | _ => none

/-- `*std::get_if<uint64_t>(&value)`. -/
def as_number : fs_meta → Option Nat
  | .number n => some n
  | _ => none

/-- `*std::get_if<std::string>(&value)`. -/
def as_string : fs_meta → Option String
  | .string s => some s
  | _ => none

end fs_meta

/-- Modelled from the spec: `util::string_format` is not among the sources at
hand. The spec renders an unsigned integer as `0x%x`: the characters `0x` and
then the number in hexadecimal, lowercase, without leading zeros. -/
def string_format_0x (n : Nat) : String :=
  String.mk ('0' :: 'x' :: Nat.toDigits 16 n)

/-- The text `ds` of a number, filled with zeros on the left up to `w`
characters. -/
def zero_pad (w : Nat) (ds : List Char) : List Char :=
  List.replicate (w - ds.length) '0' ++ ds

/-- Modelled from the spec: the conversion `%0wd` of `util::string_format` for
an `int`: decimal, at least `w` characters, filled with zeros between the sign
and the digits. -/
def format_0d (w : Nat) (v : Int) : List Char :=
  if v < 0 then '-' :: zero_pad (w - 1) (Nat.toDigits 10 v.natAbs)
  else zero_pad w (Nat.toDigits 10 v.natAbs)

/-- Modelled from the spec: `util::string_format("%04d-%02d-%02d %02d:%02d:%02d",
year, month, day_of_month, hour, minute, second)`, the spec gives the form
`YYYY-MM-DD HH:MM:SS`. -/
def string_format_date (year month day_of_month hour minute second : Int) : String :=
  String.mk (format_0d 4 year ++ '-' :: format_0d 2 month ++ '-' :: format_0d 2 day_of_month
    ++ ' ' :: format_0d 2 hour ++ ':' :: format_0d 2 minute ++ ':' :: format_0d 2 second)

/-- `std::string fs_meta_to_string(fs_meta_type type, const fs_meta &m)`. -/
def fs_meta_to_string (type : fs_meta_type) (m : fs_meta) : Option String :=
  match type with
  | .string => m.as_string
  | .number => m.as_number.map string_format_0x
  | .flag => m.as_flag.map fun b => if b then "t" else "f"
  | .date => m.as_date.map fun dt =>
      string_format_date dt.year dt.month dt.day_of_month dt.hour dt.minute dt.second

/-! ### Reading a text back -/

/-- The value of a digit character, `0` to `9` and `a` to `f`. -/
def digit_value (c : Char) : Nat :=
  if c.toNat < 58 then c.toNat - 48 else c.toNat - 87

/-- The number written by the digits `cs` in base `b`. -/
def number_of (b : Nat) (cs : List Char) : Nat :=
  cs.foldl (fun a c => a * b + digit_value c) 0

/-- The integer written by a field: a sign or none, then decimal digits. -/
def int_of (cs : List Char) : Int :=
  if cs.head? = some '-' then - (number_of 10 cs.tail : Int) else (number_of 10 cs : Int)

/-- Splits a text into its first field (a `-` or none, and the decimal digits
that follow) and the rest. -/
def take_field (cs : List Char) : List Char × List Char :=
  if cs.head? = some '-' then
    ('-' :: cs.tail.takeWhile Char.isDigit, cs.tail.dropWhile Char.isDigit)
  else (cs.takeWhile Char.isDigit, cs.dropWhile Char.isDigit)

/-- Reads six fields, each but the first after one separating character. -/
def read_date (cs : List Char) : arbitrary_datetime :=
  let f1 := take_field cs
  let f2 := take_field f1.2.tail
  let f3 := take_field f2.2.tail
  let f4 := take_field f3.2.tail
  let f5 := take_field f4.2.tail
  let f6 := take_field f5.2.tail
  ⟨int_of f1.1, int_of f2.1, int_of f3.1, int_of f4.1, int_of f5.1, int_of f6.1⟩

/-- A reading of the texts that `fs_meta_to_string` writes, type by type. -/
def read_back : fs_meta_type → String → fs_meta
  | .string, s => .string s
  | .number, s => .number (number_of 16 (s.data.drop 2))
  | .flag, s => .flag (s == "t")
  | .date, s => .date (read_date s.data)

/-! ## Names of metadata, directory entries, descriptions -/

/-- `enum class fs_meta_name`. -/
inductive fs_meta_name where
  | creation_date
  | length
  | loading_address
  | locked
  | modification_date
  | name
  | os_minimum_version
  | os_version
  | sequential
  | size_in_blocks
deriving DecidableEq, Repr

/-- `const char *fs_meta_get_name(fs_meta_name name)`, case by case in the order
of the `switch`. -/
def fs_meta_get_name : fs_meta_name → String
  | .creation_date => "creation_date"
  | .length => "length"
  | .loading_address => "loading_address"
  | .locked => "locked"
  | .sequential => "sequential"
  | .modification_date => "modification_date"
  | .name => "name"
  | .size_in_blocks => "size_in_blocks"
  | .os_version => "os_version"
  | .os_minimum_version => "os_minimum_version"

/-- All ten values of `fs_meta_name`, in the order of the declaration. -/
def fs_meta_name.all : List fs_meta_name :=
  [.creation_date, .length, .loading_address, .locked, .modification_date, .name,
   .os_minimum_version, .os_version, .sequential, .size_in_blocks]

/-- `fs_meta() { value = false; }`. -/
def fs_meta.initial : fs_meta := .flag false

/-- `using fs_meta_data = std::unordered_map<fs_meta_name, fs_meta>`, as the list
of its entries, one for each name present. -/
abbrev fs_meta_data := List (fs_meta_name × fs_meta)

/-- `meta.find(key)`: the value of the entry, none for `meta.end()`. -/
def fs_meta_data.find (meta : fs_meta_data) (key : fs_meta_name) : Option fs_meta :=
  List.lookup key meta

/-- `meta[key] = value`. -/
def fs_meta_data.assign (meta : fs_meta_data) (key : fs_meta_name) (value : fs_meta) :
    fs_meta_data :=
  (key, value) :: meta.filter fun e => e.1 ≠ key

/-- `enum class fs_dir_entry_type`. -/
inductive fs_dir_entry_type where
  | dir
  | file
  | system_file
deriving DecidableEq, Repr

/-- `struct fs_dir_entry`. -/
structure fs_dir_entry where
  m_name : String
  m_type : fs_dir_entry_type
  m_key : Nat
deriving DecidableEq, Repr

/-- `struct fs_meta_description`, without the validator and the tooltip. -/
structure fs_meta_description where
  m_name : fs_meta_name
  m_type : fs_meta_type
  m_default : fs_meta
  m_ro : Bool
deriving DecidableEq, Repr

/-! ## Block stores, filesystems and drivers -/

/-- `class fsblk_t`: the block size, and the image that a deriving store hands
out in blocks (`block_count`, `get` and `fill` are pure virtual). -/
structure fsblk_t where
  m_block_size : Nat
  image : List uint8_t
deriving DecidableEq, Repr

/-- `fsblk_t() : m_block_size(0) {}`, for a deriving store on `image`. -/
def fsblk_t.fresh (image : List uint8_t) : fsblk_t := ⟨0, image⟩

/-- `void fsblk_t::set_block_size(uint32_t block_size)`. -/
def fsblk_t.set_block_size (s : fsblk_t) (block_size : Nat) : fsblk_t :=
  { s with m_block_size := block_size }

/-- A file as a driver presents it (`filesystem_t::ifile_t`, pure virtual). -/
structure ifile_t where
  metadata : fs_meta_data
  read_all : List uint8_t
deriving DecidableEq, Repr

/-- A directory as a driver presents it (`filesystem_t::idir_t`, pure virtual):
its metadata, its listing, and what `dir_get` and `file_get` give for a key;
`invalid` is what a key that names no directory gives. -/
inductive idir_t where
  | invalid
  | mk (metadata : fs_meta_data) (contents : List fs_dir_entry) (dir_get : Nat → idir_t)
      (file_get : Nat → ifile_t)

/-- The virtual members of `filesystem_t` that a deriving class overrides; none
for a member that is inherited. -/
structure filesystem_overrides where
  format : Option (fs_meta_data → fsblk_t → fsblk_t)
  metadata : Option fs_meta_data
  root : Option idir_t

/-- `class filesystem_t`: the block store `m_blockdev` refers to, and what the
deriving class overrides. -/
structure filesystem_t where
  m_blockdev : fsblk_t
  derived : filesystem_overrides

namespace filesystem_t

/-- `filesystem_t(fsblk_t &blockdev, u32 size) : m_blockdev(blockdev)
{ m_blockdev.set_block_size(size); }`. -/
def construct (blockdev : fsblk_t) (size : Nat) (derived : filesystem_overrides) :
    filesystem_t :=
  ⟨blockdev.set_block_size size, derived⟩

/-- `void filesystem_t::format(const fs_meta_data &meta)`, the member of the base
class: the outcome and the filesystem afterwards. -/
def format_base (fs : filesystem_t) (_meta : fs_meta_data) : Except String Unit × filesystem_t :=
  (.error "format called on a filesystem not supporting it.\n", fs)

/-- `filesystem_t::dir_t filesystem_t::root()`, the member of the base class. -/
def root_base (_fs : filesystem_t) : Except String idir_t :=
  .error "root called on a filesystem not supporting it.\n"

/-- `fs_meta_data filesystem_t::metadata()`, the member of the base class. -/
def metadata_base (_fs : filesystem_t) : Except String fs_meta_data :=
  .error "filesystem_t::metadata called on a filesystem not supporting it.\n"

/-- The virtual call `fs->format(meta)`. -/
def format (fs : filesystem_t) (meta : fs_meta_data) : Except String Unit × filesystem_t :=
  match fs.derived.format with
  | some f => (.ok (), { fs with m_blockdev := f meta fs.m_blockdev })
  | none => fs.format_base meta

/-- The virtual call `fs->root()`. -/
def root (fs : filesystem_t) : Except String idir_t :=
  match fs.derived.root with
  | some d => .ok d
  | none => fs.root_base

/-- The virtual call `fs->metadata()`. -/
def metadata (fs : filesystem_t) : Except String fs_meta_data :=
  match fs.derived.metadata with
  | some m => .ok m
  | none => fs.metadata_base

end filesystem_t

/-- A driver (`class filesystem_manager_t`): the results of its pure virtual
members, and its overrides of the others, none for a member that is inherited.
`mount` creates a filesystem with the block size and the overrides given. -/
structure filesystem_manager_t where
  can_format : Bool
  can_read : Bool
  can_write : Bool
  directory_separator_override : Option Nat
  volume_meta_description_override : Option (List fs_meta_description)
  file_meta_description_override : Option (List fs_meta_description)
  directory_meta_description_override : Option (List fs_meta_description)
  mount_block_size : Nat
  mount_derived : filesystem_overrides

namespace filesystem_manager_t

/-- `char filesystem_manager_t::directory_separator() const`, the member of the
base class. -/
def directory_separator_base : Nat := 0

/-- The virtual call `directory_separator()`. -/
def directory_separator (m : filesystem_manager_t) : Nat :=
  match m.directory_separator_override with
  | some c => c
  | none => directory_separator_base

/-- `bool has_subdirectories() const { return directory_separator() != 0; }`. -/
def has_subdirectories (m : filesystem_manager_t) : Bool :=
  m.directory_separator != 0

/-- The virtual call `volume_meta_description()`; the base class returns an
empty vector. -/
def volume_meta_description (m : filesystem_manager_t) : List fs_meta_description :=
  match m.volume_meta_description_override with
  | some l => l
  | none => []

/-- The virtual call `file_meta_description()`. -/
def file_meta_description (m : filesystem_manager_t) : List fs_meta_description :=
  match m.file_meta_description_override with
  | some l => l
  | none => []

/-- The virtual call `directory_meta_description()`. -/
def directory_meta_description (m : filesystem_manager_t) : List fs_meta_description :=
  match m.directory_meta_description_override with
  | some l => l
  | none => []

/-- The pure virtual `mount(fsblk_t &blockdev)`. -/
def mount (m : filesystem_manager_t) (blockdev : fsblk_t) : filesystem_t :=
  filesystem_t.construct blockdev m.mount_block_size m.mount_derived

end filesystem_manager_t

/-! ## floptool: the tables, the files and what a command reports -/

/-- A floppy format (`floppy_image_format_t`), as far as the commands depend on
it: its name, the score of `identify`, `supports_save()`, whether `load` and
`save` succeed, and the bytes that `save` writes. -/
structure floppy_image_format_t where
  name : String
  identify : Int
  supports_save : Bool
  load : Bool
  save : Bool
  saved : List uint8_t
deriving DecidableEq, Repr

/-- `struct fs_info`; none is a null pointer. -/
structure fs_info where
  m_manager : Option filesystem_manager_t
  m_type : Option floppy_image_format_t
  m_image_size : Nat
  m_name : String
  m_key : Nat
  m_description : String

/-- What the commands read from outside: the tables `formats_by_key` and
`fs_by_key` in the order of their keys, which files `fopen` opens for reading
and for writing, and the bytes of a file. -/
structure world where
  formats_by_key : List (String × floppy_image_format_t)
  fs_by_key : List (String × fs_info)
  readable : String → Bool
  writable : String → Bool
  file_bytes : String → List uint8_t

/-- How a command ends: it returns a code, an `emu_fatalerror` leaves it (`main`
catches it, prints `Error: ` and the text, and returns 1), `abort()`, or a call
through a null pointer or on a handle that refers to nothing. -/
inductive ending where
  | returned (code : Int)
  | raised (text : String)
  | aborted
  | undefined
deriving DecidableEq, Repr

/-- What is written to `stderr`: by `fprintf`, the text; by `perror`, the
message given to it. -/
inductive stderr_item where
  | fprintf (text : String)
  | perror (msg : String)
deriving DecidableEq, Repr

/-- A call on a mounted filesystem, on a directory or on a file. `dir_get c l`
and `file_get c l` are the calls `dir.dir_get(c.m_key)` and
`dir.file_get(c.m_key)` with `l` the result of `dir.contents()`. -/
inductive fs_op where
  | format (meta : fs_meta_data)
  | metadata
  | root
  | contents
  | dir_get (c : fs_dir_entry) (l : List fs_dir_entry)
  | file_get (c : fs_dir_entry) (l : List fs_dir_entry)
  | dir_metadata
  | file_metadata
  | read_all
deriving DecidableEq, Repr

/-- The end of a command, what it wrote to `stderr`, and its calls on the
filesystem in order. -/
structure report where
  ending : ending
  err : List stderr_item
  ops : List fs_op
deriving DecidableEq, Repr

/-- `argv[i]`. -/
def arg (argv : List String) (i : Nat) : String := argv.getD i ""

/-- `static floppy_image_format_t *find_format_by_name(const char *name)`. -/
def find_format_by_name (w : world) (name : String) : Option floppy_image_format_t :=
  List.lookup name w.formats_by_key

/-- `static floppy_image_format_t *find_format_by_identify(io_generic *image)`. -/
def find_format_by_identify (w : world) : Option floppy_image_format_t :=
  (w.formats_by_key.foldl
    (fun (acc : Int × Option floppy_image_format_t) e =>
      if e.2.identify > acc.1 then (e.2.identify, some e.2) else acc)
    (0, none)).2

/-- `static const fs_info *find_fs_by_name(const char *name)`. -/
def find_fs_by_name (w : world) (name : String) : Option fs_info :=
  List.lookup name w.fs_by_key

/-- `static void display_usage()`. -/
def display_usage : List stderr_item :=
  [.fprintf "Usage: \n",
   .fprintf "       floptool.exe identify <inputfile> [<inputfile> ...]                                 -- Identify a floppy image format\n",
   .fprintf "       floptool.exe convert [input_format|auto] output_format <inputfile> <outputfile>     -- Convert a floppy image\n",
   .fprintf "       floptool.exe flopcreate output_format filesystem <outputfile>                       -- Create a preformatted floppy image\n",
   .fprintf "       floptool.exe flopdir input_format filesystem <image>                                -- List the contents of a floppy image\n",
   .fprintf "       floptool.exe flopread input_format filesystem <image> <path> <outputfile>           -- Extract a file from a floppy image\n"]

/-- The branch of a command for a wrong `argc`. -/
def incorrect_arguments : report :=
  ⟨.returned 1, .fprintf "Incorrect number of arguments.\n\n" :: display_usage, []⟩

/-- `!core_stricmp(s, "auto")`: equal without regard to case. -/
def is_auto (s : String) : Bool :=
  s.data.map Char.toLower == "auto".data

/-- `static int convert(int argc, char *argv[])`. -/
def convert (w : world) (argv : List String) : report :=
  if argv.length ≠ 6 then incorrect_arguments else
  if !w.readable (arg argv 4) then
    ⟨.returned 1, [.perror ("Error opening " ++ arg argv 4 ++ " for reading")], []⟩ else
  let source :=
    if is_auto (arg argv 2) then
      match find_format_by_identify w with
      | none => Except.error (stderr_item.fprintf
          ("Error: Could not identify the format of file " ++ arg argv 4 ++ "\n"))
      | some f => .ok f
    else
      match find_format_by_name w (arg argv 2) with
      | none => .error (.fprintf ("Error: Format '" ++ arg argv 2 ++ "' unknown\n"))
      | some f => .ok f
  match source with
  | .error e => ⟨.returned 1, [e], []⟩
  | .ok source_format =>
  match find_format_by_name w (arg argv 3) with
  | none => ⟨.returned 1, [.fprintf ("Error: Format '" ++ arg argv 3 ++ "' unknown\n")], []⟩
  | some dest_format =>
  if !dest_format.supports_save then
    ⟨.returned 1,
      [.fprintf ("Error: saving to format '" ++ arg argv 3 ++ "' unsupported\n")], []⟩ else
  if !w.writable (arg argv 5) then
    ⟨.returned 1, [.perror ("Error opening " ++ arg argv 5 ++ " for writing")], []⟩ else
  if !source_format.load then
    ⟨.returned 1,
      [.fprintf ("Error: parsing input file as '" ++ source_format.name ++ "' failed\n")],
      []⟩ else
  if !dest_format.save then
    ⟨.returned 1,
      [.fprintf ("Error: writing output file as '" ++ dest_format.name ++ "' failed\n")],
      []⟩ else
  ⟨.returned 0, [], []⟩

/-- The map that `create` fills from the volume descriptions:
`for(const auto &e : metav) if(!e.m_ro) meta[e.m_name] = e.m_default;`. -/
def create_meta (metav : List fs_meta_description) : fs_meta_data :=
  metav.foldl (fun meta e => if !e.m_ro then meta.assign e.m_name e.m_default else meta) []

/-- `static int create(int argc, char *argv[])`. -/
def create (w : world) (argv : List String) : report :=
  if argv.length ≠ 5 then incorrect_arguments else
  match find_format_by_name w (arg argv 2) with
  | none => ⟨.returned 1, [.fprintf ("Error: Format '" ++ arg argv 3 ++ "' unknown\n")], []⟩
  | some dest_format =>
  match find_fs_by_name w (arg argv 3) with
  | none =>
    ⟨.returned 1, [.fprintf ("Error: Filesystem '" ++ arg argv 2 ++ "' unknown\n")], []⟩
  | some source_fs =>
  let formatted : Except ending Unit × List fs_op :=
    match source_fs.m_type with
    | some _ =>
      match source_fs.m_manager with
      | none => (.error .undefined, [])
      | some m =>
        let meta := create_meta m.volume_meta_description
        let fs := m.mount (fsblk_t.fresh (List.replicate source_fs.m_image_size 0))
        match (fs.format meta).1 with
        | .error text => (.error (.raised text), [.format meta])
        | .ok _ => (.ok (), [.format meta])
    | none => (.ok (), [])
  match formatted with
  | (.error e, ops) => ⟨e, [], ops⟩
  | (.ok _, ops) =>
  if !w.writable (arg argv 4) then
    ⟨.returned 1, [.perror ("Error opening " ++ arg argv 4 ++ " for writing")], ops⟩ else
  if !dest_format.save then
    ⟨.returned 1,
      [.fprintf ("Error: writing output file as '" ++ dest_format.name ++ "' failed\n")],
      ops⟩ else
  ⟨.returned 0, [], ops⟩

/-- `subdir.metadata()`; none on a handle that refers to nothing. -/
def idir_t.get_metadata : idir_t → Option fs_meta_data
  | .invalid => none
  | .mk metadata _ _ _ => some metadata

/-- The inner loop of `dir_scan` over the descriptions `metad` for the metadata
`meta` of one entry: whether every `fs_meta_to_string` in it reads a value of
the variant it asks for. -/
def row_defined (metad : List fs_meta_description) (meta : fs_meta_data) : Bool :=
  metad.all fun m =>
    match meta.find m.m_name with
    | none => true
    | some v => (fs_meta_to_string m.m_type v).isSome

/-- `static void dir_scan(...)`: its calls in order, and whether it ran to its
end (false from a handle that refers to nothing, or a value read as a variant
it does not hold). The rows of text that it collects are left out. -/
def dir_scan (dmetad fmetad : List fs_meta_description) : idir_t → List fs_op × Bool
  | .invalid => ([], false)
  | .mk _ contents dir_get file_get =>
    contents.foldl
      (fun acc c =>
        if !acc.2 then acc else
        match c.m_type with
        | .dir =>
          match (dir_get c.m_key).get_metadata with
          | none => (acc.1 ++ [.dir_get c contents], false)
          | some meta =>
            if row_defined dmetad meta then
              (acc.1 ++ [.dir_get c contents, .dir_metadata] ++
                (dir_scan dmetad fmetad (dir_get c.m_key)).1,
               (dir_scan dmetad fmetad (dir_get c.m_key)).2)
            else (acc.1 ++ [.dir_get c contents, .dir_metadata], false)
        | _ =>
          (acc.1 ++ [.file_get c contents, .file_metadata],
           row_defined fmetad (file_get c.m_key).metadata))
      ([.contents], true)

/-- The text of the line `Volume:` in `generic_dir`; `vmeta[e.m_name]` gives a
fresh `fs_meta()` for a name that is not in the map; none if a value is read as
a variant it does not hold. -/
def volume_line (vmetad : List fs_meta_description) (vmeta : fs_meta_data) : Option String :=
  vmetad.foldl
    (fun vinf e =>
      match vinf, fs_meta_to_string e.m_type ((vmeta.find e.m_name).getD fs_meta.initial) with
      | some s, some t => some (s ++ " " ++ fs_meta_get_name e.m_name ++ "=" ++ t)
      | _, _ => none)
    (some "Volume:")

/-- `static int generic_dir(const filesystem_manager_t *fm, fsblk_t &blockdev)`;
what it prints on `stdout` is left out. -/
def generic_dir (fm : filesystem_manager_t) (blockdev : fsblk_t) : report :=
  let load_fs := fm.mount blockdev
  let vmetad := fm.volume_meta_description
  let fmetad := fm.file_meta_description
  let dmetad := fm.directory_meta_description
  match load_fs.metadata with
  | .error text => ⟨.raised text, [], [.metadata]⟩
  | .ok vmeta =>
  if !vmeta.isEmpty && (volume_line vmetad vmeta).isNone then
    ⟨.undefined, [], [.metadata]⟩ else
  match load_fs.root with
  | .error text => ⟨.raised text, [], [.metadata, .root]⟩
  | .ok root =>
  let r := dir_scan dmetad fmetad root
  ⟨if r.2 then .returned 0 else .undefined, [], [.metadata, .root] ++ r.1⟩

/-- The branch `if(!fs->m_manager || !fs->m_manager->can_read())` of `flopdir`,
`hddir` and `flopread`. -/
def does_not_implement_reading (key : String) : report :=
  ⟨.returned 1,
    [.fprintf ("Error: Filesystem '" ++ key ++ "' does not implement reading\n")], []⟩

/-- `static int flopdir(int argc, char *argv[])`. -/
def flopdir (w : world) (argv : List String) : report :=
  if argv.length ≠ 5 then incorrect_arguments else
  match find_format_by_name w (arg argv 2) with
  | none => ⟨.returned 1, [.fprintf ("Error: Format '" ++ arg argv 3 ++ "' unknown\n")], []⟩
  | some format =>
  match find_fs_by_name w (arg argv 3) with
  | none =>
    ⟨.returned 1, [.fprintf ("Error: Filesystem '" ++ arg argv 2 ++ "' unknown\n")], []⟩
  | some fs =>
  match fs.m_manager with
  | none => does_not_implement_reading (arg argv 2)
  | some m =>
  if !m.can_read then does_not_implement_reading (arg argv 2) else
  if !w.readable (arg argv 4) then
    ⟨.returned 1, [.perror ("Error opening " ++ arg argv 4 ++ " for reading")], []⟩ else
  if !format.load then
    ⟨.returned 1,
      [.fprintf ("Error: parsing input file as '" ++ format.name ++ "' failed\n")], []⟩ else
  match fs.m_type with
  | none => ⟨.undefined, [], []⟩
  | some load_format => generic_dir m (fsblk_t.fresh load_format.saved)

/-- `static int hddir(int argc, char *argv[])`. -/
def hddir (w : world) (argv : List String) : report :=
  if argv.length ≠ 4 then incorrect_arguments else
  match find_fs_by_name w (arg argv 2) with
  | none =>
    ⟨.returned 1, [.fprintf ("Error: Filesystem '" ++ arg argv 2 ++ "' unknown\n")], []⟩
  | some fs =>
  match fs.m_manager with
  | none => does_not_implement_reading (arg argv 2)
  | some m =>
  if !m.can_read then does_not_implement_reading (arg argv 2) else
  if !w.readable (arg argv 3) then
    ⟨.returned 1, [.perror ("Error opening " ++ arg argv 3 ++ " for reading")], []⟩ else
  generic_dir m (fsblk_t.fresh (w.file_bytes (arg argv 3)))

/-- The text `%s%c%s` of the messages of `flopread`. -/
def path_text (apath : String) (separator : Nat) (name : String) : String :=
  apath ++ String.singleton (Char.ofNat separator) ++ name

/-- The loop of `flopread` over the components of `path` before the last: the
directory and `apath` it arrives at with the calls made, or the report it
returns with. -/
def flopread_walk (separator : Nat) :
    List String → idir_t → String → List fs_op → Except report (idir_t × String × List fs_op)
  | [], dir, apath, ops => .ok (dir, apath, ops)
  | p :: rest, dir, apath, ops =>
    match dir with
    | .invalid => .error ⟨.undefined, [], ops⟩
    | .mk _ c dir_get _ =>
      match c.find? (fun e => e.m_name == p) with
      | none =>
        .error ⟨.returned 1,
          [.fprintf ("Error: directory " ++ path_text apath separator p ++ " not found\n")],
          ops ++ [.contents]⟩
      | some e =>
        if e.m_type ≠ .dir then
          .error ⟨.returned 1,
            [.fprintf ("Error: " ++ path_text apath separator p ++ " is not a directory\n")],
            ops ++ [.contents]⟩
        else
          flopread_walk separator rest (dir_get e.m_key)
            (apath ++ (String.singleton (Char.ofNat separator) ++ p))
            (ops ++ [.contents, .dir_get e c])

/-- `static int flopread(int argc, char *argv[])`. -/
def flopread (w : world) (argv : List String) : report :=
  if argv.length ≠ 7 then incorrect_arguments else
  match find_format_by_name w (arg argv 2) with
  | none => ⟨.returned 1, [.fprintf ("Error: Format '" ++ arg argv 2 ++ "' unknown\n")], []⟩
  | some format =>
  match find_fs_by_name w (arg argv 3) with
  | none =>
    ⟨.returned 1, [.fprintf ("Error: Filesystem '" ++ arg argv 3 ++ "' unknown\n")], []⟩
  | some fs =>
  match fs.m_manager with
  | none => does_not_implement_reading (arg argv 2)
  | some m =>
  if !m.can_read then does_not_implement_reading (arg argv 2) else
  if !w.readable (arg argv 4) then
    ⟨.returned 1, [.perror ("Error opening " ++ arg argv 4 ++ " for reading")], []⟩ else
  if !format.load then
    ⟨.returned 1,
      [.fprintf ("Error: parsing input file as '" ++ format.name ++ "' failed\n")], []⟩ else
  match fs.m_type with
  | none => ⟨.undefined, [], []⟩
  | some load_format =>
  let load_fs := m.mount (fsblk_t.fresh load_format.saved)
  if m.has_subdirectories then ⟨.aborted, [], []⟩ else
  let path := [arg argv 5]
  match load_fs.root with
  | .error text => ⟨.raised text, [], [.root]⟩
  | .ok root =>
  match flopread_walk m.directory_separator path.dropLast root "" [.root] with
  | .error r => r
  | .ok (dir, apath, ops) =>
  match dir with
  | .invalid => ⟨.undefined, [], ops⟩
  | .mk _ c _ file_get =>
  match c.find? (fun e => e.m_name == path.getLast (by simp [path])) with
  | none =>
    ⟨.returned 1,
      [.fprintf ("Error: file " ++
        path_text apath m.directory_separator (path.getLast (by simp [path])) ++
        " not found\n")],
      ops ++ [.contents]⟩
  | some e =>
  let file := file_get e.m_key
  if (file.metadata.find .length).isNone then
    ⟨.returned 1,
      [.fprintf ("Error: " ++
        path_text apath m.directory_separator (path.getLast (by simp [path])) ++
        " is not a readable file\n")],
      ops ++ [.contents, .file_get e c, .file_metadata]⟩ else
  if !w.writable (arg argv 6) then
    ⟨.returned 1, [.perror ("Error opening " ++ arg argv 6 ++ " for writing")],
      ops ++ [.contents, .file_get e c, .file_metadata, .read_all]⟩ else
  ⟨.returned 0, [], ops ++ [.contents, .file_get e c, .file_metadata, .read_all]⟩

/-- Whether a call resolves an entry of the listing of its directory with the
accessor of the kind of the entry. -/
def fs_op.consistent : fs_op → Prop
  | .dir_get c l => c ∈ l ∧ c.m_type = .dir
  | .file_get c l => c ∈ l ∧ (c.m_type = .file ∨ c.m_type = .system_file)
  | _ => True

instance fs_op.consistent_decidable (o : fs_op) : Decidable o.consistent := by
  cases o <;> unfold fs_op.consistent <;> infer_instance

/-! ## A table of formats and filesystems for the statements on floptool -/

/-- A floppy format named `mfi` that loads and saves. -/
def demo_format : floppy_image_format_t := ⟨"mfi", 100, true, true, true, [0, 0, 0, 0]⟩

/-- A root directory that lists the directory `GAMES` with key 7 and the file
`README` with key 1; only key 1 gives a file with a length. -/
def demo_root : idir_t :=
  .mk [] [⟨"GAMES", .dir, 7⟩, ⟨"README", .file, 1⟩]
    (fun k => if k = 7 then .mk [(.name, .string "GAMES")] [] (fun _ => .invalid)
      (fun _ => ⟨[], []⟩) else .invalid)
    (fun k => if k = 1 then ⟨[(.name, .string "README"), (.length, .number 3)], [1, 2, 3]⟩
      else ⟨[], []⟩)

/-- A driver that reads but does not format: `can_format()` is false and
`format` is the member of the base class; it has no directory separator. -/
def demo_manager : filesystem_manager_t :=
  ⟨false, true, false, none, some [⟨.name, .string, .string "UNTITLED", false⟩], none, none, 256,
    ⟨none, some [(.name, .string "DISK")], some demo_root⟩⟩

/-- The entry of `demo_manager` in `fs_by_key`. -/
def demo_fs : fs_info := ⟨some demo_manager, some demo_format, 1024, "rofs", 0, "Read-only"⟩

/-- The tables with `demo_format` and `demo_fs`; every file opens. -/
def demo_world : world :=
  ⟨[("mfi", demo_format)], [("rofs", demo_fs)], fun _ => true, fun _ => true, fun _ => []⟩

/-! ## floptool: files in memory -/

/-- `struct iofile_ram`: the vector that `data` points to, and the position. -/
structure iofile_ram where
  data : List uint8_t
  pos : Int
deriving DecidableEq, Repr

/-- The argument `whence` of a seek: one of the three constants of `<stdio.h>`,
or another value. -/
inductive seek_whence where
  | SEEK_SET
  | SEEK_CUR
  | SEEK_END
  | other
deriving DecidableEq, Repr

/-- Conversion to `int64_t`: the value modulo 2^64, from -2^63 up to 2^63 - 1. -/
def to_i64 (x : Int) : Int :=
  (x + 9223372036854775808) % 18446744073709551616 - 9223372036854775808

/-- Conversion to `size_t`, of 64 bits: the value modulo 2^64. -/
def to_u64 (x : Int) : Nat := (x % 18446744073709551616).toNat

/-- `static io_generic *ram_open(std::vector<u8> &data)`: the file it creates. -/
def ram_open (data : List uint8_t) : iofile_ram := ⟨data, 0⟩

/-- `static int ram_seekproc(void *file, int64_t offset, int whence)`: the value
returned and the file afterwards; none when `f->pos += offset` overflows. The
sum of `SEEK_END` is made in `size_t` and converted to `int64_t`. -/
def ram_seekproc (f : iofile_ram) (offset : Int) (whence : seek_whence) :
    Option (Int × iofile_ram) :=
  let moved : Option Int :=
    match whence with
    | .SEEK_SET => some offset
    | .SEEK_CUR =>
      if to_i64 (f.pos + offset) = f.pos + offset then some (f.pos + offset) else none
    | .SEEK_END => some (to_i64 (f.data.length + offset))
    | .other => some f.pos
  match moved with
  | none => none
  | some pos =>
    some (0,
      { f with
        pos :=
          if whence = .SEEK_CUR then max pos 0
          else if pos < 0 then 0
          else if (f.data.length : Int) < pos then f.data.length
          else pos })

/-- Calls of `ram_seekproc` one after the other, each with its `offset` and
`whence`: the file after the last. -/
def seeks : iofile_ram → List (Int × seek_whence) → Option iofile_ram
  | f, [] => some f
  | f, (offset, whence) :: rest =>
    match ram_seekproc f offset whence with
    | none => none
    | some (_, f1) => seeks f1 rest

/-- The count `l` of `ram_readproc`:
`std::min<std::common_type_t<size_t, int64_t>>(length, f->data->size() - f->pos)`,
computed in `size_t`. -/
def read_count (f : iofile_ram) (length : Nat) : Nat :=
  min length (to_u64 (f.data.length - f.pos))

/-- `static size_t ram_readproc(void *file, void *buffer, size_t length)`: the
count returned with the bytes that `memcpy` puts into `buffer`, and the file
afterwards; `outside` when `memcpy` reads bytes that the vector does not have. -/
def ram_readproc (f : iofile_ram) (length : Nat) :
    outcome (Nat × List uint8_t) × iofile_ram :=
  let l := read_count f length
  (if l = 0 ∨ (0 ≤ f.pos ∧ f.pos.toNat + l ≤ f.data.length) then
      .ok (l, (f.data.drop f.pos.toNat).take l)
    else .outside,
   f)

/-! ## A driver with a sparse volume map -/

/-- A driver whose volume has a name and a version, and whose `metadata()` gives
only the version. -/
def sparse_manager : filesystem_manager_t :=
  ⟨true, true, false, none,
    some [⟨.name, .string, .string "UNTITLED", false⟩, ⟨.os_version, .number, .number 0, true⟩],
    none, none, 256, ⟨none, some [(.os_version, .number 3)], some demo_root⟩⟩

/-! ## Inputs and readings used in the statements -/


/-- The sixteen-byte block of zeroes used in the examples. -/
def zero_block : iblock_t := ⟨16, List.replicate 16 0⟩

/-- One call of each checked accessor at offset `0xffffffff`, the largest
`uint32_t`. -/
def calls_at_top : List call :=
  [.copy 4294967295 [1] 1, .fill 4294967295 1 1, .wstr 4294967295 [1],
   .w8 4294967295 1, .w16b 4294967295 1, .w24b 4294967295 1, .w32b 4294967295 1,
   .w16l 4294967295 1, .w24l 4294967295 1, .w32l 4294967295 1,
   .rstr 4294967295 1, .r8 4294967295, .r16b 4294967295, .r24b 4294967295,
   .r32b 4294967295, .r16l 4294967295, .r24l 4294967295, .r32l 4294967295]

/-- The byte of the block at position `i`, as a number. -/
def iblock_t.byte (b : iblock_t) (i : Nat) : Nat := (b.bytes.getD i 0).val

/-- The 16-bit value `v` with its two bytes in reverse order. -/
def swap16 (v : Nat) : Nat := v % 256 * 256 + v / 256 % 256

/-- The 32-bit value `v` with its four bytes in reverse order. -/
def swap32 (v : Nat) : Nat :=
  v % 256 * 16777216 + v / 256 % 256 * 65536 + v / 65536 % 256 * 256 + v / 16777216 % 256

/-! ## Arithmetic of the byte orders -/

theorem or_hi_lo (hi lo i : Nat) (h : lo < 2 ^ i) : (hi <<< i) ||| lo = hi * 2 ^ i + lo := by
  rw [Nat.shiftLeft_eq, Nat.mul_comm hi, Nat.mul_add_lt_is_or h]

theorem or_lo_hi (hi lo i : Nat) (h : lo < 2 ^ i) : lo ||| (hi <<< i) = hi * 2 ^ i + lo := by
  rw [Nat.lor_comm, or_hi_lo hi lo i h]

theorem be16 (b0 b1 : Nat) (h1 : b1 < 256) : (b0 <<< 8) ||| b1 = b0 * 256 + b1 := by
  rw [or_hi_lo b0 b1 8 (by omega)]; norm_num

theorem be24 (b0 b1 b2 : Nat) (h1 : b1 < 256) (h2 : b2 < 256) :
    (b0 <<< 16) ||| (b1 <<< 8) ||| b2 = b0 * 65536 + b1 * 256 + b2 := by
  have e : (b0 <<< 16) ||| (b1 <<< 8) = (b0 * 256 + b1) <<< 8 := by
    rw [or_hi_lo b0 (b1 <<< 8) 16 (by rw [Nat.shiftLeft_eq]; omega)]
    simp only [Nat.shiftLeft_eq]; omega
  rw [e, or_hi_lo _ b2 8 (by omega)]; omega

theorem be32 (b0 b1 b2 b3 : Nat) (h1 : b1 < 256) (h2 : b2 < 256) (h3 : b3 < 256) :
    (b0 <<< 24) ||| (b1 <<< 16) ||| (b2 <<< 8) ||| b3
      = b0 * 16777216 + b1 * 65536 + b2 * 256 + b3 := by
  have e : (b0 <<< 24) ||| (b1 <<< 16) ||| (b2 <<< 8) = (b0 * 65536 + b1 * 256 + b2) <<< 8 := by
    have e1 : (b0 <<< 24) ||| (b1 <<< 16) = (b0 * 256 + b1) <<< 16 := by
      rw [or_hi_lo b0 (b1 <<< 16) 24 (by rw [Nat.shiftLeft_eq]; omega)]
      simp only [Nat.shiftLeft_eq]; omega
    rw [e1, or_hi_lo _ (b2 <<< 8) 16 (by rw [Nat.shiftLeft_eq]; omega)]
    simp only [Nat.shiftLeft_eq]; omega
  rw [e, or_hi_lo _ b3 8 (by omega)]; omega

theorem le16 (b0 b1 : Nat) (h0 : b0 < 256) : b0 ||| (b1 <<< 8) = b0 + b1 * 256 := by
  rw [or_lo_hi b1 b0 8 (by omega)]; omega

theorem le24 (b0 b1 b2 : Nat) (h0 : b0 < 256) (h1 : b1 < 256) :
    b0 ||| (b1 <<< 8) ||| (b2 <<< 16) = b0 + b1 * 256 + b2 * 65536 := by
  rw [le16 b0 b1 h0, or_lo_hi b2 _ 16 (by omega)]; omega

theorem le32 (b0 b1 b2 b3 : Nat) (h0 : b0 < 256) (h1 : b1 < 256) (h2 : b2 < 256) :
    b0 ||| (b1 <<< 8) ||| (b2 <<< 16) ||| (b3 <<< 24)
      = b0 + b1 * 256 + b2 * 65536 + b3 * 16777216 := by
  rw [le24 b0 b1 b2 h0 h1, or_lo_hi b3 _ 24 (by omega)]; omega

theorem poke_length (bytes : List uint8_t) (p : Nat) (xs : List uint8_t)
    (h : p + xs.length ≤ bytes.length) : (poke bytes p xs).length = bytes.length := by
  simp only [poke, List.length_append, List.length_take, List.length_drop]
  omega

theorem poke_getElem?_window (bytes : List uint8_t) (p : Nat) (xs : List uint8_t)
    (h : p + xs.length ≤ bytes.length) (i : Nat) (hi : i < xs.length) :
    (poke bytes p xs)[p + i]? = xs[i]? := by
  have hp : (bytes.take p).length = p := by rw [List.length_take]; omega
  have hx : xs.take (bytes.length - p) = xs := List.take_of_length_le (by omega)
  unfold poke
  rw [hx, List.append_assoc, List.getElem?_append_right (by omega), hp,
    Nat.add_sub_cancel_left, List.getElem?_append_left hi]

theorem poke_window (bytes : List uint8_t) (p : Nat) (xs : List uint8_t)
    (h : p + xs.length ≤ bytes.length) :
    ((poke bytes p xs).drop p).take xs.length = xs := by
  have hp : (bytes.take p).length = p := by rw [List.length_take]; omega
  have hx : xs.take (bytes.length - p) = xs := List.take_of_length_le (by omega)
  unfold poke
  rw [hx, List.append_assoc, List.drop_append_of_le_length (by omega)]
  rw [List.drop_of_length_le (by omega), List.nil_append, List.take_left']
  rfl

theorem rstr_loop_eq (b : iblock_t) (n : Nat) : ∀ (d : Nat) (res : List uint8_t),
    d + n ≤ b.bytes.length →
    rstr_loop b n d res = .ok (res ++ (b.bytes.drop d).take n) := by
  induction n with
  | zero => intro d res _; simp [rstr_loop]
  | succ n ih =>
    intro d res h
    have hd : d < b.bytes.length := by omega
    rw [rstr_loop, List.getElem?_eq_getElem hd]
    simp only
    rw [ih (d + 1) _ (by omega), List.append_assoc]
    congr 2
    rw [List.singleton_append, ← List.take_succ_cons, List.drop_eq_getElem_cons hd]



theorem byte_lt (b : iblock_t) (i : Nat) : b.byte i < 256 := (b.bytes.getD i 0).isLt

theorem rooffset_ok_of_le (b : iblock_t) (f : String) (off size : Nat)
    (h : off + size ≤ b.m_size) : b.rooffset f off size = .ok off := by
  unfold iblock_t.rooffset to_u32
  have : (off + size) % 4294967296 ≤ off + size := Nat.mod_le _ _
  rw [if_neg (by omega)]

theorem load_eq (b : iblock_t) (p i : Nat) (h : p + i < b.bytes.length) :
    b.load p i = .ok (b.byte (p + i)) := by
  unfold iblock_t.load iblock_t.byte
  rw [List.getD_eq_getElem?_getD, List.getElem?_eq_getElem h]
  rfl

theorem store_eq (b : iblock_t) (p : Nat) (xs : List uint8_t)
    (h : p + xs.length ≤ b.bytes.length) :
    b.store p xs = (.ok (), { b with bytes := poke b.bytes p xs }) := by
  unfold iblock_t.store
  rw [if_pos h]

theorem store_wf (b : iblock_t) (p : Nat) (xs : List uint8_t) (hwf : b.wf)
    (h : p + xs.length ≤ b.bytes.length) :
    (b.store p xs).2.wf ∧ (b.store p xs).2.m_size = b.m_size := by
  refine ⟨?_, rfl⟩
  show (poke b.bytes p xs).length = b.m_size
  rw [poke_length _ _ _ h]; exact hwf

theorem store_byte (b : iblock_t) (p : Nat) (xs : List uint8_t)
    (h : p + xs.length ≤ b.bytes.length) (i : Nat) (x : uint8_t) (hx : xs[i]? = some x) :
    (b.store p xs).2.byte (p + i) = x.val := by
  have hi : i < xs.length := by
    rcases Nat.lt_or_ge i xs.length with h1 | h1
    · exact h1
    · rw [List.getElem?_eq_none h1] at hx; cases hx
  show ((poke b.bytes p xs).getD (p + i) 0).val = x.val
  rw [List.getD_eq_getElem?_getD, poke_getElem?_window _ _ _ h i hi, hx]
  rfl

/-! ## The bounds check -/

/-- The bounds check raises the error whenever the sum exceeds the block size
and fits 32 bits. -/
theorem offset_error_of_gt (b : iblock_t) (f : String) (off size : Nat)
    (h : off + size > b.m_size) (h32 : off + size < 4294967296) :
    b.offset f off size = .error ⟨f, false, off, size, b.m_size⟩ := by
  unfold iblock_t.offset to_u32
  rw [Nat.mod_eq_of_lt h32, if_pos h]

/-- The bounds check passes whenever the sum does not exceed the block size. -/
theorem offset_ok_of_le (b : iblock_t) (f : String) (off size : Nat)
    (h : off + size ≤ b.m_size) : b.offset f off size = .ok off := by
  unfold iblock_t.offset to_u32
  have : (off + size) % 4294967296 ≤ off + size := Nat.mod_le _ _
  rw [if_neg (by omega)]

/-! ## The typed readers as sums of bytes -/

theorem r8_eq (b : iblock_t) (o : Nat) (hwf : b.wf) (h : o + 1 ≤ b.m_size) :
    r8 b o = .ok (b.byte o) := by
  unfold iblock_t.wf at hwf
  rw [r8, offset_ok_of_le b _ o 1 h]
  simp only [load_eq b o 0 (by omega), Nat.add_zero]

theorem r16b_eq (b : iblock_t) (o : Nat) (hwf : b.wf) (h : o + 2 ≤ b.m_size) :
    r16b b o = .ok (b.byte o * 256 + b.byte (o + 1)) := by
  unfold iblock_t.wf at hwf
  have h0 := byte_lt b o
  have h1 := byte_lt b (o + 1)
  rw [r16b, offset_ok_of_le b _ o 2 h]
  simp only [load_eq b o 0 (by omega), load_eq b o 1 (by omega), Nat.add_zero, outcome.bind,
    to_u16, be16 _ _ h1]
  congr 1; omega

theorem r16l_eq (b : iblock_t) (o : Nat) (hwf : b.wf) (h : o + 2 ≤ b.m_size) :
    r16l b o = .ok (b.byte o + b.byte (o + 1) * 256) := by
  unfold iblock_t.wf at hwf
  have h0 := byte_lt b o
  have h1 := byte_lt b (o + 1)
  rw [r16l, offset_ok_of_le b _ o 2 h]
  simp only [load_eq b o 0 (by omega), load_eq b o 1 (by omega), Nat.add_zero, outcome.bind,
    to_u16, le16 _ _ h0]
  congr 1; omega

theorem r24b_eq (b : iblock_t) (o : Nat) (hwf : b.wf) (h : o + 3 ≤ b.m_size) :
    r24b b o = .ok (b.byte o * 65536 + b.byte (o + 1) * 256 + b.byte (o + 2)) := by
  unfold iblock_t.wf at hwf
  have h0 := byte_lt b o
  have h1 := byte_lt b (o + 1)
  have h2 := byte_lt b (o + 2)
  rw [r24b, offset_ok_of_le b _ o 3 h]
  simp only [load_eq b o 0 (by omega), load_eq b o 1 (by omega), load_eq b o 2 (by omega),
    Nat.add_zero, outcome.bind, to_u32, be24 _ _ _ h1 h2]
  congr 1; omega

theorem r24l_eq (b : iblock_t) (o : Nat) (hwf : b.wf) (h : o + 3 ≤ b.m_size) :
    r24l b o = .ok (b.byte o + b.byte (o + 1) * 256 + b.byte (o + 2) * 65536) := by
  unfold iblock_t.wf at hwf
  have h0 := byte_lt b o
  have h1 := byte_lt b (o + 1)
  have h2 := byte_lt b (o + 2)
  rw [r24l, offset_ok_of_le b _ o 3 h]
  simp only [load_eq b o 0 (by omega), load_eq b o 1 (by omega), load_eq b o 2 (by omega),
    Nat.add_zero, outcome.bind, to_u32, le24 _ _ _ h0 h1]
  congr 1; omega

theorem r32b_eq (b : iblock_t) (o : Nat) (hwf : b.wf) (h : o + 4 ≤ b.m_size) :
    r32b b o = .ok (b.byte o * 16777216 + b.byte (o + 1) * 65536 + b.byte (o + 2) * 256
      + b.byte (o + 3)) := by
  unfold iblock_t.wf at hwf
  have h0 := byte_lt b o
  have h1 := byte_lt b (o + 1)
  have h2 := byte_lt b (o + 2)
  have h3 := byte_lt b (o + 3)
  rw [r32b, offset_ok_of_le b _ o 4 h]
  simp only [load_eq b o 0 (by omega), load_eq b o 1 (by omega), load_eq b o 2 (by omega),
    load_eq b o 3 (by omega), Nat.add_zero, outcome.bind, to_u32, be32 _ _ _ _ h1 h2 h3]
  congr 1; omega

theorem r32l_eq (b : iblock_t) (o : Nat) (hwf : b.wf) (h : o + 4 ≤ b.m_size) :
    r32l b o = .ok (b.byte o + b.byte (o + 1) * 256 + b.byte (o + 2) * 65536
      + b.byte (o + 3) * 16777216) := by
  unfold iblock_t.wf at hwf
  have h0 := byte_lt b o
  have h1 := byte_lt b (o + 1)
  have h2 := byte_lt b (o + 2)
  have h3 := byte_lt b (o + 3)
  rw [r32l, offset_ok_of_le b _ o 4 h]
  simp only [load_eq b o 0 (by omega), load_eq b o 1 (by omega), load_eq b o 2 (by omega),
    load_eq b o 3 (by omega), Nat.add_zero, outcome.bind, to_u32, le32 _ _ _ _ h0 h1 h2]
  congr 1; omega


/-! ## Writing and reading back -/

theorem to_u8_val (n : Nat) : (to_u8 n).val = n % 256 := rfl

/-- Inside the block a typed writer is the store of its bytes. -/
theorem writer_eq (b : iblock_t) (f : String) (o : Nat) (xs : List uint8_t) (hwf : b.wf)
    (h : o + xs.length ≤ b.m_size) :
    (match b.offset f o xs.length with
      | .error e => (outcome.fatal e, b)
      | .ok blk => b.store blk xs) = (.ok (), { b with bytes := poke b.bytes o xs }) := by
  unfold iblock_t.wf at hwf
  rw [offset_ok_of_le b f o xs.length h]
  exact store_eq b o xs (by omega)

/-- The block after an in-range store: well-formed, of the same size, with the
stored bytes in the window. -/
theorem stored (b : iblock_t) (o : Nat) (xs : List uint8_t) (hwf : b.wf)
    (h : o + xs.length ≤ b.m_size) :
    let b1 : iblock_t := { b with bytes := poke b.bytes o xs }
    b1.wf ∧ b1.m_size = b.m_size ∧
      ∀ (i : Nat) (x : uint8_t), xs[i]? = some x → b1.byte (o + i) = x.val := by
  unfold iblock_t.wf at hwf
  have hl : o + xs.length ≤ b.bytes.length := by omega
  refine ⟨(store_wf b o xs hwf hl).1, rfl, ?_⟩
  intro i x hx
  exact store_byte b o xs hl i x hx

theorem w8_r8 (b : iblock_t) (o v : Nat) (hwf : b.wf) (h : o + 1 ≤ b.m_size)
    (hv : v < 256) : (w8 b o v).1 = .ok () ∧ r8 (w8 b o v).2 o = .ok v := by
  have e : w8 b o v = _ :=
    writer_eq b "w8" o
      [to_u8 v] hwf h
  obtain ⟨w1, w2, w3⟩ := stored b o
    [to_u8 v] hwf h
  have b0 : _ = v % 256 := w3 0 (to_u8 v) rfl
  rw [e]
  refine ⟨rfl, ?_⟩
  rw [r8_eq _ o w1 (by rw [w2]; exact h)]
  simp only [Nat.add_zero] at b0
  rw [b0]
  congr 1; omega

theorem w16b_r16b (b : iblock_t) (o v : Nat) (hwf : b.wf) (h : o + 2 ≤ b.m_size)
    (hv : v < 65536) : (w16b b o v).1 = .ok () ∧ r16b (w16b b o v).2 o = .ok v := by
  have e : w16b b o v = _ :=
    writer_eq b "w16b" o
      [to_u8 (v >>> 8), to_u8 v] hwf h
  obtain ⟨w1, w2, w3⟩ := stored b o
    [to_u8 (v >>> 8), to_u8 v] hwf h
  have b0 : _ = (v >>> 8) % 256 := w3 0 (to_u8 (v >>> 8)) rfl
  have b1 : _ = v % 256 := w3 1 (to_u8 v) rfl
  rw [e]
  refine ⟨rfl, ?_⟩
  rw [r16b_eq _ o w1 (by rw [w2]; exact h)]
  simp only [Nat.add_zero] at b0
  rw [b0, b1]
  simp only [Nat.shiftRight_eq_div_pow]
  congr 1; omega

theorem w16l_r16l (b : iblock_t) (o v : Nat) (hwf : b.wf) (h : o + 2 ≤ b.m_size)
    (hv : v < 65536) : (w16l b o v).1 = .ok () ∧ r16l (w16l b o v).2 o = .ok v := by
  have e : w16l b o v = _ :=
    writer_eq b "w16l" o
      [to_u8 v, to_u8 (v >>> 8)] hwf h
  obtain ⟨w1, w2, w3⟩ := stored b o
    [to_u8 v, to_u8 (v >>> 8)] hwf h
  have b0 : _ = v % 256 := w3 0 (to_u8 v) rfl
  have b1 : _ = (v >>> 8) % 256 := w3 1 (to_u8 (v >>> 8)) rfl
  rw [e]
  refine ⟨rfl, ?_⟩
  rw [r16l_eq _ o w1 (by rw [w2]; exact h)]
  simp only [Nat.add_zero] at b0
  rw [b0, b1]
  simp only [Nat.shiftRight_eq_div_pow]
  congr 1; omega

theorem w32b_r32b (b : iblock_t) (o v : Nat) (hwf : b.wf) (h : o + 4 ≤ b.m_size)
    (hv : v < 4294967296) : (w32b b o v).1 = .ok () ∧ r32b (w32b b o v).2 o = .ok v := by
  have e : w32b b o v = _ :=
    writer_eq b "w32b" o
      [to_u8 (v >>> 24), to_u8 (v >>> 16), to_u8 (v >>> 8), to_u8 v] hwf h
  obtain ⟨w1, w2, w3⟩ := stored b o
    [to_u8 (v >>> 24), to_u8 (v >>> 16), to_u8 (v >>> 8), to_u8 v] hwf h
  have b0 : _ = (v >>> 24) % 256 := w3 0 (to_u8 (v >>> 24)) rfl
  have b1 : _ = (v >>> 16) % 256 := w3 1 (to_u8 (v >>> 16)) rfl
  have b2 : _ = (v >>> 8) % 256 := w3 2 (to_u8 (v >>> 8)) rfl
  have b3 : _ = v % 256 := w3 3 (to_u8 v) rfl
  rw [e]
  refine ⟨rfl, ?_⟩
  rw [r32b_eq _ o w1 (by rw [w2]; exact h)]
  simp only [Nat.add_zero] at b0
  rw [b0, b1, b2, b3]
  simp only [Nat.shiftRight_eq_div_pow]
  congr 1; omega

theorem w32l_r32l (b : iblock_t) (o v : Nat) (hwf : b.wf) (h : o + 4 ≤ b.m_size)
    (hv : v < 4294967296) : (w32l b o v).1 = .ok () ∧ r32l (w32l b o v).2 o = .ok v := by
  have e : w32l b o v = _ :=
    writer_eq b "w32l" o
      [to_u8 v, to_u8 (v >>> 8), to_u8 (v >>> 16), to_u8 (v >>> 24)] hwf h
  obtain ⟨w1, w2, w3⟩ := stored b o
    [to_u8 v, to_u8 (v >>> 8), to_u8 (v >>> 16), to_u8 (v >>> 24)] hwf h
  have b0 : _ = v % 256 := w3 0 (to_u8 v) rfl
  have b1 : _ = (v >>> 8) % 256 := w3 1 (to_u8 (v >>> 8)) rfl
  have b2 : _ = (v >>> 16) % 256 := w3 2 (to_u8 (v >>> 16)) rfl
  have b3 : _ = (v >>> 24) % 256 := w3 3 (to_u8 (v >>> 24)) rfl
  rw [e]
  refine ⟨rfl, ?_⟩
  rw [r32l_eq _ o w1 (by rw [w2]; exact h)]
  simp only [Nat.add_zero] at b0
  rw [b0, b1, b2, b3]
  simp only [Nat.shiftRight_eq_div_pow]
  congr 1; omega


theorem store_not_fatal (b : iblock_t) (p : Nat) (xs : List uint8_t) (e : out_of_block) :
    (b.store p xs).1 ≠ .fatal e := by
  unfold iblock_t.store
  split_ifs <;> simp

theorem set_not_fatal (b : iblock_t) (p : Nat) (d : uint8_t) (n : Nat) (e : out_of_block) :
    (b.set p d n).1 ≠ .fatal e := by
  unfold iblock_t.set
  split_ifs <;> simp

theorem load_not_fatal (b : iblock_t) (p i : Nat) (e : out_of_block) :
    b.load p i ≠ .fatal e := by
  unfold iblock_t.load
  split <;> simp

theorem rstr_loop_not_fatal (b : iblock_t) (n : Nat) : ∀ (d : Nat) (res : List uint8_t)
    (e : out_of_block), rstr_loop b n d res ≠ .fatal e := by
  induction n with
  | zero => intro d res e; simp [rstr_loop]
  | succ n ih =>
    intro d res e
    rw [rstr_loop]
    split
    · exact ih _ _ e
    · simp

theorem bind_fatal {α β : Type} (x : outcome α) (f : α → outcome β) (e : out_of_block)
    (h : x.bind f = .fatal e) : x = .fatal e ∨ ∃ v, x = .ok v ∧ f v = .fatal e := by
  cases x with
  | ok v => exact Or.inr ⟨v, rfl, h⟩
  | fatal e1 => left; simpa [outcome.bind] using h
  | outside => simp [outcome.bind] at h

theorem map_fatal {α β : Type} (x : outcome α) (f : α → β) (e : out_of_block)
    (h : x.map f = .fatal e) : x = .fatal e := by
  cases x with
  | ok v => simp [outcome.map] at h
  | fatal e1 => simpa [outcome.map] using h
  | outside => simp [outcome.map] at h

/-- A failing write accessor: the error is the one of the check and the block is
the one before the call. -/
theorem checked_write_fatal (b : iblock_t) (f : String) (o n : Nat)
    (k : Nat → outcome Unit × iblock_t) (e : out_of_block)
    (hk : ∀ p, (k p).1 ≠ .fatal e)
    (h : (match b.offset f o n with
      | .error e => (outcome.fatal e, b)
      | .ok blk => k blk).1 = .fatal e) :
    e = ⟨f, false, o, n, b.m_size⟩ ∧
    (match b.offset f o n with
      | .error e => (outcome.fatal e, b)
      | .ok blk => k blk).2 = b := by
  unfold iblock_t.offset at h ⊢
  split_ifs at h ⊢ with hc
  · simp only [outcome.fatal.injEq] at h
    exact ⟨h.symm, rfl⟩
  · exact absurd h (hk _)

/-- A failing typed reader: the error is the one of the check. -/
theorem checked_read_fatal {α : Type} (b : iblock_t) (f : String) (o n : Nat)
    (k : Nat → outcome α) (e : out_of_block)
    (hk : ∀ p, k p ≠ .fatal e)
    (h : (match b.offset f o n with
      | .error e => outcome.fatal e
      | .ok blk => k blk) = .fatal e) :
    e = ⟨f, false, o, n, b.m_size⟩ := by
  unfold iblock_t.offset at h
  split_ifs at h with hc
  · simp only [outcome.fatal.injEq] at h
    exact h.symm
  · exact absurd h (hk _)


theorem bind_not_fatal {α β : Type} (x : outcome α) (f : α → outcome β)
    (hx : ∀ e, x ≠ .fatal e) (hf : ∀ v e, f v ≠ .fatal e) (e : out_of_block) :
    x.bind f ≠ .fatal e := by
  intro h
  rcases bind_fatal x f e h with h1 | ⟨v, _, h2⟩
  · exact hx e h1
  · exact hf v e h2

theorem ok_not_fatal {α : Type} (v : α) (e : out_of_block) :
    (outcome.ok v : outcome α) ≠ .fatal e := by
  simp


/-- An accessor that fails reports the arguments of its own check and leaves
the block as it was. -/
theorem run_fatal (b : iblock_t) (c : call) (e : out_of_block) (h : (run b c).1 = .fatal e) :
    e = ⟨c.name, (match c with | .rstr .. => true | _ => false), c.offset, c.checked_size,
      b.m_size⟩ ∧ (run b c).2 = b := by
  cases c with
  | copy o src n =>
    have h1 := map_fatal _ _ _ h
    exact checked_write_fatal b "copy" o n
      (fun blk => if n ≤ src.length then b.store blk (src.take n)
        else (.outside, (b.store blk src).2)) e
      (fun p => by
        show (if n ≤ src.length then b.store p (src.take n)
          else (outcome.outside, (b.store p src).2)).1 ≠ _
        split_ifs
        · exact store_not_fatal _ _ _ _
        · simp) h1
  | fill o d n =>
    exact checked_write_fatal b "fill" o n (fun blk => b.set blk d n) e
      (fun p => set_not_fatal _ _ _ _ _) (map_fatal _ _ _ h)
  | wstr o s =>
    exact checked_write_fatal b "wstr" o (to_u32 s.length) (fun blk => b.store blk s) e
      (fun p => store_not_fatal _ _ _ _) (map_fatal _ _ _ h)
  | w8 o d =>
    exact checked_write_fatal b "w8" o 1 (fun blk => b.store blk _) e
      (fun p => store_not_fatal _ _ _ _) (map_fatal _ _ _ h)
  | w16b o d =>
    exact checked_write_fatal b "w16b" o 2 (fun blk => b.store blk _) e
      (fun p => store_not_fatal _ _ _ _) (map_fatal _ _ _ h)
  | w24b o d =>
    exact checked_write_fatal b "w24b" o 3 (fun blk => b.store blk _) e
      (fun p => store_not_fatal _ _ _ _) (map_fatal _ _ _ h)
  | w32b o d =>
    exact checked_write_fatal b "w32b" o 4 (fun blk => b.store blk _) e
      (fun p => store_not_fatal _ _ _ _) (map_fatal _ _ _ h)
  | w16l o d =>
    exact checked_write_fatal b "w16l" o 2 (fun blk => b.store blk _) e
      (fun p => store_not_fatal _ _ _ _) (map_fatal _ _ _ h)
  | w24l o d =>
    exact checked_write_fatal b "w24l" o 3 (fun blk => b.store blk _) e
      (fun p => store_not_fatal _ _ _ _) (map_fatal _ _ _ h)
  | w32l o d =>
    exact checked_write_fatal b "w32l" o 4 (fun blk => b.store blk _) e
      (fun p => store_not_fatal _ _ _ _) (map_fatal _ _ _ h)
  | rstr o n =>
    refine ⟨?_, rfl⟩
    have h1 : rstr b o n = .fatal e := map_fatal _ _ _ h
    unfold rstr iblock_t.rooffset at h1
    split_ifs at h1 with hc
    · simp only [outcome.fatal.injEq] at h1
      exact h1.symm
    · exact absurd h1 (rstr_loop_not_fatal _ _ _ _ _)
  | r8 o =>
    exact ⟨checked_read_fatal b "r8" o 1 (fun blk => b.load blk 0) e
      (fun p => load_not_fatal _ _ _ _) (map_fatal _ _ _ h), rfl⟩
  | r16b o =>
    refine ⟨checked_read_fatal b "r16b" o 2 _ e (fun p => ?_) (map_fatal _ _ _ h), rfl⟩
    exact bind_not_fatal _ _ (load_not_fatal _ _ _) (fun _ => bind_not_fatal _ _
      (load_not_fatal _ _ _) (fun _ => ok_not_fatal _)) e
  | r24b o =>
    refine ⟨checked_read_fatal b "r24b" o 3 _ e (fun p => ?_) (map_fatal _ _ _ h), rfl⟩
    exact bind_not_fatal _ _ (load_not_fatal _ _ _) (fun _ => bind_not_fatal _ _
      (load_not_fatal _ _ _) (fun _ => bind_not_fatal _ _
      (load_not_fatal _ _ _) (fun _ => ok_not_fatal _))) e
  | r32b o =>
    refine ⟨checked_read_fatal b "r32b" o 4 _ e (fun p => ?_) (map_fatal _ _ _ h), rfl⟩
    exact bind_not_fatal _ _ (load_not_fatal _ _ _) (fun _ => bind_not_fatal _ _
      (load_not_fatal _ _ _) (fun _ => bind_not_fatal _ _
      (load_not_fatal _ _ _) (fun _ => bind_not_fatal _ _
      (load_not_fatal _ _ _) (fun _ => ok_not_fatal _)))) e
  | r16l o =>
    refine ⟨checked_read_fatal b "r16l" o 2 _ e (fun p => ?_) (map_fatal _ _ _ h), rfl⟩
    exact bind_not_fatal _ _ (load_not_fatal _ _ _) (fun _ => bind_not_fatal _ _
      (load_not_fatal _ _ _) (fun _ => ok_not_fatal _)) e
  | r24l o =>
    refine ⟨checked_read_fatal b "r24l" o 3 _ e (fun p => ?_) (map_fatal _ _ _ h), rfl⟩
    exact bind_not_fatal _ _ (load_not_fatal _ _ _) (fun _ => bind_not_fatal _ _
      (load_not_fatal _ _ _) (fun _ => bind_not_fatal _ _
      (load_not_fatal _ _ _) (fun _ => ok_not_fatal _))) e
  | r32l o =>
    refine ⟨checked_read_fatal b "r32l" o 4 _ e (fun p => ?_) (map_fatal _ _ _ h), rfl⟩
    exact bind_not_fatal _ _ (load_not_fatal _ _ _) (fun _ => bind_not_fatal _ _
      (load_not_fatal _ _ _) (fun _ => bind_not_fatal _ _
      (load_not_fatal _ _ _) (fun _ => bind_not_fatal _ _
      (load_not_fatal _ _ _) (fun _ => ok_not_fatal _)))) e


theorem rooffset_error_of_gt (b : iblock_t) (f : String) (off size : Nat)
    (h : off + size > b.m_size) (h32 : off + size < 4294967296) :
    b.rooffset f off size = .error ⟨f, true, off, size, b.m_size⟩ := by
  unfold iblock_t.rooffset to_u32
  rw [Nat.mod_eq_of_lt h32, if_pos h]

/-- As long as offset + size fits 32 bits, an access that reaches past the end
of the block fails with the error of the check and leaves the block as it was. -/
theorem run_fatal_of_gt (b : iblock_t) (c : call) (h : c.offset + c.size > b.m_size)
    (h32 : c.offset + c.size < 4294967296) :
    run b c = (.fatal ⟨c.name, (match c with | .rstr .. => true | _ => false), c.offset,
      c.size, b.m_size⟩, b) := by
  cases c with
  | rstr o n => simp only [run, rstr, rooffset_error_of_gt b _ o n h h32, outcome.map,
      call.name, call.offset, call.size]
  | wstr o s =>
    have hs : to_u32 s.length = s.length := Nat.mod_eq_of_lt (by
      simp only [call.offset, call.size] at h32; omega)
    simp only [run, wstr, hs, offset_error_of_gt b _ o s.length h h32, outcome.map,
      call.name, call.offset, call.size]
  | copy o src n => simp only [run, copy, offset_error_of_gt b _ o n h h32, outcome.map,
      call.name, call.offset, call.size]
  | fill o d n => simp only [run, fill, offset_error_of_gt b _ o n h h32, outcome.map,
      call.name, call.offset, call.size]
  | w8 o d => simp only [run, w8, offset_error_of_gt b _ o 1 h h32, outcome.map,
      call.name, call.offset, call.size]
  | w16b o d => simp only [run, w16b, offset_error_of_gt b _ o 2 h h32, outcome.map,
      call.name, call.offset, call.size]
  | w24b o d => simp only [run, w24b, offset_error_of_gt b _ o 3 h h32, outcome.map,
      call.name, call.offset, call.size]
  | w32b o d => simp only [run, w32b, offset_error_of_gt b _ o 4 h h32, outcome.map,
      call.name, call.offset, call.size]
  | w16l o d => simp only [run, w16l, offset_error_of_gt b _ o 2 h h32, outcome.map,
      call.name, call.offset, call.size]
  | w24l o d => simp only [run, w24l, offset_error_of_gt b _ o 3 h h32, outcome.map,
      call.name, call.offset, call.size]
  | w32l o d => simp only [run, w32l, offset_error_of_gt b _ o 4 h h32, outcome.map,
      call.name, call.offset, call.size]
  | r8 o => simp only [run, r8, offset_error_of_gt b _ o 1 h h32, outcome.map,
      call.name, call.offset, call.size]
  | r16b o => simp only [run, r16b, offset_error_of_gt b _ o 2 h h32, outcome.map,
      call.name, call.offset, call.size]
  | r24b o => simp only [run, r24b, offset_error_of_gt b _ o 3 h h32, outcome.map,
      call.name, call.offset, call.size]
  | r32b o => simp only [run, r32b, offset_error_of_gt b _ o 4 h h32, outcome.map,
      call.name, call.offset, call.size]
  | r16l o => simp only [run, r16l, offset_error_of_gt b _ o 2 h h32, outcome.map,
      call.name, call.offset, call.size]
  | r24l o => simp only [run, r24l, offset_error_of_gt b _ o 3 h h32, outcome.map,
      call.name, call.offset, call.size]
  | r32l o => simp only [run, r32l, offset_error_of_gt b _ o 4 h h32, outcome.map,
      call.name, call.offset, call.size]

theorem copy_in_range (b : iblock_t) (o : Nat) (s : List uint8_t) (hwf : b.wf)
    (h : o + s.length ≤ b.m_size) :
    copy b o s s.length = (.ok (), { b with bytes := poke b.bytes o s }) := by
  unfold iblock_t.wf at hwf
  rw [copy, offset_ok_of_le b _ o s.length h]
  simp only [le_refl, if_true, List.take_length]
  exact store_eq b o s (by omega)

theorem wstr_in_range (b : iblock_t) (o : Nat) (s : List uint8_t) (hwf : b.wf)
    (h : o + s.length ≤ b.m_size) :
    wstr b o s = (.ok (), { b with bytes := poke b.bytes o s }) := by
  unfold iblock_t.wf at hwf
  have hs : to_u32 s.length ≤ s.length := Nat.mod_le _ _
  rw [wstr, offset_ok_of_le b _ o (to_u32 s.length) (by omega)]
  exact store_eq b o s (by omega)

theorem rstr_after_store (b : iblock_t) (o : Nat) (s : List uint8_t) (hwf : b.wf)
    (h : o + s.length ≤ b.m_size) :
    rstr { b with bytes := poke b.bytes o s } o s.length = .ok s := by
  unfold iblock_t.wf at hwf
  have hl : o + s.length ≤ b.bytes.length := by omega
  rw [rstr, rooffset_ok_of_le { b with bytes := poke b.bytes o s } _ o s.length h]
  simp only
  rw [rstr_loop_eq _ _ _ _ (by simp only [poke_length _ _ _ hl]; exact hl)]
  simp only [List.nil_append, poke_window _ _ _ hl]

/-! ## The reference counter, step by step -/

namespace fs_refcounted_inner

theorem dec_u32_succ (n : Nat) (h : n + 1 < 4294967296) : dec_u32 (n + 1) = n := by
  unfold dec_u32 to_u32; omega

theorem dec_u32_to_u32 (n : Nat) (h : 0 < n) : dec_u32 (to_u32 n) = to_u32 (n - 1) := by
  unfold dec_u32 to_u32; omega

/-- The three ways through `unref()`. -/
theorem unref_cases (o : fs_refcounted_inner) (k : Nat) :
    (dec_u32 o.m_ref ≠ 0 → unref k o = { o with m_ref := dec_u32 o.m_ref }) ∧
    (dec_u32 o.m_ref = 0 → o.m_weak_ref = 0 →
      unref k o = ⟨dec_u32 o.m_ref, o.m_weak_ref, o.log ++ [event.freed]⟩) ∧
    (dec_u32 o.m_ref = 0 → o.m_weak_ref ≠ 0 →
      unref k o =
        if (drop_weak_references k { o with m_ref := dec_u32 o.m_ref }).m_weak_ref ≠ 0 then
          { drop_weak_references k { o with m_ref := dec_u32 o.m_ref } with
            log := (drop_weak_references k { o with m_ref := dec_u32 o.m_ref }).log ++
              [event.kept
                (drop_weak_references k { o with m_ref := dec_u32 o.m_ref }).m_weak_ref] }
        else drop_weak_references k { o with m_ref := dec_u32 o.m_ref }) := by
  generalize hr : dec_u32 o.m_ref = r
  refine ⟨fun h => ?_, fun h hw => ?_, fun h hw => ?_⟩
  · unfold unref
    simp only [hr, if_neg h]
  · unfold unref
    subst h
    simp only [hr, hw, if_true, ne_eq, not_true_eq_false, if_false, delete_this]
  · unfold unref
    subst h
    simp only [hr, if_true, ne_eq, hw, not_false_eq_true]

theorem ref_iterate (n : Nat) : ∀ (m : Nat) (l : List event),
    ref^[n] ⟨m, 0, l⟩ = ⟨if n = 0 then m else to_u32 (m + n), 0, l⟩ := by
  induction n with
  | zero => intro m l; rfl
  | succ n ih =>
    intro m l
    rw [Function.iterate_succ_apply, ref, ih]
    simp only [Nat.add_one_ne_zero, if_false, to_u32]
    split_ifs with h
    · subst h; rfl
    · congr 1; omega

theorem unref_iterate_lt (k N : Nat) (hN : N ≤ 4294967296) : ∀ (j : Nat), j < N →
    (unref k)^[j] ⟨to_u32 N, 0, []⟩ = ⟨to_u32 (N - j), 0, []⟩ := by
  intro j
  induction j with
  | zero => intro _; rfl
  | succ j ih =>
    intro h
    rw [Function.iterate_succ_apply', ih (by omega)]
    have h1 : dec_u32 (to_u32 (N - j)) = to_u32 (N - (j + 1)) :=
      dec_u32_to_u32 (N - j) (by omega)
    have h2 : to_u32 (N - (j + 1)) ≠ 0 := by unfold to_u32; omega
    rw [(unref_cases ⟨to_u32 (N - j), 0, []⟩ k).1 (by rw [h1]; exact h2), h1]

theorem unref_iterate_last (k N : Nat) (h1 : 1 ≤ N) (hN : N ≤ 4294967296) :
    (unref k)^[N] ⟨to_u32 N, 0, []⟩ = ⟨0, 0, [event.freed]⟩ := by
  obtain ⟨n, rfl⟩ : ∃ n, N = n + 1 := ⟨N - 1, by omega⟩
  rw [Function.iterate_succ_apply', unref_iterate_lt k (n + 1) hN n (by omega)]
  have h2 : dec_u32 (to_u32 (n + 1 - n)) = 0 := by
    unfold dec_u32 to_u32; omega
  rw [(unref_cases ⟨to_u32 (n + 1 - n), 0, []⟩ k).2.1 h2 rfl, h2]
  rfl

theorem unref_weak_step (w : Nat) (l : List event) (h : w + 1 < 4294967296) :
    unref_weak ⟨0, w + 1, l⟩ = if w = 0 then ⟨0, 0, l ++ [event.freed]⟩ else ⟨0, w, l⟩ := by
  unfold unref_weak
  simp only [dec_u32_succ w h, and_true, delete_this]
  split_ifs with h0
  · subst h0; rfl
  · rfl

/-- Releasing every weak reference of an object without strong references frees
it with the last release. -/
theorem unref_weak_iterate_all (w : Nat) : ∀ (l : List event), 0 < w → w < 4294967296 →
    unref_weak^[w] ⟨0, w, l⟩ = ⟨0, 0, l ++ [event.freed]⟩ := by
  induction w with
  | zero => intro l h; omega
  | succ w ih =>
    intro l _ hw
    rw [Function.iterate_succ_apply, unref_weak_step w l hw]
    rcases Nat.eq_zero_or_pos w with h0 | h0
    · subst h0; rfl
    · rw [if_neg (by omega)]
      exact ih l h0 (by omega)

theorem unref_weak_log (s : fs_refcounted_inner) :
    (unref_weak s).log = s.log ∨ (unref_weak s).log = s.log ++ [event.freed] := by
  simp only [unref_weak]
  split_ifs
  · exact Or.inr rfl
  · exact Or.inl rfl

/-- The releases made by the hook add nothing but `freed` events. -/
theorem unref_weak_iterate_log (k : Nat) : ∀ (s : fs_refcounted_inner),
    ∃ m, (unref_weak^[k] s).log = s.log ++ List.replicate m event.freed := by
  induction k with
  | zero => intro s; exact ⟨0, by simp⟩
  | succ k ih =>
    intro s
    rw [Function.iterate_succ_apply]
    obtain ⟨m, hm⟩ := ih (unref_weak s)
    rw [hm]
    rcases unref_weak_log s with h | h
    · exact ⟨m, by rw [h]⟩
    · exact ⟨m + 1, by rw [h, List.append_assoc, List.replicate_succ, List.singleton_append]⟩

theorem drop_weak_references_log (k : Nat) (s : fs_refcounted_inner) :
    ∃ m, (drop_weak_references k s).log =
      s.log ++ event.dropped :: List.replicate m event.freed := by
  obtain ⟨m, hm⟩ := unref_weak_iterate_log k { s with log := s.log ++ [event.dropped] }
  refine ⟨m, ?_⟩
  unfold drop_weak_references
  rw [hm, List.append_assoc, List.singleton_append]

theorem errors_replicate_freed (m : Nat) : List.countP (fun e => match e with
    | event.kept _ => true
    | _ => false) (List.replicate m event.freed) = 0 := by
  rw [List.countP_eq_zero]
  intro a ha
  rw [List.eq_of_mem_replicate ha]
  simp

end fs_refcounted_inner

/-! ## Calls on a live object -/

namespace fs_refcounted_inner

theorem unref_weak_eq (o : fs_refcounted_inner) :
    unref_weak o = if dec_u32 o.m_weak_ref = 0 ∧ o.m_ref = 0
      then ⟨o.m_ref, dec_u32 o.m_weak_ref, o.log ++ [event.freed]⟩
      else ⟨o.m_ref, dec_u32 o.m_weak_ref, o.log⟩ := by
  unfold unref_weak
  simp only [delete_this]

/-- What one `unref_weak()` does. -/
theorem unref_weak_cases (o : fs_refcounted_inner) :
    (unref_weak o).m_ref = o.m_ref ∧ (unref_weak o).m_weak_ref = dec_u32 o.m_weak_ref ∧
    (unref_weak o).log = o.log ++
      (if dec_u32 o.m_weak_ref = 0 ∧ o.m_ref = 0 then [event.freed] else []) := by
  rw [unref_weak_eq]
  split_ifs with h
  · simp only [and_self]
  · simp only [List.append_nil, and_self]

theorem dec_u32_lt (n : Nat) : dec_u32 n < 4294967296 := by
  unfold dec_u32 to_u32; omega

theorem dec_u32_pos (n : Nat) (h1 : 1 ≤ n) (h2 : n < 4294967296) : dec_u32 n = n - 1 := by
  unfold dec_u32 to_u32; omega

theorem frees_append_freed (l : List event) :
    List.count event.freed (l ++ [event.freed]) = List.count event.freed l + 1 := by
  simp [List.count_append]

theorem frees_append_dropped (l : List event) :
    List.count event.freed (l ++ [event.dropped]) = List.count event.freed l := by
  simp [List.count_append]

theorem frees_append_kept (l : List event) (n : Nat) :
    List.count event.freed (l ++ [event.kept n]) = List.count event.freed l := by
  simp [List.count_append]

/-- Releasing fewer weak references than there are frees nothing. -/
theorem unref_weak_iterate_lt (k : Nat) : ∀ (w : Nat) (l : List event), k < w →
    w < 4294967296 → unref_weak^[k] ⟨0, w, l⟩ = ⟨0, w - k, l⟩ := by
  induction k with
  | zero => intro w l _ _; rfl
  | succ k ih =>
    intro w l hk hw
    obtain ⟨v, rfl⟩ : ∃ v, w = v + 1 := ⟨w - 1, by omega⟩
    rw [Function.iterate_succ_apply, unref_weak_step v l hw, if_neg (by omega),
      ih v l (by omega) (by omega)]
    congr 1; omega

/-- The hook releases some but not all of the weak references: nothing is freed
and the error is raised. -/
theorem unref_hook_some (o : fs_refcounted_inner) (k : Nat) (h0 : dec_u32 o.m_ref = 0)
    (hw : o.m_weak_ref < 4294967296) (hk : k < o.m_weak_ref) :
    unref k o = ⟨0, o.m_weak_ref - k,
      o.log ++ [event.dropped] ++ [event.kept (o.m_weak_ref - k)]⟩ := by
  have hz : o.m_weak_ref ≠ 0 := by omega
  have ha : drop_weak_references k { o with m_ref := dec_u32 o.m_ref } =
      ⟨0, o.m_weak_ref - k, o.log ++ [event.dropped]⟩ := by
    unfold drop_weak_references
    rw [h0]
    exact unref_weak_iterate_lt k o.m_weak_ref _ hk hw
  rw [(unref_cases o k).2.2 h0 hz, ha]
  have hn : o.m_weak_ref - k ≠ 0 := by omega
  simp only [ne_eq, hn, not_false_eq_true, if_true]

/-- The hook releases all of the weak references: the last release frees. -/
theorem unref_hook_all (o : fs_refcounted_inner) (h0 : dec_u32 o.m_ref = 0)
    (hw : o.m_weak_ref < 4294967296) (hz : o.m_weak_ref ≠ 0) :
    unref o.m_weak_ref o = ⟨0, 0, o.log ++ [event.dropped] ++ [event.freed]⟩ := by
  have ha : drop_weak_references o.m_weak_ref { o with m_ref := dec_u32 o.m_ref } =
      ⟨0, 0, o.log ++ [event.dropped] ++ [event.freed]⟩ := by
    unfold drop_weak_references
    rw [h0]
    exact unref_weak_iterate_all o.m_weak_ref _ (by omega) hw
  rw [(unref_cases o o.m_weak_ref).2.2 h0 hz, ha]
  simp only [ne_eq, not_true_eq_false, if_false]

/-- One call with an admissible hook frees at most once, and the state in which
it frees has both counts at zero. -/
theorem apply_frees (o : fs_refcounted_inner) (c : op) (hw : o.m_weak_ref < 4294967296)
    (hk : hook_ok o c) :
    (o.apply c).m_weak_ref < 4294967296 ∧
    ((o.apply c).frees = o.frees ∨
      ((o.apply c).frees = o.frees + 1 ∧ (o.apply c).m_ref = 0 ∧
        (o.apply c).m_weak_ref = 0)) := by
  cases c with
  | ref =>
    simp only [apply, ref, frees]
    exact ⟨hw, Or.inl trivial⟩
  | ref_weak =>
    simp only [apply, ref_weak, frees]
    exact ⟨Nat.mod_lt _ (by decide), Or.inl trivial⟩
  | unref_weak =>
    obtain ⟨c1, c2, c3⟩ := unref_weak_cases o
    simp only [apply, frees]
    rw [c1, c2, c3]
    refine ⟨dec_u32_lt _, ?_⟩
    split_ifs with h
    · exact Or.inr ⟨frees_append_freed _, h.2, h.1⟩
    · left; rw [List.append_nil]
  | unref k =>
    simp only [apply]
    have hk1 : k ≤ o.m_weak_ref := hk
    by_cases h0 : dec_u32 o.m_ref = 0
    · by_cases hz : o.m_weak_ref = 0
      · rw [(unref_cases o k).2.1 h0 hz]
        simp only [frees]
        exact ⟨hw, Or.inr ⟨frees_append_freed _, h0, hz⟩⟩
      · rcases Nat.lt_or_eq_of_le hk1 with h | h
        · rw [unref_hook_some o k h0 hw h]
          simp only [frees]
          refine ⟨by omega, Or.inl ?_⟩
          rw [frees_append_kept, frees_append_dropped]
        · subst h
          rw [unref_hook_all o h0 hw hz]
          simp only [frees]
          refine ⟨by omega, Or.inr ⟨?_, trivial, trivial⟩⟩
          rw [frees_append_freed, frees_append_dropped]
    · rw [(unref_cases o k).1 h0]
      simp only [frees]
      exact ⟨hw, Or.inl trivial⟩

/-- A sequence of calls made on a live object frees it at most once, with its
last call, in a state with both counts at zero. -/
theorem calls_frees (ops : List op) : ∀ (o : fs_refcounted_inner),
    o.m_weak_ref < 4294967296 → o.frees = 0 → live_calls o ops →
    (o.calls ops).frees = 0 ∨
      ((o.calls ops).frees = 1 ∧ (o.calls ops).m_ref = 0 ∧ (o.calls ops).m_weak_ref = 0) := by
  induction ops with
  | nil => intro o _ hf _; exact Or.inl hf
  | cons c cs ih =>
    intro o hw hf hl
    obtain ⟨_, hk, hl1⟩ := hl
    obtain ⟨hw1, hs⟩ := apply_frees o c hw hk
    have hc : o.calls (c :: cs) = (o.apply c).calls cs := rfl
    rw [hc]
    cases cs with
    | nil =>
      have hn : (o.apply c).calls [] = o.apply c := rfl
      rw [hn]
      rcases hs with h | ⟨h1, h2, h3⟩
      · left; rw [h, hf]
      · right; exact ⟨by rw [h1, hf], h2, h3⟩
    | cons c1 cs1 => exact ih (o.apply c) hw1 hl1.1 hl1

end fs_refcounted_inner

/-! ## Handles and the counts of their objects -/

namespace fs_refcounted_outer

theorem set_same (hp : heap) (p : Nat) (o : fs_refcounted_inner) (h : hp[p]? = some o) :
    hp.set p o = hp := by
  apply List.ext_getElem?
  intro i
  by_cases hi : p = i
  · subst hi
    rw [List.getElem?_set_self', h]
    rfl
  · rw [List.getElem?_set_ne hi]

theorem on_object_eq (hp : heap) (p : Nat) (o : fs_refcounted_inner)
    (f : fs_refcounted_inner → fs_refcounted_inner) (h : hp[p]? = some o) :
    on_object hp p f = hp.set p (f o) := by
  unfold on_object
  rw [h]

theorem getElem?_set_here (hp : heap) (p : Nat) (o x : fs_refcounted_inner)
    (h : hp[p]? = some o) : (hp.set p x)[p]? = some x := by
  rw [List.getElem?_set_self', h]
  rfl

theorem to_u32_succ (n : Nat) (h : n + 1 < 4294967296) : to_u32 (n + 1) = n + 1 := by
  unfold to_u32; omega

/-- The heap after `strong()` and after `weak()`. -/
theorem from_object_eq (hp : heap) (p : Nat) (o : fs_refcounted_inner) (h : hp[p]? = some o)
    (h1 : o.m_ref + 1 < 4294967296) (h2 : o.m_weak_ref + 1 < 4294967296) :
    from_object (some p) false hp = (⟨some p, false⟩, hp.set p { o with m_ref := o.m_ref + 1 }) ∧
    from_object (some p) true hp =
      (⟨some p, true⟩, hp.set p { o with m_weak_ref := o.m_weak_ref + 1 }) := by
  constructor
  · simp only [from_object, ref, Bool.false_eq_true, if_false, on_object_eq hp p o _ h,
      fs_refcounted_inner.ref, to_u32_succ _ h1]
  · simp only [from_object, ref, if_true, on_object_eq hp p o _ h,
      fs_refcounted_inner.ref_weak, to_u32_succ _ h2]

/-- Destroying a weak handle on an object that has another reference. -/
theorem destroy_weak_eq (hp : heap) (p k : Nat) (o : fs_refcounted_inner)
    (h : hp[p]? = some o) (h2 : o.m_weak_ref + 1 < 4294967296)
    (hc : 1 ≤ o.m_weak_ref ∨ 1 ≤ o.m_ref) :
    destroy k ⟨some p, true⟩ (hp.set p { o with m_weak_ref := o.m_weak_ref + 1 }) = hp := by
  have hu : fs_refcounted_inner.unref_weak { o with m_weak_ref := o.m_weak_ref + 1 } = o := by
    rw [fs_refcounted_inner.unref_weak_eq]
    simp only [fs_refcounted_inner.dec_u32_succ _ h2]
    rw [if_neg (by omega)]
  simp only [destroy, unref, if_true,
    on_object_eq _ p _ _ (getElem?_set_here hp p o _ h), hu, List.set_set]
  exact set_same hp p o h

/-- Destroying a strong handle on an object that has another strong reference. -/
theorem destroy_strong_eq (hp : heap) (p k : Nat) (o : fs_refcounted_inner)
    (h : hp[p]? = some o) (h1 : o.m_ref + 1 < 4294967296) (hc : 1 ≤ o.m_ref) :
    destroy k ⟨some p, false⟩ (hp.set p { o with m_ref := o.m_ref + 1 }) = hp := by
  have hd : dec_u32 (o.m_ref + 1) = o.m_ref := fs_refcounted_inner.dec_u32_succ _ h1
  have hu : fs_refcounted_inner.unref k { o with m_ref := o.m_ref + 1 } = o := by
    rw [(fs_refcounted_inner.unref_cases { o with m_ref := o.m_ref + 1 } k).1
      (by rw [hd]; omega)]
    simp only [hd]
  simp only [destroy, unref, Bool.false_eq_true, if_false,
    on_object_eq _ p _ _ (getElem?_set_here hp p o _ h), hu, List.set_set]
  exact set_same hp p o h

end fs_refcounted_outer

/-! ## Digits -/

theorem toDigitsCore_step (b fuel n : Nat) (ds : List Char) :
    Nat.toDigitsCore b (fuel + 1) n ds =
      if n / b = 0 then Nat.digitChar (n % b) :: ds
      else Nat.toDigitsCore b fuel (n / b) (Nat.digitChar (n % b) :: ds) := by
  rw [Nat.toDigitsCore]

/-- With enough fuel the digits come out in front of the accumulator. -/
theorem toDigitsCore_eq (b : Nat) (hb : 2 ≤ b) (n : Nat) : ∀ (fuel : Nat) (ds : List Char),
    n < fuel → Nat.toDigitsCore b fuel n ds = Nat.toDigits b n ++ ds := by
  induction n using Nat.strong_induction_on with
  | _ n ih =>
    intro fuel ds hf
    obtain ⟨f, rfl⟩ : ∃ f, fuel = f + 1 := ⟨fuel - 1, by omega⟩
    rw [Nat.toDigits, toDigitsCore_step, toDigitsCore_step]
    by_cases h0 : n / b = 0
    · rw [if_pos h0, if_pos h0]; rfl
    · rw [if_neg h0, if_neg h0]
      have hlt : n / b < n := Nat.div_lt_self (by
        rcases Nat.eq_zero_or_pos n with h | h
        · subst h; simp at h0
        · exact h) hb
      rw [ih (n / b) hlt f _ (by omega), ih (n / b) hlt n _ hlt, List.append_assoc]
      rfl

theorem toDigits_small (b n : Nat) (h : n < b) : Nat.toDigits b n = [Nat.digitChar n] := by
  rw [Nat.toDigits, toDigitsCore_step, if_pos (Nat.div_eq_of_lt h), Nat.mod_eq_of_lt h]

theorem toDigits_large (b n : Nat) (hb : 2 ≤ b) (h : b ≤ n) :
    Nat.toDigits b n = Nat.toDigits b (n / b) ++ [Nat.digitChar (n % b)] := by
  have h0 : n / b ≠ 0 := by
    have := Nat.div_pos h (by omega)
    omega
  have hlt : n / b < n := Nat.div_lt_self (by omega) hb
  rw [Nat.toDigits, toDigitsCore_step, if_neg h0, toDigitsCore_eq b hb (n / b) n _ hlt]

theorem digit_value_digitChar (d : Nat) (h : d < 16) : digit_value (Nat.digitChar d) = d := by
  interval_cases d <;> rfl

theorem digitChar_isDigit (d : Nat) (h : d < 10) : (Nat.digitChar d).isDigit = true := by
  interval_cases d <;> rfl

theorem digitChar_ne_zero (d : Nat) (h0 : d ≠ 0) (h : d < 16) : Nat.digitChar d ≠ '0' := by
  interval_cases d <;> first | exact absurd rfl h0 | decide

theorem digitChar_mem_hex (d : Nat) (h : d < 16) :
    Nat.digitChar d ∈ "0123456789abcdef".data := by
  interval_cases d <;> decide

theorem number_of_append (b : Nat) (cs : List Char) (c : Char) :
    number_of b (cs ++ [c]) = number_of b cs * b + digit_value c := by
  simp [number_of, List.foldl_append]

/-- The digits written for a number read back as that number. -/
theorem number_of_toDigits (b : Nat) (hb : 2 ≤ b) (hb16 : b ≤ 16) (n : Nat) :
    number_of b (Nat.toDigits b n) = n := by
  induction n using Nat.strong_induction_on with
  | _ n ih =>
    rcases Nat.lt_or_ge n b with h | h
    · rw [toDigits_small b n h]
      simp [number_of, digit_value_digitChar n (by omega)]
    · rw [toDigits_large b n hb h, number_of_append,
        ih (n / b) (Nat.div_lt_self (by omega) hb),
        digit_value_digitChar _ (by have := Nat.mod_lt n (show 0 < b by omega); omega)]
      exact Nat.div_add_mod' n b

theorem toDigits_ne_nil (b : Nat) (hb : 2 ≤ b) (n : Nat) : Nat.toDigits b n ≠ [] := by
  rcases Nat.lt_or_ge n b with h | h
  · rw [toDigits_small b n h]; simp
  · rw [toDigits_large b n hb h]; simp

/-- Every digit written in base 16 is one of `0123456789abcdef`. -/
theorem toDigits_hex (n : Nat) : ∀ c ∈ Nat.toDigits 16 n, c ∈ "0123456789abcdef".data := by
  induction n using Nat.strong_induction_on with
  | _ n ih =>
    intro c hc
    rcases Nat.lt_or_ge n 16 with h | h
    · rw [toDigits_small 16 n h, List.mem_singleton] at hc
      rw [hc]; exact digitChar_mem_hex n h
    · rw [toDigits_large 16 n (by decide) h, List.mem_append, List.mem_singleton] at hc
      rcases hc with hc | hc
      · exact ih (n / 16) (Nat.div_lt_self (by omega) (by decide)) c hc
      · rw [hc]; exact digitChar_mem_hex _ (Nat.mod_lt n (by decide))

/-- Every digit written in base 10 is a decimal digit. -/
theorem toDigits_isDigit (n : Nat) : ∀ c ∈ Nat.toDigits 10 n, c.isDigit = true := by
  induction n using Nat.strong_induction_on with
  | _ n ih =>
    intro c hc
    rcases Nat.lt_or_ge n 10 with h | h
    · rw [toDigits_small 10 n h, List.mem_singleton] at hc
      rw [hc]; exact digitChar_isDigit n h
    · rw [toDigits_large 10 n (by decide) h, List.mem_append, List.mem_singleton] at hc
      rcases hc with hc | hc
      · exact ih (n / 10) (Nat.div_lt_self (by omega) (by decide)) c hc
      · rw [hc]; exact digitChar_isDigit _ (Nat.mod_lt n (by decide))

/-- A number other than zero is written without a leading zero. -/
theorem toDigits_head (b : Nat) (hb : 2 ≤ b) (hb16 : b ≤ 16) (n : Nat) (hn : n ≠ 0) :
    (Nat.toDigits b n).head? ≠ some '0' := by
  induction n using Nat.strong_induction_on with
  | _ n ih =>
    rcases Nat.lt_or_ge n b with h | h
    · rw [toDigits_small b n h]
      simp only [List.head?_cons, ne_eq, Option.some.injEq]
      exact digitChar_ne_zero n hn (by omega)
    · rw [toDigits_large b n hb h]
      have h0 : n / b ≠ 0 := by
        have := Nat.div_pos h (by omega)
        omega
      have hne := toDigits_ne_nil b hb (n / b)
      rw [List.head?_append_of_ne_nil _ hne]
      exact ih (n / b) (Nat.div_lt_self (by omega) hb) h0

/-! ## Fields of a date -/

theorem number_of_zeros (k : Nat) (ds : List Char) :
    number_of 10 (List.replicate k '0' ++ ds) = number_of 10 ds := by
  induction k with
  | zero => rfl
  | succ k ih =>
    have h : number_of 10 ('0' :: (List.replicate k '0' ++ ds)) =
        number_of 10 (List.replicate k '0' ++ ds) := by
      simp [number_of, digit_value]
    rw [List.replicate_succ, List.cons_append, h, ih]

theorem zero_pad_isDigit (w n : Nat) : ∀ c ∈ zero_pad w (Nat.toDigits 10 n), c.isDigit = true := by
  intro c hc
  rw [zero_pad, List.mem_append] at hc
  rcases hc with hc | hc
  · rw [List.eq_of_mem_replicate hc]; rfl
  · exact toDigits_isDigit n c hc

theorem zero_pad_ne_nil (w n : Nat) : zero_pad w (Nat.toDigits 10 n) ≠ [] := by
  rw [zero_pad]
  intro h
  exact toDigits_ne_nil 10 (by decide) n (List.append_eq_nil.mp h).2

theorem number_of_zero_pad (w n : Nat) : number_of 10 (zero_pad w (Nat.toDigits 10 n)) = n := by
  rw [zero_pad, number_of_zeros, number_of_toDigits 10 (by decide) (by decide)]

/-- A text of digits does not begin with the sign. -/
theorem head_ne_minus (ds : List Char) (h : ∀ c ∈ ds, c.isDigit = true) :
    ds.head? ≠ some '-' := by
  cases ds with
  | nil => simp
  | cons c cs =>
    simp only [List.head?_cons, ne_eq, Option.some.injEq]
    intro hc
    have := h c (List.mem_cons_self _ _)
    rw [hc] at this
    exact absurd this (by decide)

/-- The integer written by `%0wd` reads back as itself. -/
theorem int_of_format_0d (w : Nat) (v : Int) : int_of (format_0d w v) = v := by
  unfold format_0d
  by_cases hv : v < 0
  · rw [if_pos hv]
    simp only [int_of, List.head?_cons, if_true, List.tail_cons, number_of_zero_pad]
    omega
  · rw [if_neg hv, int_of, if_neg (head_ne_minus _ (zero_pad_isDigit w _)), number_of_zero_pad]
    omega

theorem span_digits (ds r : List Char) (h : ∀ c ∈ ds, c.isDigit = true)
    (hr : ∀ c, r.head? = some c → c.isDigit = false) :
    (ds ++ r).takeWhile Char.isDigit = ds ∧ (ds ++ r).dropWhile Char.isDigit = r := by
  induction ds with
  | nil =>
    cases r with
    | nil => exact ⟨rfl, rfl⟩
    | cons c cs =>
      have hc := hr c rfl
      simp [List.takeWhile, List.dropWhile, hc]
  | cons d ds ih =>
    have hd := h d (List.mem_cons_self _ _)
    obtain ⟨i1, i2⟩ := ih (fun c hc => h c (List.mem_cons_of_mem _ hc))
    simp only [List.cons_append, List.takeWhile_cons, List.dropWhile_cons, hd, if_true, i1, i2,
      and_self]

/-- In front of a text that does not begin with a digit, the field written by
`%0wd` is the first field. -/
theorem take_field_format_0d (w : Nat) (v : Int) (r : List Char)
    (hr : ∀ c, r.head? = some c → c.isDigit = false) :
    take_field (format_0d w v ++ r) = (format_0d w v, r) := by
  unfold format_0d
  by_cases hv : v < 0
  · rw [if_pos hv]
    obtain ⟨s1, s2⟩ := span_digits _ r (zero_pad_isDigit (w - 1) v.natAbs) hr
    simp only [take_field, List.cons_append, List.head?_cons, if_true, List.tail_cons, s1, s2]
  · rw [if_neg hv]
    obtain ⟨s1, s2⟩ := span_digits _ r (zero_pad_isDigit w v.natAbs) hr
    have hh : (zero_pad w (Nat.toDigits 10 v.natAbs) ++ r).head? ≠ some '-' := by
      rw [List.head?_append_of_ne_nil _ (zero_pad_ne_nil w _)]
      exact head_ne_minus _ (zero_pad_isDigit w _)
    rw [take_field, if_neg hh, s1, s2]

/-- The text of a date reads back as the date. -/
theorem read_date_string_format_date (y mo d h mi s : Int) :
    read_date (string_format_date y mo d h mi s).data = ⟨y, mo, d, h, mi, s⟩ := by
  have e : (string_format_date y mo d h mi s).data =
      format_0d 4 y ++ ('-' :: (format_0d 2 mo ++ ('-' :: (format_0d 2 d ++ (' ' ::
        (format_0d 2 h ++ (':' :: (format_0d 2 mi ++ (':' :: (format_0d 2 s ++ [])))))))))) := by
    simp [string_format_date, List.append_assoc]
  have sep : ∀ (x : Char) (t : List Char), x.isDigit = false →
      ∀ c, (x :: t).head? = some c → c.isDigit = false := by
    intro x t hx c hc
    simp only [List.head?_cons, Option.some.injEq] at hc
    rw [← hc]; exact hx
  have nil : ∀ c, ([] : List Char).head? = some c → c.isDigit = false := by
    intro c hc; simp at hc
  rw [e]
  simp only [read_date, take_field_format_0d _ _ _ (sep '-' _ (by decide)),
    take_field_format_0d _ _ _ (sep ' ' _ (by decide)),
    take_field_format_0d _ _ _ (sep ':' _ (by decide)),
    take_field_format_0d _ _ _ nil, List.tail_cons, int_of_format_0d]

/-! ## The texts of the metadata values -/

theorem variant_loop_iff (variant : Nat) (variants : List Nat) :
    variant_loop variant variants = true ↔ variant ∈ variants := by
  induction variants with
  | nil => simp [variant_loop]
  | cons v rest ih =>
    rw [variant_loop]
    by_cases h : variant = v
    · simp [h]
    · simp [h, ih]

theorem zero_pad_2 (n : Nat) (h : n < 100) :
    zero_pad 2 (Nat.toDigits 10 n) = [Nat.digitChar (n / 10), Nat.digitChar (n % 10)] := by
  rcases Nat.lt_or_ge n 10 with h1 | h1
  · rw [toDigits_small 10 n h1, Nat.div_eq_of_lt h1, Nat.mod_eq_of_lt h1]; rfl
  · rw [toDigits_large 10 n (by decide) h1, toDigits_small 10 (n / 10) (by omega)]; rfl

theorem zero_pad_4 (n : Nat) (h : n < 10000) :
    zero_pad 4 (Nat.toDigits 10 n) = [Nat.digitChar (n / 1000), Nat.digitChar (n / 100 % 10),
      Nat.digitChar (n / 10 % 10), Nat.digitChar (n % 10)] := by
  rcases Nat.lt_or_ge n 10 with h1 | h1
  · rw [toDigits_small 10 n h1, show n / 1000 = 0 by omega, show n / 100 % 10 = 0 by omega,
      show n / 10 % 10 = 0 by omega, Nat.mod_eq_of_lt h1]; rfl
  · rw [toDigits_large 10 n (by decide) h1]
    rcases Nat.lt_or_ge n 100 with h2 | h2
    · rw [toDigits_small 10 (n / 10) (by omega), show n / 1000 = 0 by omega,
        show n / 100 % 10 = 0 by omega, show n / 10 % 10 = n / 10 by omega]; rfl
    · rw [toDigits_large 10 (n / 10) (by decide) (by omega)]
      rcases Nat.lt_or_ge n 1000 with h3 | h3
      · rw [toDigits_small 10 (n / 10 / 10) (by omega), show n / 1000 = 0 by omega,
          show n / 100 % 10 = n / 10 / 10 by omega]; rfl
      · rw [toDigits_large 10 (n / 10 / 10) (by decide) (by omega),
          toDigits_small 10 (n / 10 / 10 / 10) (by omega),
          show n / 10 / 10 / 10 = n / 1000 by omega, show n / 10 / 10 % 10 = n / 100 % 10 by omega]
        rfl

theorem format_0d_2 (v : Int) (h0 : 0 ≤ v) (h1 : v ≤ 99) :
    format_0d 2 v = [Nat.digitChar (v.natAbs / 10), Nat.digitChar (v.natAbs % 10)] := by
  rw [format_0d, if_neg (by omega), zero_pad_2 _ (by omega)]

theorem format_0d_4 (v : Int) (h0 : 0 ≤ v) (h1 : v ≤ 9999) :
    format_0d 4 v = [Nat.digitChar (v.natAbs / 1000), Nat.digitChar (v.natAbs / 100 % 10),
      Nat.digitChar (v.natAbs / 10 % 10), Nat.digitChar (v.natAbs % 10)] := by
  rw [format_0d, if_neg (by omega), zero_pad_4 _ (by omega)]

/-- The text written for a value reads back as the value. -/
theorem read_back_to_string (t : fs_meta_type) (m : fs_meta) (s : String)
    (h : fs_meta_to_string t m = some s) : read_back t s = m := by
  cases t <;> cases m <;>
    simp only [fs_meta_to_string, fs_meta.as_string, fs_meta.as_number, fs_meta.as_flag,
      fs_meta.as_date, Option.map_some', Option.map_none', Option.some.injEq] at h <;>
    first
      | exact absurd h (by simp)
      | skip
  · subst h
    simp only [read_back, read_date_string_format_date]
  · rename_i b
    subst h
    cases b <;> rfl
  · rename_i n
    subst h
    simp only [read_back, string_format_0x, List.drop_succ_cons, List.drop_zero,
      number_of_toDigits 16 (by decide) (by decide)]
  · subst h
    rfl

/-! ## The bytes outside the window of a write -/

theorem poke_outside (bytes : List uint8_t) (p : Nat) (xs : List uint8_t)
    (h : p + xs.length ≤ bytes.length) (i : Nat) (hi : i < p ∨ p + xs.length ≤ i) :
    (poke bytes p xs)[i]? = bytes[i]? := by
  have hp : (bytes.take p).length = p := by rw [List.length_take]; omega
  have hx : xs.take (bytes.length - p) = xs := List.take_of_length_le (by omega)
  unfold poke
  rw [hx]
  rcases hi with hi | hi
  · rw [List.append_assoc, List.getElem?_append_left (by omega), List.getElem?_take_of_lt hi]
  · rw [List.getElem?_append_right (by rw [List.length_append, hp]; exact hi),
      List.length_append, hp, List.getElem?_drop]
    congr 1; omega

theorem poke_fill_length (bytes : List uint8_t) (p : Nat) (d : uint8_t) (n : Nat)
    (h : p + n ≤ bytes.length) : (poke_fill bytes p d n).length = bytes.length := by
  simp only [poke_fill, List.length_append, List.length_take, List.length_drop,
    List.length_replicate]
  omega

theorem poke_fill_outside (bytes : List uint8_t) (p : Nat) (d : uint8_t) (n : Nat)
    (h : p + n ≤ bytes.length) (i : Nat) (hi : i < p ∨ p + n ≤ i) :
    (poke_fill bytes p d n)[i]? = bytes[i]? := by
  have hp : (bytes.take p).length = p := by rw [List.length_take]; omega
  have hm : min n (bytes.length - p) = n := by omega
  unfold poke_fill
  rw [hm]
  rcases hi with hi | hi
  · rw [List.append_assoc, List.getElem?_append_left (by omega), List.getElem?_take_of_lt hi]
  · rw [List.getElem?_append_right (by
        rw [List.length_append, hp, List.length_replicate]; exact hi),
      List.length_append, hp, List.length_replicate, List.getElem?_drop]
    congr 1; omega

theorem store_ok_iff (b : iblock_t) (p : Nat) (xs : List uint8_t) (h : (b.store p xs).1 = .ok ()) :
    p + xs.length ≤ b.bytes.length := by
  unfold iblock_t.store at h
  by_contra hn
  simp [hn] at h

theorem set_ok_iff (b : iblock_t) (p : Nat) (d : uint8_t) (n : Nat)
    (h : (b.set p d n).1 = .ok ()) : p + n ≤ b.bytes.length := by
  unfold iblock_t.set at h
  by_contra hn
  simp [hn] at h

theorem map_ok {α β : Type} (x : outcome α) (f : α → β) (v : β) (h : x.map f = .ok v) :
    ∃ u, x = .ok u := by
  cases x with
  | ok u => exact ⟨u, rfl⟩
  | fatal e => simp [outcome.map] at h
  | outside => simp [outcome.map] at h

/-- A write accessor that succeeds: the check has passed and what follows it
has succeeded at the offset. -/
theorem checked_write_ok (b : iblock_t) (f : String) (o n : Nat)
    (k : Nat → outcome Unit × iblock_t)
    (h : (match b.offset f o n with
      | .error e => (outcome.fatal e, b)
      | .ok blk => k blk).1 = .ok ()) :
    (match b.offset f o n with
      | .error e => (outcome.fatal e, b)
      | .ok blk => k blk) = k o ∧ (k o).1 = .ok () := by
  unfold iblock_t.offset at h ⊢
  split_ifs at h ⊢ with hc
  exact ⟨rfl, h⟩

/-- The block after a store that succeeds. -/
theorem store_frame (b : iblock_t) (p : Nat) (xs : List uint8_t) (h : (b.store p xs).1 = .ok ()) :
    (b.store p xs).2.m_size = b.m_size ∧ (b.store p xs).2.bytes.length = b.bytes.length ∧
    ∀ i, (i < p ∨ p + xs.length ≤ i) → (b.store p xs).2.bytes[i]? = b.bytes[i]? :=
  ⟨rfl, poke_length _ _ _ (store_ok_iff b p xs h),
    fun i hi => poke_outside _ _ _ (store_ok_iff b p xs h) i hi⟩

/-- The block after a `memset` that succeeds. -/
theorem set_frame (b : iblock_t) (p : Nat) (d : uint8_t) (n : Nat)
    (h : (b.set p d n).1 = .ok ()) :
    (b.set p d n).2.m_size = b.m_size ∧ (b.set p d n).2.bytes.length = b.bytes.length ∧
    ∀ i, (i < p ∨ p + n ≤ i) → (b.set p d n).2.bytes[i]? = b.bytes[i]? :=
  ⟨rfl, poke_fill_length _ _ _ _ (set_ok_iff b p d n h),
    fun i hi => poke_fill_outside _ _ _ _ (set_ok_iff b p d n h) i hi⟩

theorem to_u8_congr (a c : Nat) (h : a % 256 = c % 256) : to_u8 a = to_u8 c := by
  unfold to_u8
  exact Fin.ext h

theorem w24b_r24b (b : iblock_t) (o v : Nat) (hwf : b.wf) (h : o + 3 ≤ b.m_size) :
    (w24b b o v).1 = .ok () ∧ r24b (w24b b o v).2 o = .ok (v % 16777216) := by
  have e : w24b b o v = _ :=
    writer_eq b "w24b" o [to_u8 (v >>> 16), to_u8 (v >>> 8), to_u8 v] hwf h
  obtain ⟨w1, w2, w3⟩ := stored b o [to_u8 (v >>> 16), to_u8 (v >>> 8), to_u8 v] hwf h
  have b0 : _ = (v >>> 16) % 256 := w3 0 (to_u8 (v >>> 16)) rfl
  have b1 : _ = (v >>> 8) % 256 := w3 1 (to_u8 (v >>> 8)) rfl
  have b2 : _ = v % 256 := w3 2 (to_u8 v) rfl
  rw [e]
  refine ⟨rfl, ?_⟩
  rw [r24b_eq _ o w1 (by rw [w2]; exact h)]
  simp only [Nat.add_zero] at b0
  rw [b0, b1, b2]
  simp only [Nat.shiftRight_eq_div_pow]
  congr 1; omega

theorem w24l_r24l (b : iblock_t) (o v : Nat) (hwf : b.wf) (h : o + 3 ≤ b.m_size) :
    (w24l b o v).1 = .ok () ∧ r24l (w24l b o v).2 o = .ok (v % 16777216) := by
  have e : w24l b o v = _ :=
    writer_eq b "w24l" o [to_u8 v, to_u8 (v >>> 8), to_u8 (v >>> 16)] hwf h
  obtain ⟨w1, w2, w3⟩ := stored b o [to_u8 v, to_u8 (v >>> 8), to_u8 (v >>> 16)] hwf h
  have b0 : _ = v % 256 := w3 0 (to_u8 v) rfl
  have b1 : _ = (v >>> 8) % 256 := w3 1 (to_u8 (v >>> 8)) rfl
  have b2 : _ = (v >>> 16) % 256 := w3 2 (to_u8 (v >>> 16)) rfl
  rw [e]
  refine ⟨rfl, ?_⟩
  rw [r24l_eq _ o w1 (by rw [w2]; exact h)]
  simp only [Nat.add_zero] at b0
  rw [b0, b1, b2]
  simp only [Nat.shiftRight_eq_div_pow]
  congr 1; omega

/-- The bytes that the 24-bit writers store are those of the low 24 bits. -/
theorem w24_low (b : iblock_t) (o v : Nat) :
    w24b b o v = w24b b o (v % 16777216) ∧ w24l b o v = w24l b o (v % 16777216) := by
  have h16 : to_u8 (v >>> 16) = to_u8 ((v % 16777216) >>> 16) :=
    to_u8_congr _ _ (by simp only [Nat.shiftRight_eq_div_pow]; omega)
  have h8 : to_u8 (v >>> 8) = to_u8 ((v % 16777216) >>> 8) :=
    to_u8_congr _ _ (by simp only [Nat.shiftRight_eq_div_pow]; omega)
  have h0 : to_u8 v = to_u8 (v % 16777216) := to_u8_congr _ _ (by omega)
  constructor
  · unfold w24b; rw [← h16, ← h8, ← h0]
  · unfold w24l; rw [← h16, ← h8, ← h0]

/-- A writer that stores bytes after the check, when it succeeds. -/
theorem checked_store_frame (b : iblock_t) (f : String) (o n : Nat) (xs : List uint8_t)
    (h : (match b.offset f o n with
      | .error e => (outcome.fatal e, b)
      | .ok blk => b.store blk xs).1 = .ok ()) :
    (match b.offset f o n with
      | .error e => (outcome.fatal e, b)
      | .ok blk => b.store blk xs).2.m_size = b.m_size ∧
    (match b.offset f o n with
      | .error e => (outcome.fatal e, b)
      | .ok blk => b.store blk xs).2.bytes.length = b.bytes.length ∧
    ∀ i, (i < o ∨ o + xs.length ≤ i) →
      (match b.offset f o n with
        | .error e => (outcome.fatal e, b)
        | .ok blk => b.store blk xs).2.bytes[i]? = b.bytes[i]? := by
  obtain ⟨e1, e2⟩ := checked_write_ok b f o n (fun blk => b.store blk xs) h
  rw [e1]
  exact store_frame b o xs e2

theorem ok_unit (u : Unit) : (outcome.ok u : outcome Unit) = outcome.ok () := rfl

/-- A write accessor that succeeds leaves the size of the block and the bytes
outside of its window as they were. -/
theorem run_write_frame (b : iblock_t) (c : call) (v : value) (hw : c.is_write = true)
    (h : (run b c).1 = .ok v) :
    (run b c).2.m_size = b.m_size ∧ (run b c).2.bytes.length = b.bytes.length ∧
    ∀ i, (i < c.offset ∨ c.offset + c.size ≤ i) → (run b c).2.bytes[i]? = b.bytes[i]? := by
  cases c with
  | copy o src n =>
    obtain ⟨u, hu⟩ := map_ok _ _ _ h
    obtain ⟨e1, e2⟩ := checked_write_ok b "copy" o n
      (fun blk => if n ≤ src.length then b.store blk (src.take n)
        else (.outside, (b.store blk src).2)) hu
    have hn : n ≤ src.length := by
      by_contra hn
      have e3 : (outcome.outside : outcome Unit) = .ok () := by
        simpa only [if_neg hn] using e2
      exact absurd e3 (by simp)
    have hk : (if n ≤ src.length then b.store o (src.take n)
        else (.outside, (b.store o src).2)) = b.store o (src.take n) := if_pos hn
    have e4 : (b.store o (src.take n)).1 = .ok () := by
      rw [← hk]; exact e2
    have hl : (src.take n).length = n := by rw [List.length_take]; omega
    have hf := store_frame b o (src.take n) e4
    rw [hl] at hf
    have hc : (run b (.copy o src n)).2 = (b.store o (src.take n)).2 :=
      (congrArg Prod.snd e1).trans (congrArg Prod.snd hk)
    rw [hc]
    exact hf
  | fill o d n =>
    obtain ⟨u, hu⟩ := map_ok _ _ _ h
    obtain ⟨e1, e2⟩ := checked_write_ok b "fill" o n (fun blk => b.set blk d n) hu
    have hc : (run b (.fill o d n)).2 = (b.set o d n).2 := congrArg Prod.snd e1
    rw [hc]
    exact set_frame b o d n e2
  | wstr o s =>
    obtain ⟨u, hu⟩ := map_ok _ _ _ h
    exact checked_store_frame b "wstr" o (to_u32 s.length) s hu
  | w8 o d =>
    obtain ⟨u, hu⟩ := map_ok _ _ _ h
    exact checked_store_frame b "w8" o 1 _ hu
  | w16b o d =>
    obtain ⟨u, hu⟩ := map_ok _ _ _ h
    exact checked_store_frame b "w16b" o 2 _ hu
  | w24b o d =>
    obtain ⟨u, hu⟩ := map_ok _ _ _ h
    exact checked_store_frame b "w24b" o 3 _ hu
  | w32b o d =>
    obtain ⟨u, hu⟩ := map_ok _ _ _ h
    exact checked_store_frame b "w32b" o 4 _ hu
  | w16l o d =>
    obtain ⟨u, hu⟩ := map_ok _ _ _ h
    exact checked_store_frame b "w16l" o 2 _ hu
  | w24l o d =>
    obtain ⟨u, hu⟩ := map_ok _ _ _ h
    exact checked_store_frame b "w24l" o 3 _ hu
  | w32l o d =>
    obtain ⟨u, hu⟩ := map_ok _ _ _ h
    exact checked_store_frame b "w32l" o 4 _ hu
  | rstr o n => simp [call.is_write] at hw
  | r8 o => simp [call.is_write] at hw
  | r16b o => simp [call.is_write] at hw
  | r24b o => simp [call.is_write] at hw
  | r32b o => simp [call.is_write] at hw
  | r16l o => simp [call.is_write] at hw
  | r24l o => simp [call.is_write] at hw
  | r32l o => simp [call.is_write] at hw

/-! ## The calls of the commands of floptool -/

theorem foldl_ops_consistent {β : Type} (P : β → Prop)
    (F : List fs_op × Bool → β → List fs_op × Bool)
    (hF : ∀ acc c, P c → (∀ o ∈ acc.1, o.consistent) → ∀ o ∈ (F acc c).1, o.consistent) :
    ∀ (l : List β) (acc : List fs_op × Bool), (∀ c ∈ l, P c) → (∀ o ∈ acc.1, o.consistent) →
      ∀ o ∈ (l.foldl F acc).1, o.consistent := by
  intro l
  induction l with
  | nil => intro acc _ hacc; simpa using hacc
  | cons c l ih =>
    intro acc hl hacc
    rw [List.foldl_cons]
    exact ih (F acc c) (fun x hx => hl x (List.mem_cons_of_mem _ hx))
      (hF acc c (hl c (List.mem_cons_self _ _)) hacc)

theorem dir_scan_consistent (dmetad fmetad : List fs_meta_description) (dir : idir_t) :
    ∀ o ∈ (dir_scan dmetad fmetad dir).1, o.consistent := by
  induction dir with
  | invalid => simp [dir_scan]
  | mk metadata contents dir_get file_get ih =>
    rw [dir_scan]
    refine foldl_ops_consistent (fun c => c ∈ contents) _ ?_ contents _ (fun c h => h) ?_
    · intro acc c hc hacc o ho
      split at ho
      · exact hacc o ho
      · split at ho
        · rename_i hd
          split at ho
          · rcases List.mem_append.1 ho with h1 | h1
            · exact hacc o h1
            · rw [List.mem_singleton.1 h1]; exact ⟨hc, hd⟩
          · split at ho
            · rcases List.mem_append.1 ho with h1 | h1
              · rcases List.mem_append.1 h1 with h2 | h2
                · exact hacc o h2
                · rcases List.mem_cons.1 h2 with h3 | h3
                  · rw [h3]; exact ⟨hc, hd⟩
                  · rw [List.mem_singleton.1 h3]; trivial
              · exact ih c.m_key o h1
            · rcases List.mem_append.1 ho with h2 | h2
              · exact hacc o h2
              · rcases List.mem_cons.1 h2 with h3 | h3
                · rw [h3]; exact ⟨hc, hd⟩
                · rw [List.mem_singleton.1 h3]; trivial
        · rename_i hd
          rcases List.mem_append.1 ho with h2 | h2
          · exact hacc o h2
          · rcases List.mem_cons.1 h2 with h3 | h3
            · rw [h3]
              refine ⟨hc, ?_⟩
              cases hk : c.m_type
              · exact absurd hk (by simpa using hd)
              · exact Or.inl rfl
              · exact Or.inr rfl
            · rw [List.mem_singleton.1 h3]; trivial
    · intro o ho
      rw [List.mem_singleton.1 ho]; trivial

theorem create_formats (w : world) (argv : List String) (dest_format t : floppy_image_format_t)
    (source_fs : fs_info) (m : filesystem_manager_t) (hn : argv.length = 5)
    (hf : find_format_by_name w (arg argv 2) = some dest_format)
    (hs : find_fs_by_name w (arg argv 3) = some source_fs) (ht : source_fs.m_type = some t)
    (hm : source_fs.m_manager = some m) :
    (create w argv).ops = [.format (create_meta m.volume_meta_description)] ∧
    (m.mount_derived.format = none →
      (create w argv).ending = .raised "format called on a filesystem not supporting it.\n") := by
  constructor
  · cases hx : m.mount_derived.format with
    | none =>
      simp [create, hn, hf, hs, ht, hm, filesystem_manager_t.mount, filesystem_t.construct,
        filesystem_t.format, filesystem_t.format_base, hx]
    | some f =>
      simp only [create, hn, hf, hs, ht, hm, filesystem_manager_t.mount,
        filesystem_t.construct, filesystem_t.format, hx, ne_eq, not_true_eq_false, if_false]
      split_ifs <;> rfl
  · intro hx
    simp [create, hn, hf, hs, ht, hm, filesystem_manager_t.mount, filesystem_t.construct,
      filesystem_t.format, filesystem_t.format_base, hx]

theorem flopdir_gated (w : world) (argv : List String) (h : (flopdir w argv).ops ≠ []) :
    ∃ fs m, find_fs_by_name w (arg argv 3) = some fs ∧ fs.m_manager = some m ∧
      m.can_read = true := by
  by_cases hn : argv.length = 5
  swap
  · simp [flopdir, hn, incorrect_arguments] at h
  cases hf : find_format_by_name w (arg argv 2) with
  | none => simp [flopdir, hn, hf] at h
  | some format =>
    cases hs : find_fs_by_name w (arg argv 3) with
    | none => simp [flopdir, hn, hf, hs] at h
    | some fs =>
      cases hm : fs.m_manager with
      | none => simp [flopdir, hn, hf, hs, hm, does_not_implement_reading] at h
      | some m =>
        cases hr : m.can_read with
        | false => simp [flopdir, hn, hf, hs, hm, hr, does_not_implement_reading] at h
        | true => exact ⟨fs, m, rfl, hm, hr⟩

theorem hddir_gated (w : world) (argv : List String) (h : (hddir w argv).ops ≠ []) :
    ∃ fs m, find_fs_by_name w (arg argv 2) = some fs ∧ fs.m_manager = some m ∧
      m.can_read = true := by
  by_cases hn : argv.length = 4
  swap
  · simp [hddir, hn, incorrect_arguments] at h
  cases hs : find_fs_by_name w (arg argv 2) with
  | none => simp [hddir, hn, hs] at h
  | some fs =>
    cases hm : fs.m_manager with
    | none => simp [hddir, hn, hs, hm, does_not_implement_reading] at h
    | some m =>
      cases hr : m.can_read with
      | false => simp [hddir, hn, hs, hm, hr, does_not_implement_reading] at h
      | true => exact ⟨fs, m, rfl, hm, hr⟩

theorem flopread_gated (w : world) (argv : List String) (h : (flopread w argv).ops ≠ []) :
    ∃ fs m, find_fs_by_name w (arg argv 3) = some fs ∧ fs.m_manager = some m ∧
      m.can_read = true := by
  by_cases hn : argv.length = 7
  swap
  · simp [flopread, hn, incorrect_arguments] at h
  cases hf : find_format_by_name w (arg argv 2) with
  | none => simp [flopread, hn, hf] at h
  | some format =>
    cases hs : find_fs_by_name w (arg argv 3) with
    | none => simp [flopread, hn, hf, hs] at h
    | some fs =>
      cases hm : fs.m_manager with
      | none => simp [flopread, hn, hf, hs, hm, does_not_implement_reading] at h
      | some m =>
        cases hr : m.can_read with
        | false => simp [flopread, hn, hf, hs, hm, hr, does_not_implement_reading] at h
        | true => exact ⟨fs, m, rfl, hm, hr⟩

theorem flopread_file_get (w : world) (argv : List String) (format t : floppy_image_format_t)
    (fs : fs_info) (m : filesystem_manager_t) (meta : fs_meta_data) (c : List fs_dir_entry)
    (dg : Nat → idir_t) (fg : Nat → ifile_t) (e : fs_dir_entry) (hn : argv.length = 7)
    (hf : find_format_by_name w (arg argv 2) = some format)
    (hs : find_fs_by_name w (arg argv 3) = some fs) (hm : fs.m_manager = some m)
    (hr : m.can_read = true) (hrd : w.readable (arg argv 4) = true) (hl : format.load = true)
    (ht : fs.m_type = some t) (hsub : m.has_subdirectories = false)
    (hroot : m.mount_derived.root = some (.mk meta c dg fg))
    (he : c.find? (fun x => x.m_name == arg argv 5) = some e) :
    (flopread w argv).ops.take 3 = [.root, .contents, .file_get e c] := by
  simp [flopread, hn, hf, hs, hm, hr, hrd, hl, ht, hsub, hroot, he,
    filesystem_manager_t.mount, filesystem_t.construct, filesystem_t.root, flopread_walk]
  split_ifs <;> rfl

theorem flopread_no_dir_get (w : world) (argv : List String) (c : fs_dir_entry)
    (l : List fs_dir_entry) : fs_op.dir_get c l ∉ (flopread w argv).ops := by
  unfold flopread
  simp only [List.dropLast_single, flopread_walk]
  repeat' split
  all_goals simp_all [incorrect_arguments, does_not_implement_reading]

/-! ## Filling, and the two byte orders -/

theorem poke_fill_eq (bytes : List uint8_t) (p : Nat) (d : uint8_t) (n : Nat)
    (h : p + n ≤ bytes.length) :
    poke_fill bytes p d n = bytes.take p ++ List.replicate n d ++ bytes.drop (p + n) := by
  unfold poke_fill
  rw [Nat.min_eq_left (by omega)]

theorem poke_fill_window (bytes : List uint8_t) (p : Nat) (d : uint8_t) (n : Nat)
    (h : p + n ≤ bytes.length) (i : Nat) (h1 : p ≤ i) (h2 : i < p + n) :
    (poke_fill bytes p d n)[i]? = some d := by
  have hp : (bytes.take p).length = p := by rw [List.length_take]; omega
  rw [poke_fill_eq bytes p d n h, List.append_assoc,
    List.getElem?_append_right (by rw [hp]; exact h1), hp,
    List.getElem?_append_left (by rw [List.length_replicate]; omega),
    List.getElem?_replicate, if_pos (by omega)]

theorem poke_fill_zero (bytes : List uint8_t) (p : Nat) (d : uint8_t) :
    poke_fill bytes p d 0 = bytes := by
  simp [poke_fill]

theorem fill_in_range (b : iblock_t) (o : Nat) (d : uint8_t) (n : Nat) (hwf : b.wf)
    (h : o + n ≤ b.m_size) :
    fill b o d n = (.ok (), { b with bytes := poke_fill b.bytes o d n }) := by
  have hl : o + n ≤ b.bytes.length := by rw [hwf]; exact h
  unfold fill
  rw [offset_ok_of_le b "fill" o n h]
  simp only [iblock_t.set, if_pos hl]

theorem fill_all_eq (b : iblock_t) (d : uint8_t) (hwf : b.wf) :
    fill_all b d = (.ok (), ⟨b.m_size, List.replicate b.m_size d⟩) := by
  have hl : 0 + b.m_size ≤ b.bytes.length := by rw [hwf]; omega
  have hw : b.bytes.length = b.m_size := hwf
  unfold fill_all
  simp only [iblock_t.set, if_pos hl]
  rw [poke_fill_eq b.bytes 0 d b.m_size hl, List.drop_of_length_le (by omega)]
  simp

theorem r8_after_fill (b : iblock_t) (o : Nat) (d : uint8_t) (n : Nat) (hwf : b.wf)
    (h : o + n ≤ b.m_size) (i : Nat) (h1 : o ≤ i) (h2 : i < o + n) :
    r8 (fill b o d n).2 i = .ok d.val := by
  have hl : o + n ≤ b.bytes.length := by rw [hwf]; exact h
  rw [fill_in_range b o d n hwf h]
  have hwf1 : ({ b with bytes := poke_fill b.bytes o d n } : iblock_t).wf := by
    unfold iblock_t.wf
    simp only [poke_fill_length b.bytes o d n hl]
    exact hwf
  rw [r8_eq _ i hwf1 (by simp only; omega)]
  unfold iblock_t.byte
  simp only [List.getD_eq_getElem?_getD, poke_fill_window b.bytes o d n hl i h1 h2, Option.getD_some]

theorem swap_bytes (b0 b1 b2 b3 : Nat) (h0 : b0 < 256) (h1 : b1 < 256) (h2 : b2 < 256)
    (h3 : b3 < 256) :
    swap16 (b0 * 256 + b1) = b0 + b1 * 256 ∧
    swap32 (b0 * 16777216 + b1 * 65536 + b2 * 256 + b3) =
      b0 + b1 * 256 + b2 * 65536 + b3 * 16777216 := by
  unfold swap16 swap32
  omega

theorem w16l_r16b (b : iblock_t) (o v : Nat) (hwf : b.wf) (h : o + 2 ≤ b.m_size) :
    r16b (w16l b o v).2 o = .ok (swap16 v) := by
  have e : w16l b o v = _ := writer_eq b "w16l" o [to_u8 v, to_u8 (v >>> 8)] hwf h
  obtain ⟨w1, w2, w3⟩ := stored b o [to_u8 v, to_u8 (v >>> 8)] hwf h
  have b0 : _ = v % 256 := w3 0 (to_u8 v) rfl
  have b1 : _ = (v >>> 8) % 256 := w3 1 (to_u8 (v >>> 8)) rfl
  rw [e, r16b_eq _ o w1 (by rw [w2]; exact h)]
  simp only [Nat.add_zero] at b0
  rw [b0, b1]
  simp only [Nat.shiftRight_eq_div_pow]
  exact congrArg outcome.ok (by unfold swap16; omega)

theorem w16b_r16l (b : iblock_t) (o v : Nat) (hwf : b.wf) (h : o + 2 ≤ b.m_size) :
    r16l (w16b b o v).2 o = .ok (swap16 v) := by
  have e : w16b b o v = _ := writer_eq b "w16b" o [to_u8 (v >>> 8), to_u8 v] hwf h
  obtain ⟨w1, w2, w3⟩ := stored b o [to_u8 (v >>> 8), to_u8 v] hwf h
  have b0 : _ = (v >>> 8) % 256 := w3 0 (to_u8 (v >>> 8)) rfl
  have b1 : _ = v % 256 := w3 1 (to_u8 v) rfl
  rw [e, r16l_eq _ o w1 (by rw [w2]; exact h)]
  simp only [Nat.add_zero] at b0
  rw [b0, b1]
  simp only [Nat.shiftRight_eq_div_pow]
  exact congrArg outcome.ok (by unfold swap16; omega)

theorem w32l_r32b (b : iblock_t) (o v : Nat) (hwf : b.wf) (h : o + 4 ≤ b.m_size) :
    r32b (w32l b o v).2 o = .ok (swap32 v) := by
  have e : w32l b o v = _ :=
    writer_eq b "w32l" o
      [to_u8 v, to_u8 (v >>> 8), to_u8 (v >>> 16), to_u8 (v >>> 24)] hwf h
  obtain ⟨w1, w2, w3⟩ := stored b o
    [to_u8 v, to_u8 (v >>> 8), to_u8 (v >>> 16), to_u8 (v >>> 24)] hwf h
  have b0 : _ = v % 256 := w3 0 (to_u8 v) rfl
  have b1 : _ = (v >>> 8) % 256 := w3 1 (to_u8 (v >>> 8)) rfl
  have b2 : _ = (v >>> 16) % 256 := w3 2 (to_u8 (v >>> 16)) rfl
  have b3 : _ = (v >>> 24) % 256 := w3 3 (to_u8 (v >>> 24)) rfl
  rw [e, r32b_eq _ o w1 (by rw [w2]; exact h)]
  simp only [Nat.add_zero] at b0
  rw [b0, b1, b2, b3]
  simp only [Nat.shiftRight_eq_div_pow]
  exact congrArg outcome.ok (by unfold swap32; omega)

theorem w32b_r32l (b : iblock_t) (o v : Nat) (hwf : b.wf) (h : o + 4 ≤ b.m_size) :
    r32l (w32b b o v).2 o = .ok (swap32 v) := by
  have e : w32b b o v = _ :=
    writer_eq b "w32b" o
      [to_u8 (v >>> 24), to_u8 (v >>> 16), to_u8 (v >>> 8), to_u8 v] hwf h
  obtain ⟨w1, w2, w3⟩ := stored b o
    [to_u8 (v >>> 24), to_u8 (v >>> 16), to_u8 (v >>> 8), to_u8 v] hwf h
  have b0 : _ = (v >>> 24) % 256 := w3 0 (to_u8 (v >>> 24)) rfl
  have b1 : _ = (v >>> 16) % 256 := w3 1 (to_u8 (v >>> 16)) rfl
  have b2 : _ = (v >>> 8) % 256 := w3 2 (to_u8 (v >>> 8)) rfl
  have b3 : _ = v % 256 := w3 3 (to_u8 v) rfl
  rw [e, r32l_eq _ o w1 (by rw [w2]; exact h)]
  simp only [Nat.add_zero] at b0
  rw [b0, b1, b2, b3]
  simp only [Nat.shiftRight_eq_div_pow]
  exact congrArg outcome.ok (by unfold swap32; omega)

theorem swap_twice (v : Nat) :
    (v < 65536 → swap16 (swap16 v) = v) ∧ (v < 4294967296 → swap32 (swap32 v) = v) := by
  constructor
  · intro hv
    have s1 : swap16 v = v % 256 * 256 + v / 256 := by unfold swap16; omega
    rw [s1, (swap_bytes (v % 256) (v / 256) 0 0 (by omega) (by omega) (by omega) (by omega)).1]
    omega
  · intro hv
    have e1 : v / 256 / 256 = v / 65536 := Nat.div_div_eq_div_mul v 256 256
    have e2 : v / 65536 / 256 = v / 16777216 := Nat.div_div_eq_div_mul v 65536 256
    have s1 : swap32 v =
        v % 256 * 16777216 + v / 256 % 256 * 65536 + v / 65536 % 256 * 256 + v / 16777216 := by
      unfold swap32; omega
    rw [s1, (swap_bytes (v % 256) (v / 256 % 256) (v / 65536 % 256) (v / 16777216) (by omega)
      (by omega) (by omega) (by omega)).2]
    omega

/-! ## Assignment between handles on one object -/

namespace fs_refcounted_outer

/-- `unref()` and then `ref()` through a strong handle on an object that has
another strong reference. -/
theorem unref_ref_strong (hp : heap) (p k : Nat) (o : fs_refcounted_inner)
    (h : hp[p]? = some o) (h1 : o.m_ref < 4294967296) (hc : 2 ≤ o.m_ref) :
    ref ⟨some p, false⟩ (unref k ⟨some p, false⟩ hp) = hp := by
  have hd : dec_u32 o.m_ref = o.m_ref - 1 :=
    fs_refcounted_inner.dec_u32_pos o.m_ref (by omega) h1
  have hu : fs_refcounted_inner.unref k o = { o with m_ref := o.m_ref - 1 } := by
    rw [(fs_refcounted_inner.unref_cases o k).1 (by rw [hd]; omega), hd]
  have ht : to_u32 (o.m_ref - 1 + 1) = o.m_ref := by
    rw [to_u32_succ (o.m_ref - 1) (by omega)]; omega
  have hr : fs_refcounted_inner.ref { o with m_ref := o.m_ref - 1 } = o := by
    simp only [fs_refcounted_inner.ref, ht]
  simp only [unref, ref, Bool.false_eq_true, if_false, on_object_eq hp p o _ h, hu,
    on_object_eq _ p _ _ (getElem?_set_here hp p o _ h), hr, List.set_set]
  exact set_same hp p o h

/-- `unref()` and then `ref()` through a weak handle on an object that has
another reference. -/
theorem unref_ref_weak (hp : heap) (p k : Nat) (o : fs_refcounted_inner)
    (h : hp[p]? = some o) (h1 : o.m_weak_ref < 4294967296)
    (hc : 2 ≤ o.m_weak_ref ∨ (1 ≤ o.m_weak_ref ∧ 1 ≤ o.m_ref)) :
    ref ⟨some p, true⟩ (unref k ⟨some p, true⟩ hp) = hp := by
  have hd : dec_u32 o.m_weak_ref = o.m_weak_ref - 1 :=
    fs_refcounted_inner.dec_u32_pos o.m_weak_ref (by omega) h1
  have hu : fs_refcounted_inner.unref_weak o = { o with m_weak_ref := o.m_weak_ref - 1 } := by
    rw [fs_refcounted_inner.unref_weak_eq, hd, if_neg (by omega)]
  have ht : to_u32 (o.m_weak_ref - 1 + 1) = o.m_weak_ref := by
    rw [to_u32_succ (o.m_weak_ref - 1) (by omega)]; omega
  have hr : fs_refcounted_inner.ref_weak { o with m_weak_ref := o.m_weak_ref - 1 } = o := by
    simp only [fs_refcounted_inner.ref_weak, ht]
  simp only [unref, ref, if_true, on_object_eq hp p o _ h, hu,
    on_object_eq _ p _ _ (getElem?_set_here hp p o _ h), hr, List.set_set]
  exact set_same hp p o h

end fs_refcounted_outer

/-! ## The line of the volume, and the metadata for a new volume -/

theorem to_string_isSome (t : fs_meta_type) (m : fs_meta) :
    (fs_meta_to_string t m).isSome = true ↔ m.type = t := by
  cases t <;> cases m <;>
    simp [fs_meta_to_string, fs_meta.type, fs_meta.as_string, fs_meta.as_number,
      fs_meta.as_flag, fs_meta.as_date]

theorem foldl_option_isSome {β : Type} (ok : β → Prop) (F : Option String → β → Option String)
    (hnone : ∀ e, F none e = none) (hsome : ∀ s e, (F (some s) e).isSome = true ↔ ok e) :
    ∀ (l : List β) (acc : Option String),
      (l.foldl F acc).isSome = true ↔ acc.isSome = true ∧ ∀ e ∈ l, ok e := by
  intro l
  induction l with
  | nil => intro acc; simp
  | cons e l ih =>
    intro acc
    rw [List.foldl_cons, ih]
    cases acc with
    | none => simp [hnone]
    | some s =>
      simp only [hsome, Option.isSome_some, true_and, List.mem_cons, forall_eq_or_imp]

theorem volume_line_isSome (vmetad : List fs_meta_description) (vmeta : fs_meta_data) :
    (volume_line vmetad vmeta).isSome = true ↔
      ∀ e ∈ vmetad,
        (fs_meta_to_string e.m_type ((vmeta.find e.m_name).getD fs_meta.initial)).isSome
          = true := by
  unfold volume_line
  refine (foldl_option_isSome
    (fun e => (fs_meta_to_string e.m_type
      ((vmeta.find e.m_name).getD fs_meta.initial)).isSome = true) _ ?_ ?_ vmetad
    (some "Volume:")).trans ?_
  · intro e
    split <;> simp_all
  · intro s e
    cases h : fs_meta_to_string e.m_type ((vmeta.find e.m_name).getD fs_meta.initial) <;>
      simp [h]
  · simp

theorem lookup_filter (n : fs_meta_name) (p : fs_meta_name × fs_meta → Bool) :
    ∀ (m : fs_meta_data), (∀ e ∈ m, p e = false → (n == e.1) = false) →
      List.lookup n (m.filter p) = List.lookup n m := by
  intro m
  induction m with
  | nil => intro _; rfl
  | cons x m ih =>
    intro h
    obtain ⟨a, b⟩ := x
    have ih1 := ih fun e he => h e (List.mem_cons_of_mem _ he)
    cases hp : p (a, b) with
    | true =>
      rw [List.filter_cons_of_pos hp, List.lookup_cons, List.lookup_cons, ih1]
    | false =>
      have hn : (n == a) = false := h (a, b) (List.mem_cons_self _ _) hp
      rw [List.filter_cons_of_neg (by rw [hp]; exact Bool.false_ne_true), List.lookup_cons, hn,
        ih1]

theorem find_assign (meta : fs_meta_data) (k n : fs_meta_name) (v : fs_meta) :
    (meta.assign k v).find n = if n = k then some v else meta.find n := by
  unfold fs_meta_data.assign fs_meta_data.find
  by_cases h : n = k
  · rw [if_pos h, List.lookup_cons, h, beq_self_eq_true]
  · have hb : (n == k) = false := by simpa using h
    rw [if_neg h, List.lookup_cons, hb]
    refine lookup_filter n _ meta fun e _ he => ?_
    have hk : e.1 = k := by simpa using he
    rw [hk]; exact hb

theorem create_meta_snoc (l : List fs_meta_description) (e : fs_meta_description) :
    create_meta (l ++ [e]) =
      if e.m_ro = false then (create_meta l).assign e.m_name e.m_default else create_meta l := by
  unfold create_meta
  rw [List.foldl_append]
  by_cases h : e.m_ro = false
  · simp [h]
  · have h1 : e.m_ro = true := by simpa using h
    simp [h1]

theorem create_meta_find (metav : List fs_meta_description) (n : fs_meta_name) :
    (create_meta metav).find n =
      ((metav.filter fun e => !e.m_ro && e.m_name == n).getLast?).map fun e => e.m_default := by
  induction metav using List.reverseRecOn with
  | nil => rfl
  | append_singleton l e ih =>
    rw [create_meta_snoc, List.filter_append]
    by_cases hro : e.m_ro = false
    · rw [if_pos hro, find_assign]
      by_cases hn : n = e.m_name
      · simp [hn, hro, List.filter_cons]
      · have hb : (e.m_name == n) = false := by simpa using fun h => hn h.symm
        rw [if_neg hn, ih]
        simp [hro, hb, List.filter_cons]
    · rw [if_neg hro, ih]
      have hro1 : e.m_ro = true := by simpa using hro
      simp [hro1, List.filter_cons]

theorem create_meta_find_none (metav : List fs_meta_description) (n : fs_meta_name) :
    (create_meta metav).find n = none ↔ ∀ e ∈ metav, e.m_name = n → e.m_ro = true := by
  rw [create_meta_find]
  simp only [Option.map_eq_none', List.getLast?_eq_none_iff, List.filter_eq_nil_iff,
    Bool.and_eq_true, Bool.not_eq_true', beq_iff_eq, not_and]
  constructor
  · intro h e he hn
    by_contra hr
    exact h e he (by simpa using hr) hn
  · intro h e he hr hn
    rw [h e he hn] at hr
    exact Bool.noConfusion hr

theorem assign_keys_nodup (meta : fs_meta_data) (k : fs_meta_name) (v : fs_meta)
    (h : (meta.map Prod.fst).Nodup) : ((meta.assign k v).map Prod.fst).Nodup := by
  unfold fs_meta_data.assign
  rw [List.map_cons, List.nodup_cons]
  constructor
  · simp [List.mem_map, List.mem_filter]
  · exact List.Nodup.sublist (List.Sublist.map _ (List.filter_sublist _)) h

theorem create_meta_keys_nodup (metav : List fs_meta_description) :
    ((create_meta metav).map Prod.fst).Nodup := by
  induction metav using List.reverseRecOn with
  | nil => exact List.nodup_nil
  | append_singleton l e ih =>
    rw [create_meta_snoc]
    split_ifs
    · exact assign_keys_nodup _ _ _ ih
    · exact ih

/-! ## Positions of a file in memory -/

theorem ram_seekproc_some (f f1 : iofile_ram) (offset r : Int) (whence : seek_whence)
    (h : ram_seekproc f offset whence = some (r, f1)) :
    r = 0 ∧ f1.data = f.data ∧ 0 ≤ f1.pos ∧
    (whence ≠ .SEEK_CUR → f1.pos ≤ f1.data.length) ∧
    (whence = .SEEK_CUR → f1.pos = max (f.pos + offset) 0) := by
  unfold ram_seekproc at h
  cases whence with
  | SEEK_CUR =>
    simp only [if_true] at h
    split_ifs at h with hc
    simp only [Option.some.injEq, Prod.mk.injEq] at h
    obtain ⟨h1, h2⟩ := h
    subst h2
    exact ⟨h1.symm, rfl, le_max_right _ _, fun hn => absurd rfl hn, fun _ => rfl⟩
  | SEEK_SET =>
    simp only [Option.some.injEq, Prod.mk.injEq] at h
    obtain ⟨h1, h2⟩ := h
    subst h2
    refine ⟨h1.symm, rfl, ?_, fun _ => ?_, fun hn => by cases hn⟩
    · simp only [reduceCtorEq, if_false]; split_ifs <;> omega
    · simp only [reduceCtorEq, if_false]; split_ifs <;> omega
  | SEEK_END =>
    simp only [Option.some.injEq, Prod.mk.injEq] at h
    obtain ⟨h1, h2⟩ := h
    subst h2
    refine ⟨h1.symm, rfl, ?_, fun _ => ?_, fun hn => by cases hn⟩
    · simp only [reduceCtorEq, if_false]; split_ifs <;> omega
    · simp only [reduceCtorEq, if_false]; split_ifs <;> omega
  | other =>
    simp only [Option.some.injEq, Prod.mk.injEq] at h
    obtain ⟨h1, h2⟩ := h
    subst h2
    refine ⟨h1.symm, rfl, ?_, fun _ => ?_, fun hn => by cases hn⟩
    · simp only [reduceCtorEq, if_false]; split_ifs <;> omega
    · simp only [reduceCtorEq, if_false]; split_ifs <;> omega

theorem ram_seekproc_returns (f : iofile_ram) (offset : Int) (whence : seek_whence)
    (h : whence = .SEEK_CUR → to_i64 (f.pos + offset) = f.pos + offset) :
    ∃ f1, ram_seekproc f offset whence = some (0, f1) := by
  unfold ram_seekproc
  cases whence with
  | SEEK_CUR => rw [if_pos (h rfl)]; exact ⟨_, rfl⟩
  | SEEK_SET => exact ⟨_, rfl⟩
  | SEEK_END => exact ⟨_, rfl⟩
  | other => exact ⟨_, rfl⟩

theorem seeks_append (a b : List (Int × seek_whence)) : ∀ (f : iofile_ram),
    seeks f (a ++ b) = (seeks f a).bind fun f1 => seeks f1 b := by
  induction a with
  | nil => intro f; rfl
  | cons c a ih =>
    intro f
    obtain ⟨offset, whence⟩ := c
    simp only [List.cons_append, seeks]
    cases ram_seekproc f offset whence with
    | none => rfl
    | some x => exact ih x.2

theorem seeks_data (calls : List (Int × seek_whence)) : ∀ (f f1 : iofile_ram),
    seeks f calls = some f1 → f1.data = f.data := by
  induction calls with
  | nil => intro f f1 h; simp only [seeks, Option.some.injEq] at h; rw [h]
  | cons c calls ih =>
    intro f f1 h
    obtain ⟨offset, whence⟩ := c
    simp only [seeks] at h
    cases hs : ram_seekproc f offset whence with
    | none => rw [hs] at h; cases h
    | some x =>
      rw [hs] at h
      obtain ⟨r, f2⟩ := x
      exact (ih f2 f1 h).trans (ram_seekproc_some f f2 offset r whence hs).2.1

theorem seeks_last (calls : List (Int × seek_whence)) (offset : Int) (whence : seek_whence)
    (f f1 : iofile_ram) (h : seeks f (calls ++ [(offset, whence)]) = some f1) :
    f1.data = f.data ∧ 0 ≤ f1.pos ∧ (whence ≠ .SEEK_CUR → f1.pos ≤ f1.data.length) := by
  refine ⟨seeks_data _ f f1 h, ?_⟩
  rw [seeks_append] at h
  cases hs : seeks f calls with
  | none => rw [hs] at h; cases h
  | some f2 =>
    rw [hs] at h
    simp only [Option.some_bind, seeks] at h
    cases hr : ram_seekproc f2 offset whence with
    | none => rw [hr] at h; cases h
    | some x =>
      rw [hr] at h
      obtain ⟨r, f3⟩ := x
      simp only [Option.some.injEq] at h
      subst h
      have t := ram_seekproc_some f2 f3 offset r whence hr
      exact ⟨t.2.2.1, t.2.2.2.1⟩

theorem read_count_in_range (f : iofile_ram) (length : Nat) (h0 : 0 ≤ f.pos)
    (h1 : f.pos ≤ f.data.length) (h2 : f.data.length < 18446744073709551616) :
    read_count f length = min length (f.data.length - f.pos.toNat) := by
  unfold read_count to_u64
  omega

theorem read_count_past_end (f : iofile_ram) (length : Nat) (h1 : (f.data.length : Int) < f.pos)
    (h2 : f.pos < 9223372036854775808) : read_count f length = length ∨
    9223372036854775808 ≤ read_count f length := by
  unfold read_count to_u64
  omega

theorem ram_readproc_in_range (f : iofile_ram) (length : Nat) (h0 : 0 ≤ f.pos)
    (h1 : f.pos ≤ f.data.length) (h2 : f.data.length < 18446744073709551616) :
    ram_readproc f length =
      (.ok (min length (f.data.length - f.pos.toNat),
        (f.data.drop f.pos.toNat).take (min length (f.data.length - f.pos.toNat))), f) := by
  unfold ram_readproc
  simp only [read_count_in_range f length h0 h1 h2]
  rw [if_pos (Or.inr ⟨h0, by omega⟩)]

theorem ram_readproc_past_end (f : iofile_ram) (length : Nat)
    (h1 : (f.data.length : Int) < f.pos) (h2 : f.pos < 9223372036854775808) (h3 : 0 < length) :
    ram_readproc f length = (.outside, f) := by
  have hc := read_count_past_end f length h1 h2
  unfold ram_readproc
  simp only
  rw [if_neg (by omega)]

/-! ## Properties of the block accessors -/

/-- C1, at the failing input: on a well-formed block of 16 bytes each of the
eighteen checked accessors, called at offset `0xffffffff` (so that offset + size
is above the block size), does not fail with the out-of-block error: the 32-bit
sum wraps, the check passes and the access is made outside the block. -/
theorem c1_check_passes_when_sum_wraps :
    zero_block.wf ∧ calls_at_top.map call.name =
      ["copy", "fill", "wstr", "w8", "w16b", "w24b", "w32b", "w16l", "w24l", "w32l",
       "rstr", "r8", "r16b", "r24b", "r32b", "r16l", "r24l", "r32l"] ∧
    ∀ c ∈ calls_at_top, c.offset < 4294967296 ∧ c.offset + c.size > zero_block.m_size ∧
      (run zero_block c).1 = outcome.outside := by
  decide

/-- C2, at the failing input: `fill(1, 0xaa, 0xffffffff)` on a well-formed block
of four zero bytes, where offset + size = 2^32 is above the block size, is not
a failed call and overwrites the bytes 1, 2 and 3 of the block. -/
theorem c2_fill_overwrites_when_sum_wraps :
    (⟨4, [0, 0, 0, 0]⟩ : iblock_t).wf ∧ 1 + 4294967295 > 4 ∧
    fill ⟨4, [0, 0, 0, 0]⟩ 1 170 4294967295 = (outcome.outside, ⟨4, [0, 170, 170, 170]⟩) := by
  decide

/-- C3: on a well-formed block, for every offset and byte sequence `s` with
offset + |s| within the block size, `copy(offset, s, |s|)` and `wstr(offset, s)`
both succeed, and `rstr(offset, |s|)` on the block they leave returns `s`. -/
theorem c3_copy_wstr_then_rstr (b : iblock_t) (offset : Nat) (s : List uint8_t)
    (hwf : b.wf) (h : offset + s.length ≤ b.m_size) :
    ((copy b offset s s.length).1 = .ok () ∧
      rstr (copy b offset s s.length).2 offset s.length = .ok s) ∧
    ((wstr b offset s).1 = .ok () ∧ rstr (wstr b offset s).2 offset s.length = .ok s) := by
  rw [copy_in_range b offset s hwf h, wstr_in_range b offset s hwf h]
  exact ⟨⟨rfl, rstr_after_store b offset s hwf h⟩, ⟨rfl, rstr_after_store b offset s hwf h⟩⟩

theorem c3_copy_wstr_then_rstr_witness :
    rstr (copy zero_block 3 [7, 8, 9] 3).2 3 3 = .ok [7, 8, 9] ∧
    rstr (wstr zero_block 13 [7, 8, 9]).2 13 3 = .ok [7, 8, 9] :=
  ⟨(c3_copy_wstr_then_rstr zero_block 3 [7, 8, 9] (by decide) (by decide)).1.2,
   (c3_copy_wstr_then_rstr zero_block 13 [7, 8, 9] (by decide) (by decide)).2.2⟩

/-- C4: on a well-formed block and at an in-range offset, each typed writer
succeeds and its reader returns the written value: `r8` after `w8` for every
8-bit value, `r16b` after `w16b` and `r16l` after `w16l` for every 16-bit value,
`r32b` after `w32b` and `r32l` after `w32l` for every 32-bit value. -/
theorem c4_typed_write_then_read (b : iblock_t) (offset v : Nat) (hwf : b.wf) :
    (offset + 1 ≤ b.m_size → v < 256 →
      (w8 b offset v).1 = .ok () ∧ r8 (w8 b offset v).2 offset = .ok v) ∧
    (offset + 2 ≤ b.m_size → v < 65536 →
      ((w16b b offset v).1 = .ok () ∧ r16b (w16b b offset v).2 offset = .ok v) ∧
      ((w16l b offset v).1 = .ok () ∧ r16l (w16l b offset v).2 offset = .ok v)) ∧
    (offset + 4 ≤ b.m_size → v < 4294967296 →
      ((w32b b offset v).1 = .ok () ∧ r32b (w32b b offset v).2 offset = .ok v) ∧
      ((w32l b offset v).1 = .ok () ∧ r32l (w32l b offset v).2 offset = .ok v)) :=
  ⟨fun h hv => w8_r8 b offset v hwf h hv,
   fun h hv => ⟨w16b_r16b b offset v hwf h hv, w16l_r16l b offset v hwf h hv⟩,
   fun h hv => ⟨w32b_r32b b offset v hwf h hv, w32l_r32l b offset v hwf h hv⟩⟩

theorem c4_typed_write_then_read_witness :
    r8 (w8 zero_block 15 255).2 15 = .ok 255 ∧
    r16b (w16b zero_block 14 65534).2 14 = .ok 65534 ∧
    r16l (w16l zero_block 14 65534).2 14 = .ok 65534 ∧
    r32b (w32b zero_block 12 2147483649).2 12 = .ok 2147483649 ∧
    r32l (w32l zero_block 12 4294967295).2 12 = .ok 4294967295 :=
  ⟨((c4_typed_write_then_read zero_block 15 255 (by decide)).1 (by decide) (by decide)).2,
   ((c4_typed_write_then_read zero_block 14 65534 (by decide)).2.1
      (by decide) (by decide)).1.2,
   ((c4_typed_write_then_read zero_block 14 65534 (by decide)).2.1
      (by decide) (by decide)).2.2,
   ((c4_typed_write_then_read zero_block 12 2147483649 (by decide)).2.2
      (by decide) (by decide)).1.2,
   ((c4_typed_write_then_read zero_block 12 4294967295 (by decide)).2.2
      (by decide) (by decide)).2.2⟩

/-- C5: on a well-formed block with bytes `b[i]` and at an in-range offset `o`,
`r8 = b[o]`, `r16b = b[o]*2^8 + b[o+1]`, `r24b = b[o]*2^16 + b[o+1]*2^8 + b[o+2]`,
`r32b = b[o]*2^24 + b[o+1]*2^16 + b[o+2]*2^8 + b[o+3]`, and `r16l`, `r24l`, `r32l`
are the same sums with `b[o]` least significant. -/
theorem c5_readers_reference (b : iblock_t) (o : Nat) (hwf : b.wf) :
    (o + 1 ≤ b.m_size → r8 b o = .ok (b.byte o)) ∧
    (o + 2 ≤ b.m_size →
      r16b b o = .ok (b.byte o * 2 ^ 8 + b.byte (o + 1)) ∧
      r16l b o = .ok (b.byte o + b.byte (o + 1) * 2 ^ 8)) ∧
    (o + 3 ≤ b.m_size →
      r24b b o = .ok (b.byte o * 2 ^ 16 + b.byte (o + 1) * 2 ^ 8 + b.byte (o + 2)) ∧
      r24l b o = .ok (b.byte o + b.byte (o + 1) * 2 ^ 8 + b.byte (o + 2) * 2 ^ 16)) ∧
    (o + 4 ≤ b.m_size →
      r32b b o = .ok (b.byte o * 2 ^ 24 + b.byte (o + 1) * 2 ^ 16 + b.byte (o + 2) * 2 ^ 8
        + b.byte (o + 3)) ∧
      r32l b o = .ok (b.byte o + b.byte (o + 1) * 2 ^ 8 + b.byte (o + 2) * 2 ^ 16
        + b.byte (o + 3) * 2 ^ 24)) :=
  ⟨fun h => r8_eq b o hwf h,
   fun h => ⟨r16b_eq b o hwf h, r16l_eq b o hwf h⟩,
   fun h => ⟨r24b_eq b o hwf h, r24l_eq b o hwf h⟩,
   fun h => ⟨r32b_eq b o hwf h, r32l_eq b o hwf h⟩⟩

/-- A block of six bytes with the top bit of the first byte set. -/
theorem c5_readers_reference_witness :
    r8 ⟨6, [129, 2, 3, 4, 5, 6]⟩ 5 = .ok 6 ∧
    r16b ⟨6, [129, 2, 3, 4, 5, 6]⟩ 0 = .ok (129 * 2 ^ 8 + 2) ∧
    r24l ⟨6, [129, 2, 3, 4, 5, 6]⟩ 3 = .ok (4 + 5 * 2 ^ 8 + 6 * 2 ^ 16) ∧
    r32b ⟨6, [129, 2, 3, 4, 5, 6]⟩ 0 = .ok (129 * 2 ^ 24 + 2 * 2 ^ 16 + 3 * 2 ^ 8 + 4) :=
  ⟨(c5_readers_reference ⟨6, [129, 2, 3, 4, 5, 6]⟩ 5 (by decide)).1 (by decide),
   ((c5_readers_reference ⟨6, [129, 2, 3, 4, 5, 6]⟩ 0 (by decide)).2.1 (by decide)).1,
   ((c5_readers_reference ⟨6, [129, 2, 3, 4, 5, 6]⟩ 3 (by decide)).2.2.1 (by decide)).2,
   ((c5_readers_reference ⟨6, [129, 2, 3, 4, 5, 6]⟩ 0 (by decide)).2.2.2 (by decide)).1⟩

/-- C6: when the bounds check of an accessor fails, the error carries the name
of that accessor, the offset and the size of the call (sizes are 32-bit values,
as every size parameter is) and the size of the block. -/
theorem c6_error_names_the_call (b : iblock_t) (c : call) (e : out_of_block)
    (hs : c.size < 4294967296) (h : (run b c).1 = .fatal e) :
    e.function = c.name ∧ e.off = c.offset ∧ e.size = c.size ∧ e.block_size = b.m_size := by
  have hc : c.checked_size = c.size := by
    cases c <;> first
      | rfl
      | exact Nat.mod_eq_of_lt hs
  rw [(run_fatal b c e h).1, hc]
  exact ⟨rfl, rfl, rfl, rfl⟩

theorem c6_error_names_the_call_witness :
    (⟨"w16b", false, 15, 2, 16⟩ : out_of_block).function = (call.w16b 15 1).name ∧
    (⟨"w16b", false, 15, 2, 16⟩ : out_of_block).off = (call.w16b 15 1).offset ∧
    (⟨"w16b", false, 15, 2, 16⟩ : out_of_block).size = (call.w16b 15 1).size ∧
    (⟨"w16b", false, 15, 2, 16⟩ : out_of_block).block_size = zero_block.m_size :=
  c6_error_names_the_call zero_block (.w16b 15 1) ⟨"w16b", false, 15, 2, 16⟩
    (by decide) (by decide)

/-! ## Properties of the reference counter -/

namespace fs_refcounted_inner

/-- C7, as stated, fails once the 32-bit strong count wraps: after 2^32 + 1 calls
of `ref()` the count reads 1, so that the first `unref()` already frees the
object while 2^32 references are still held. -/
theorem c7_first_unref_frees_after_wrap :
    (1 : Nat) < 4294967297 ∧ (unref 0 (ref^[4294967297] fresh)).log = [event.freed] ∧
    ¬ (∀ j, j < 4294967297 → ((unref 0)^[j] (ref^[4294967297] fresh)).frees = 0) := by
  have h : ref^[4294967297] fresh = ⟨1, 0, []⟩ := by
    rw [show fresh = ⟨0, 0, []⟩ from rfl, ref_iterate]
    decide
  have h1 : (unref 0 (ref^[4294967297] fresh)).log = [event.freed] := by
    rw [h]; decide
  refine ⟨by decide, h1, fun hall => ?_⟩
  have h2 := hall 1 (by decide)
  rw [Function.iterate_one, frees, h1] at h2
  exact absurd h2 (by decide)

/-- C7, amended: for 1 ≤ N ≤ 2^32, after N calls of `ref()` on a fresh object
(no weak references, any override of the hook), none of the first N - 1 calls of
`unref()` frees the object or invokes `drop_weak_references()`, and the N-th
call frees it, so that it is freed exactly once. -/
theorem c7_refs_then_unrefs (N k : Nat) (h1 : 1 ≤ N) (h2 : N ≤ 4294967296) :
    (∀ j, j < N → ((unref k)^[j] (ref^[N] fresh)).log = []) ∧
    ((unref k)^[N] (ref^[N] fresh)).log = [event.freed] ∧
    ((unref k)^[N] (ref^[N] fresh)).frees = 1 ∧
    ((unref k)^[N] (ref^[N] fresh)).drops = 0 := by
  have h : ref^[N] fresh = ⟨to_u32 N, 0, []⟩ := by
    rw [show fresh = ⟨0, 0, []⟩ from rfl, ref_iterate, if_neg (by omega), Nat.zero_add]
  rw [h, unref_iterate_last k N h1 h2]
  refine ⟨fun j hj => ?_, rfl, by decide, by decide⟩
  rw [unref_iterate_lt k N h2 j hj]

theorem c7_refs_then_unrefs_witness :
    ((unref 0)^[3] (ref^[3] fresh)).log = [event.freed] :=
  (c7_refs_then_unrefs 3 0 (by decide) (by decide)).2.1

/-- C8: on a fresh object with one `ref()` and one `ref_weak()` (in either
order), `unref()` invokes `drop_weak_references()` exactly once, whatever the
override releases; when the override leaves the weak reference in place the
object is not freed by that `unref()` (which raises the error of kept
references), and the `unref_weak()` that follows frees it. -/
theorem c8_one_strong_one_weak (k : Nat) :
    ref_weak (ref fresh) = ref (ref_weak fresh) ∧
    (unref k (ref_weak (ref fresh))).drops = 1 ∧
    (unref 0 (ref_weak (ref fresh))).frees = 0 ∧
    (unref 0 (ref_weak (ref fresh))).m_weak_ref = 1 ∧
    (unref 0 (ref_weak (ref fresh))).log = [event.dropped, event.kept 1] ∧
    (unref_weak (unref 0 (ref_weak (ref fresh)))).frees = 1 := by
  refine ⟨by decide, ?_, by decide, by decide, by decide, by decide⟩
  have e : ref_weak (ref fresh) = ⟨1, 1, []⟩ := by decide
  have hu := (unref_cases ⟨1, 1, []⟩ k).2.2 (by decide) (by decide)
  obtain ⟨m, hm⟩ := drop_weak_references_log k ⟨dec_u32 1, 1, []⟩
  rw [e, drops, hu]
  split_ifs
  · show List.count event.dropped (_ ++ [event.kept _]) = 1
    rw [hm]
    simp [List.count_replicate]
  · rw [hm]
    simp [List.count_replicate]

/-- C9: an `unref()` that brings the strong count to zero frees the object,
exactly once and without an error, when the weak count is zero, and also when
it is not and the override of `drop_weak_references()` releases every weak
reference through `unref_weak()`; in the second case the object is freed by the
last of these releases. -/
theorem c9_unref_frees (o : fs_refcounted_inner) (k : Nat)
    (h0 : dec_u32 o.m_ref = 0) (hw : o.m_weak_ref < 4294967296)
    (hk : k = o.m_weak_ref) :
    (unref k o).log = o.log ++ (if o.m_weak_ref = 0 then [event.freed]
      else [event.dropped, event.freed]) ∧
    (unref k o).frees = o.frees + 1 ∧ (unref k o).errors = o.errors := by
  have hlog : (unref k o).log = o.log ++ (if o.m_weak_ref = 0 then [event.freed]
      else [event.dropped, event.freed]) := by
    by_cases hz : o.m_weak_ref = 0
    · rw [if_pos hz, (unref_cases o k).2.1 h0 hz]
    · have hz1 : o.m_weak_ref ≠ 0 := hz
      have ha : drop_weak_references k { o with m_ref := dec_u32 o.m_ref } =
          ⟨0, 0, o.log ++ [event.dropped] ++ [event.freed]⟩ := by
        unfold drop_weak_references
        rw [h0, hk]
        exact unref_weak_iterate_all o.m_weak_ref _ (by omega) hw
      rw [if_neg hz, (unref_cases o k).2.2 h0 hz1, ha]
      simp
  refine ⟨hlog, ?_, ?_⟩
  · rw [frees, frees, hlog]
    split_ifs <;> simp [List.count_append]
  · rw [errors, errors, hlog]
    split_ifs <;> simp [List.countP_append]

theorem c9_unref_frees_witness :
    (unref 2 ⟨1, 2, []⟩).log = [event.dropped, event.freed] :=
  (c9_unref_frees ⟨1, 2, []⟩ 2 (by decide) (by decide) rfl).1

/-- C10: an `unref()` raises the error of kept references exactly when it
brings the strong count to zero, the weak count is not zero, and the weak count
is still not zero when `drop_weak_references()` has returned; it raises it at
most once, and then after exactly one invocation of the hook: what the call
adds to the record is the invocation, the frees made by the hook, and the error
last. -/
theorem c10_error_iff (o : fs_refcounted_inner) (k : Nat) :
    ((unref k o).errors = o.errors + 1 ↔
      (dec_u32 o.m_ref = 0 ∧ o.m_weak_ref ≠ 0 ∧
        (drop_weak_references k { o with m_ref := dec_u32 o.m_ref }).m_weak_ref ≠ 0)) ∧
    ((unref k o).errors = o.errors ∨ (unref k o).errors = o.errors + 1) ∧
    ((unref k o).errors = o.errors + 1 →
      ∃ m, (unref k o).log = o.log ++ event.dropped :: List.replicate m event.freed ++
        [event.kept (drop_weak_references k { o with m_ref := dec_u32 o.m_ref }).m_weak_ref])
    := by
  by_cases h0 : dec_u32 o.m_ref = 0
  · by_cases hz : o.m_weak_ref = 0
    · have he : (unref k o).errors = o.errors := by
        rw [(unref_cases o k).2.1 h0 hz, errors, errors]
        simp [List.countP_append]
      exact ⟨⟨fun h => by omega, fun h => absurd hz h.2.1⟩, Or.inl he, fun h => by omega⟩
    · have hu := (unref_cases o k).2.2 h0 hz
      obtain ⟨m, hm⟩ := drop_weak_references_log k { o with m_ref := dec_u32 o.m_ref }
      by_cases ha : (drop_weak_references k { o with m_ref := dec_u32 o.m_ref }).m_weak_ref ≠ 0
      · rw [if_pos ha] at hu
        have hl : (unref k o).log = o.log ++ event.dropped :: List.replicate m event.freed ++
            [event.kept (drop_weak_references k
              { o with m_ref := dec_u32 o.m_ref }).m_weak_ref] := by
          rw [hu]
          show _ ++ [event.kept _] = _
          rw [hm, List.append_assoc]
        have he : (unref k o).errors = o.errors + 1 := by
          rw [errors, errors, hl]
          simp [List.countP_append, List.countP_cons, errors_replicate_freed]
        exact ⟨⟨fun _ => ⟨h0, hz, ha⟩, fun _ => he⟩, Or.inr he, fun _ => ⟨m, hl⟩⟩
      · rw [if_neg ha] at hu
        have he : (unref k o).errors = o.errors := by
          rw [errors, errors, hu, hm]
          simp [List.countP_append, List.countP_cons, errors_replicate_freed]
        exact ⟨⟨fun h => by omega, fun h => absurd h.2.2 ha⟩, Or.inl he, fun h => by omega⟩
  · have he : (unref k o).errors = o.errors := by
      rw [(unref_cases o k).1 h0, errors, errors]
    exact ⟨⟨fun h => by omega, fun h => absurd h.1 h0⟩, Or.inl he, fun h => by omega⟩

theorem c10_error_iff_witness :
    ∃ m, (unref 1 ⟨1, 2, []⟩).log = [] ++ event.dropped :: List.replicate m event.freed ++
      [event.kept (drop_weak_references 1 ⟨dec_u32 1, 2, []⟩).m_weak_ref] :=
  (c10_error_iff ⟨1, 2, []⟩ 1).2.2 (by decide)

end fs_refcounted_inner

/-! ## Properties of calls on one object -/

namespace fs_refcounted_inner

/-- C11: on an object whose weak count is at least 1, `unref_weak()` lowers the
weak count by one, leaves the strong count as it is, and frees the object
exactly when the weak count has reached zero and the strong count is zero;
it frees at most once and neither invokes the hook nor raises an error. -/
theorem c11_unref_weak (o : fs_refcounted_inner) (h1 : 1 ≤ o.m_weak_ref)
    (h2 : o.m_weak_ref < 4294967296) :
    (unref_weak o).m_weak_ref = o.m_weak_ref - 1 ∧ (unref_weak o).m_ref = o.m_ref ∧
    ((unref_weak o).frees = o.frees + 1 ↔ (o.m_weak_ref - 1 = 0 ∧ o.m_ref = 0)) ∧
    ((unref_weak o).frees = o.frees ↔ ¬ (o.m_weak_ref - 1 = 0 ∧ o.m_ref = 0)) ∧
    (unref_weak o).drops = o.drops ∧ (unref_weak o).errors = o.errors := by
  obtain ⟨c1, c2, c3⟩ := unref_weak_cases o
  have hd := dec_u32_pos o.m_weak_ref h1 h2
  rw [hd] at c2 c3
  refine ⟨c2, c1, ?_, ?_, ?_, ?_⟩
  · rw [frees, frees, c3]
    split_ifs with h
    · simp [List.count_append, h]
    · simp [h]
  · rw [frees, frees, c3]
    split_ifs with h
    · simp [List.count_append, h]
    · simp [h]
  · rw [drops, drops, c3]
    split_ifs <;> simp [List.count_append]
  · rw [errors, errors, c3]
    split_ifs <;> simp [List.countP_append]

theorem c11_unref_weak_witness :
    (unref_weak ⟨0, 1, []⟩).frees = (⟨0, 1, []⟩ : fs_refcounted_inner).frees + 1 ↔
      ((⟨0, 1, []⟩ : fs_refcounted_inner).m_weak_ref - 1 = 0 ∧
        (⟨0, 1, []⟩ : fs_refcounted_inner).m_ref = 0) :=
  (c11_unref_weak ⟨0, 1, []⟩ (by decide) (by decide)).2.2.1

/-- C12: for every sequence of `ref()`, `ref_weak()`, `unref()` and
`unref_weak()` calls made on an object from its construction on, each on the
object while it has not been freed and with a hook that releases only weak
references the object has, the object is freed at most once, and when it is
freed its strong count and its weak count are both zero. -/
theorem c12_freed_once_at_zero (ops : List op) (h : live_calls fresh ops) :
    (fresh.calls ops).frees ≤ 1 ∧
    ((fresh.calls ops).frees = 1 →
      (fresh.calls ops).m_ref = 0 ∧ (fresh.calls ops).m_weak_ref = 0) := by
  rcases calls_frees ops fresh (by decide) (by decide) h with h0 | ⟨h1, h2, h3⟩
  · exact ⟨by omega, fun h1 => by omega⟩
  · exact ⟨by omega, fun _ => ⟨h2, h3⟩⟩

theorem c12_freed_once_at_zero_witness :
    (fresh.calls [.ref, .ref_weak, .ref_weak, .unref 1, .unref_weak]).frees ≤ 1 ∧
    (fresh.calls [.ref, .ref_weak, .ref_weak, .unref 1, .unref_weak]).m_ref = 0 ∧
    (fresh.calls [.ref, .ref_weak, .ref_weak, .unref 1, .unref_weak]).m_weak_ref = 0 :=
  ⟨(c12_freed_once_at_zero [.ref, .ref_weak, .ref_weak, .unref 1, .unref_weak]
      (by decide)).1,
   (c12_freed_once_at_zero [.ref, .ref_weak, .ref_weak, .unref 1, .unref_weak]
      (by decide)).2 (by decide)⟩

end fs_refcounted_inner

/-! ## Properties of the handles -/

namespace fs_refcounted_outer

/-- C13, at the failing input: two objects, a strong handle `a` on the first and
a strong handle `b` on the second; after the move assignment `a = std::move(b)`
the first object has not been freed and its strong count is still 1, while no
live handle refers to it. The copy assignment in the same place releases the
first object. -/
theorem c13_move_assign_keeps_count :
    (move_assign ⟨some 0, false⟩ ⟨some 1, false⟩).1 = ⟨some 1, false⟩ ∧
    (move_assign ⟨some 0, false⟩ ⟨some 1, false⟩).2 = ⟨none, false⟩ ∧
    (from_object (some 1) false
      (from_object (some 0) false [fs_refcounted_inner.fresh, fs_refcounted_inner.fresh]).2).2
      = [⟨1, 0, []⟩, ⟨1, 0, []⟩] ∧
    referring [(move_assign ⟨some 0, false⟩ ⟨some 1, false⟩).1,
      (move_assign ⟨some 0, false⟩ ⟨some 1, false⟩).2] false 0 = 0 ∧
    (copy_assign 0 ⟨some 0, false⟩ ⟨some 1, false⟩ [⟨1, 0, []⟩, ⟨1, 0, []⟩]).2
      = [⟨0, 0, [event.freed]⟩, ⟨2, 0, []⟩] := by
  decide

/-- C14, as stated, fails for a weak handle on an object without a strong
reference: a weak handle `h` is made on a fresh object, `h.strong()` raises the
strong count to 1, and destroying the result brings it back to 0 with the weak
reference of `h` outstanding, so that `drop_weak_references()` runs; with an
override that releases it the object is freed and the counts are 0 and 0, not
0 and 1 as before. -/
theorem c14_destroying_strong_runs_the_hook :
    (from_object (some 0) true [fs_refcounted_inner.fresh]) = (⟨some 0, true⟩, [⟨0, 1, []⟩]) ∧
    strong ⟨some 0, true⟩ [⟨0, 1, []⟩] = (⟨some 0, false⟩, [⟨1, 1, []⟩]) ∧
    destroy 1 ⟨some 0, false⟩ [⟨1, 1, []⟩] = [⟨0, 0, [event.dropped, event.freed]⟩] ∧
    destroy 0 ⟨some 0, false⟩ [⟨1, 1, []⟩] = [⟨0, 1, [event.dropped, event.kept 1]⟩] := by
  decide

/-- C14, amended: for a non-empty handle `h` on an object whose counts include
`h` and stay below 2^32 - 1, `h.strong()` yields a non-weak handle to the same
object and raises only the strong count, by one; `h.weak()` yields a weak handle
to the same object and raises only the weak count, by one; destroying the
result of `weak()` gives back the heap as it was, and so does destroying the
result of `strong()` when the object had a strong reference before. -/
theorem c14_strong_weak (hp : heap) (h : fs_refcounted_outer) (p k : Nat)
    (o : fs_refcounted_inner) (hobj : h.m_object = some p) (ho : hp[p]? = some o)
    (h1 : o.m_ref + 1 < 4294967296) (h2 : o.m_weak_ref + 1 < 4294967296)
    (hc : if h.m_is_weak_ref then 1 ≤ o.m_weak_ref else 1 ≤ o.m_ref) :
    h.strong hp = (⟨some p, false⟩, hp.set p { o with m_ref := o.m_ref + 1 }) ∧
    h.weak hp = (⟨some p, true⟩, hp.set p { o with m_weak_ref := o.m_weak_ref + 1 }) ∧
    (h.weak hp).1.destroy k (h.weak hp).2 = hp ∧
    (1 ≤ o.m_ref → (h.strong hp).1.destroy k (h.strong hp).2 = hp) := by
  obtain ⟨e1, e2⟩ := from_object_eq hp p o ho h1 h2
  have hs : h.strong hp = (⟨some p, false⟩, hp.set p { o with m_ref := o.m_ref + 1 }) := by
    rw [strong, hobj, e1]
  have hw : h.weak hp = (⟨some p, true⟩, hp.set p { o with m_weak_ref := o.m_weak_ref + 1 }) := by
    rw [weak, hobj, e2]
  refine ⟨hs, hw, ?_, fun h3 => ?_⟩
  · rw [hw]
    refine destroy_weak_eq hp p k o ho h2 ?_
    by_cases hk : h.m_is_weak_ref = true
    · rw [if_pos hk] at hc; exact Or.inl hc
    · rw [if_neg hk] at hc; exact Or.inr hc
  · rw [hs]
    exact destroy_strong_eq hp p k o ho h1 h3

theorem c14_strong_weak_witness :
    strong ⟨some 0, true⟩ [⟨1, 1, []⟩] = (⟨some 0, false⟩, [⟨2, 1, []⟩]) ∧
    weak ⟨some 0, true⟩ [⟨1, 1, []⟩] = (⟨some 0, true⟩, [⟨1, 2, []⟩]) ∧
    (weak ⟨some 0, true⟩ [⟨1, 1, []⟩]).1.destroy 1 (weak ⟨some 0, true⟩ [⟨1, 1, []⟩]).2
      = [⟨1, 1, []⟩] ∧
    (strong ⟨some 0, true⟩ [⟨1, 1, []⟩]).1.destroy 1 (strong ⟨some 0, true⟩ [⟨1, 1, []⟩]).2
      = [⟨1, 1, []⟩] :=
  have t := c14_strong_weak [⟨1, 1, []⟩] ⟨some 0, true⟩ 0 1 ⟨1, 1, []⟩ rfl rfl
    (by decide) (by decide) (by decide)
  ⟨t.1, t.2.1, t.2.2.1, t.2.2.2 (by decide)⟩

end fs_refcounted_outer

/-! ## Properties of the matching rule and of the metadata texts -/

/-- C15: `has` is true when `form_factor` is `FF_UNKNOWN`, whatever the list of
variants, `ff` and `variant`; otherwise it is true exactly when `ff` equals
`form_factor` and `variant` occurs in `variants`. With `FF_3_5` other than
`FF_UNKNOWN` and `DSDD` other than `DSHD`: `has(FF_3_5, [DSDD], FF_3_5, DSDD)` is
true, `has(FF_3_5, [DSDD], FF_3_5, DSHD)` is false, `has(FF_UNKNOWN, [], FF_5_25, v)`
is true for every `v`. -/
theorem c15_has (FF_UNKNOWN : Nat) :
    (∀ variants ff variant, has FF_UNKNOWN FF_UNKNOWN variants ff variant = true) ∧
    (∀ form_factor variants ff variant, form_factor ≠ FF_UNKNOWN →
      (has FF_UNKNOWN form_factor variants ff variant = true ↔
        ff = form_factor ∧ variant ∈ variants)) ∧
    (∀ FF_3_5 FF_5_25 DSDD DSHD, FF_3_5 ≠ FF_UNKNOWN → DSDD ≠ DSHD →
      has FF_UNKNOWN FF_3_5 [DSDD] FF_3_5 DSDD = true ∧
      has FF_UNKNOWN FF_3_5 [DSDD] FF_3_5 DSHD = false ∧
      ∀ v, has FF_UNKNOWN FF_UNKNOWN [] FF_5_25 v = true) := by
  have gen : ∀ form_factor variants ff variant, form_factor ≠ FF_UNKNOWN →
      (has FF_UNKNOWN form_factor variants ff variant = true ↔
        ff = form_factor ∧ variant ∈ variants) := by
    intro form_factor variants ff variant hne
    rw [has, if_neg hne]
    by_cases hff : form_factor = ff
    · simp [hff, variant_loop_iff]
    · have hff1 : ¬ ff = form_factor := fun e => hff e.symm
      simp [hff, hff1]
  refine ⟨fun _ _ _ => by simp [has], gen, ?_⟩
  intro FF_3_5 FF_5_25 DSDD DSHD h1 h2
  refine ⟨(gen FF_3_5 [DSDD] FF_3_5 DSDD h1).mpr ⟨rfl, by simp⟩, ?_, fun _ => by simp [has]⟩
  have hn : ¬ (has FF_UNKNOWN FF_3_5 [DSDD] FF_3_5 DSHD = true) := by
    rw [gen FF_3_5 [DSDD] FF_3_5 DSHD h1]
    simp only [List.mem_singleton, true_and]
    exact fun e => h2 e.symm
  simpa using hn

theorem c15_has_witness :
    (has 0 538981683 [1145330500, 1145590596] 538981683 1145590596 = true ↔
      538981683 = 538981683 ∧ 1145590596 ∈ [1145330500, 1145590596]) ∧
    (has 0 538981683 [1145330500] 538981683 1145330500 = true ∧
      has 0 538981683 [1145330500] 538981683 1145590596 = false ∧
      ∀ v, has 0 0 [] 540357173 v = true) :=
  ⟨(c15_has 0).2.1 538981683 [1145330500, 1145590596] 538981683 1145590596 (by decide),
   (c15_has 0).2.2 538981683 540357173 1145330500 1145590596 (by decide) (by decide)⟩

/-- C16: the text of a number is `0x` followed by its hexadecimal digits: they
are among `0123456789abcdef`, they write the number in base 16, there is no
leading zero and zero is written `0`; 255 gives `0xff` and 2^64 - 1 gives `0x`
and sixteen times `f`. -/
theorem c16_number_text (n : Nat) :
    fs_meta_to_string .number (.number 255) = some "0xff" ∧
    fs_meta_to_string .number (.number 0) = some "0x0" ∧
    fs_meta_to_string .number (.number 18446744073709551615) = some "0xffffffffffffffff" ∧
    ∃ ds : List Char,
      fs_meta_to_string .number (.number n) = some (String.mk ('0' :: 'x' :: ds)) ∧
      ds ≠ [] ∧ (∀ c ∈ ds, c ∈ "0123456789abcdef".data) ∧ number_of 16 ds = n ∧
      (n = 0 → ds = ['0']) ∧ (n ≠ 0 → ds.head? ≠ some '0') := by
  refine ⟨by decide, by decide, by decide, Nat.toDigits 16 n, rfl,
    toDigits_ne_nil 16 (by decide) n, toDigits_hex n,
    number_of_toDigits 16 (by decide) (by decide) n, ?_,
    toDigits_head 16 (by decide) (by decide) n⟩
  intro h0
  rw [h0]
  rfl

theorem c16_number_text_witness :
    ∃ ds : List Char,
      fs_meta_to_string .number (.number 4096) = some (String.mk ('0' :: 'x' :: ds)) ∧
      ds ≠ [] ∧ (∀ c ∈ ds, c ∈ "0123456789abcdef".data) ∧ number_of 16 ds = 4096 ∧
      (4096 = 0 → ds = ['0']) ∧ (4096 ≠ 0 → ds.head? ≠ some '0') :=
  (c16_number_text 4096).2.2.2

/-- C17: the text of a flag is `t` for true and `f` for false, and the text of
a string is the string itself, the empty one included. -/
theorem c17_flag_and_string_text :
    fs_meta_to_string .flag (.flag true) = some "t" ∧
    fs_meta_to_string .flag (.flag false) = some "f" ∧
    fs_meta_to_string .string (.string "") = some "" ∧
    ∀ s : String, fs_meta_to_string .string (.string s) = some s :=
  ⟨rfl, rfl, rfl, fun _ => rfl⟩

/-- C18: for a date with the year in 0..9999 and the month, day, hour, minute
and second in 0..99, the text is the 19 characters `YYYY-MM-DD HH:MM:SS`: the
four decimal digits of the year and the two decimal digits of each other
field, zeros included, with the separators `-`, `-`, a blank, `:` and `:`. -/
theorem c18_date_text (dt : arbitrary_datetime)
    (hy : 0 ≤ dt.year ∧ dt.year ≤ 9999) (hmo : 0 ≤ dt.month ∧ dt.month ≤ 99)
    (hd : 0 ≤ dt.day_of_month ∧ dt.day_of_month ≤ 99) (hh : 0 ≤ dt.hour ∧ dt.hour ≤ 99)
    (hmi : 0 ≤ dt.minute ∧ dt.minute ≤ 99) (hs : 0 ≤ dt.second ∧ dt.second ≤ 99) :
    fs_meta_to_string .date (.date dt) = some (String.mk
      [Nat.digitChar (dt.year.natAbs / 1000), Nat.digitChar (dt.year.natAbs / 100 % 10),
       Nat.digitChar (dt.year.natAbs / 10 % 10), Nat.digitChar (dt.year.natAbs % 10), '-',
       Nat.digitChar (dt.month.natAbs / 10), Nat.digitChar (dt.month.natAbs % 10), '-',
       Nat.digitChar (dt.day_of_month.natAbs / 10),
       Nat.digitChar (dt.day_of_month.natAbs % 10), ' ',
       Nat.digitChar (dt.hour.natAbs / 10), Nat.digitChar (dt.hour.natAbs % 10), ':',
       Nat.digitChar (dt.minute.natAbs / 10), Nat.digitChar (dt.minute.natAbs % 10), ':',
       Nat.digitChar (dt.second.natAbs / 10), Nat.digitChar (dt.second.natAbs % 10)]) ∧
    ∀ s, fs_meta_to_string .date (.date dt) = some s → s.length = 19 := by
  have e : fs_meta_to_string .date (.date dt) = some (String.mk
      [Nat.digitChar (dt.year.natAbs / 1000), Nat.digitChar (dt.year.natAbs / 100 % 10),
       Nat.digitChar (dt.year.natAbs / 10 % 10), Nat.digitChar (dt.year.natAbs % 10), '-',
       Nat.digitChar (dt.month.natAbs / 10), Nat.digitChar (dt.month.natAbs % 10), '-',
       Nat.digitChar (dt.day_of_month.natAbs / 10),
       Nat.digitChar (dt.day_of_month.natAbs % 10), ' ',
       Nat.digitChar (dt.hour.natAbs / 10), Nat.digitChar (dt.hour.natAbs % 10), ':',
       Nat.digitChar (dt.minute.natAbs / 10), Nat.digitChar (dt.minute.natAbs % 10), ':',
       Nat.digitChar (dt.second.natAbs / 10), Nat.digitChar (dt.second.natAbs % 10)]) := by
    simp only [fs_meta_to_string, fs_meta.as_date, Option.map_some', string_format_date,
      format_0d_4 _ hy.1 hy.2, format_0d_2 _ hmo.1 hmo.2, format_0d_2 _ hd.1 hd.2,
      format_0d_2 _ hh.1 hh.2, format_0d_2 _ hmi.1 hmi.2, format_0d_2 _ hs.1 hs.2,
      List.cons_append, List.nil_append]
  refine ⟨e, fun s hs1 => ?_⟩
  rw [e, Option.some.injEq] at hs1
  rw [← hs1]
  rfl

theorem c18_date_text_witness :
    fs_meta_to_string .date (.date ⟨2021, 3, 7, 9, 5, 0⟩) = some (String.mk
      [Nat.digitChar (2021 / 1000), Nat.digitChar (2021 / 100 % 10),
       Nat.digitChar (2021 / 10 % 10), Nat.digitChar (2021 % 10), '-',
       Nat.digitChar (3 / 10), Nat.digitChar (3 % 10), '-',
       Nat.digitChar (7 / 10), Nat.digitChar (7 % 10), ' ',
       Nat.digitChar (9 / 10), Nat.digitChar (9 % 10), ':',
       Nat.digitChar (5 / 10), Nat.digitChar (5 % 10), ':',
       Nat.digitChar (0 / 10), Nat.digitChar (0 % 10)]) :=
  (c18_date_text ⟨2021, 3, 7, 9, 5, 0⟩ (by decide) (by decide) (by decide) (by decide)
    (by decide) (by decide)).1

/-- C19: for each type, two values whose texts are the same are equal (strings,
numbers, flags, and dates with any integer fields, negative ones included), and
there is a function that gives back the value from its text. -/
theorem c19_text_injective :
    (∀ (t : fs_meta_type) (m m1 : fs_meta) (s : String),
      fs_meta_to_string t m = some s → fs_meta_to_string t m1 = some s → m = m1) ∧
    (∃ from_string : fs_meta_type → String → fs_meta,
      ∀ (t : fs_meta_type) (m : fs_meta) (s : String),
        fs_meta_to_string t m = some s → from_string t s = m) :=
  ⟨fun t m m1 s h h1 => (read_back_to_string t m s h).symm.trans (read_back_to_string t m1 s h1),
   read_back, read_back_to_string⟩

theorem c19_text_injective_witness :
    (fs_meta.date ⟨-5, 123, -7, 9, 5, 0⟩) = fs_meta.date ⟨-5, 123, -7, 9, 5, 0⟩ :=
  c19_text_injective.1 .date (.date ⟨-5, 123, -7, 9, 5, 0⟩) (.date ⟨-5, 123, -7, 9, 5, 0⟩)
    "-005-123--7 09:05:00" (by decide) (by decide)

/-- C20: `fs_meta_to_string(t, m)` has a value exactly when the alternative held
by `m` is the one that `t` names, and so has each accessor for its own type;
with another alternative there is no value, neither a default nor an empty
text. -/
theorem c20_defined_iff_type_matches (t : fs_meta_type) (m : fs_meta) :
    ((fs_meta_to_string t m).isSome = true ↔ m.type = t) ∧
    (m.type ≠ t → fs_meta_to_string t m = none) ∧
    (m.as_string.isSome = true ↔ m.type = .string) ∧
    (m.as_number.isSome = true ↔ m.type = .number) ∧
    (m.as_flag.isSome = true ↔ m.type = .flag) ∧
    (m.as_date.isSome = true ↔ m.type = .date) := by
  cases t <;> cases m <;>
    simp [fs_meta_to_string, fs_meta.type, fs_meta.as_string, fs_meta.as_number,
      fs_meta.as_flag, fs_meta.as_date]

theorem c20_defined_iff_type_matches_witness :
    fs_meta_to_string .string (.number 7) = none :=
  (c20_defined_iff_type_matches .string (.number 7)).2.1 (by decide)

/-! ## Properties of names, filesystems and drivers -/

/-- C21: `fs_meta_get_name` gives for each of the ten names the text of its own
identifier; every text is non-empty, is made of lowercase letters and
underscores, and two names with the same text are the same name. -/
theorem c21_meta_names :
    fs_meta_name.all.map fs_meta_get_name =
      ["creation_date", "length", "loading_address", "locked", "modification_date", "name",
       "os_minimum_version", "os_version", "sequential", "size_in_blocks"] ∧
    (∀ n : fs_meta_name, n ∈ fs_meta_name.all) ∧
    (∀ n : fs_meta_name, fs_meta_get_name n ≠ "" ∧
      ∀ c ∈ (fs_meta_get_name n).data, c.isLower = true ∨ c = '_') ∧
    (∀ n n1 : fs_meta_name, fs_meta_get_name n = fs_meta_get_name n1 → n = n1) := by
  refine ⟨by decide, ?_, ?_, ?_⟩
  · intro n; cases n <;> decide
  · intro n; cases n <;> decide
  · intro n n1; cases n <;> cases n1 <;> decide

/-- C22: on a filesystem that does not override `format`, `format(meta)` raises
the error `format called on a filesystem not supporting it.` for every `meta`,
and the filesystem with its block store (the block size and the image) is
afterwards what it was. -/
theorem c22_format_unsupported (fs : filesystem_t) (meta : fs_meta_data)
    (h : fs.derived.format = none) :
    fs.format meta = (.error "format called on a filesystem not supporting it.\n", fs) ∧
    (fs.format meta).2.m_blockdev.m_block_size = fs.m_blockdev.m_block_size ∧
    (fs.format meta).2.m_blockdev.image = fs.m_blockdev.image := by
  have e : fs.format meta = (.error "format called on a filesystem not supporting it.\n", fs) := by
    rw [filesystem_t.format, h]; rfl
  rw [e]
  exact ⟨rfl, rfl, rfl⟩

theorem c22_format_unsupported_witness :
    (filesystem_t.construct ⟨0, [1, 2, 3]⟩ 256 ⟨none, none, none⟩).format
        [(.name, .string "TEST")] =
      (.error "format called on a filesystem not supporting it.\n",
        filesystem_t.construct ⟨0, [1, 2, 3]⟩ 256 ⟨none, none, none⟩) :=
  (c22_format_unsupported (filesystem_t.construct ⟨0, [1, 2, 3]⟩ 256 ⟨none, none, none⟩)
    [(.name, .string "TEST")] rfl).1

/-- C23: on a filesystem that overrides neither, `root()` and `metadata()` raise
their errors of an unsupported call; neither returns a directory or a map. -/
theorem c23_root_metadata_unsupported (fs : filesystem_t) (hr : fs.derived.root = none)
    (hm : fs.derived.metadata = none) :
    fs.root = .error "root called on a filesystem not supporting it.\n" ∧
    fs.metadata =
      .error "filesystem_t::metadata called on a filesystem not supporting it.\n" ∧
    (∀ d, fs.root ≠ .ok d) ∧ (∀ m, fs.metadata ≠ .ok m) := by
  have e1 : fs.root = .error "root called on a filesystem not supporting it.\n" := by
    rw [filesystem_t.root, hr]; rfl
  have e2 : fs.metadata =
      .error "filesystem_t::metadata called on a filesystem not supporting it.\n" := by
    rw [filesystem_t.metadata, hm]; rfl
  refine ⟨e1, e2, fun d hd => ?_, fun m hm1 => ?_⟩
  · rw [e1] at hd; cases hd
  · rw [e2] at hm1; cases hm1

theorem c23_root_metadata_unsupported_witness :
    (filesystem_t.construct ⟨0, []⟩ 512 ⟨none, none, none⟩).metadata =
      .error "filesystem_t::metadata called on a filesystem not supporting it.\n" :=
  (c23_root_metadata_unsupported (filesystem_t.construct ⟨0, []⟩ 512 ⟨none, none, none⟩)
    rfl rfl).2.1

/-- C24: the constructor of `filesystem_t` leaves the store with the block size
`size`, whatever it was before (0 for a fresh store), and with its image as it
was; `set_block_size(n)` makes the block size `n` and changes nothing else. -/
theorem c24_block_size (blockdev : fsblk_t) (size n : Nat) (derived : filesystem_overrides)
    (image : List uint8_t) :
    (filesystem_t.construct blockdev size derived).m_blockdev.m_block_size = size ∧
    (filesystem_t.construct blockdev size derived).m_blockdev.image = blockdev.image ∧
    (fsblk_t.fresh image).m_block_size = 0 ∧
    (filesystem_t.construct (fsblk_t.fresh image) size derived).m_blockdev = ⟨size, image⟩ ∧
    (blockdev.set_block_size n).m_block_size = n ∧
    (blockdev.set_block_size n).image = blockdev.image :=
  ⟨rfl, rfl, rfl, rfl, rfl, rfl⟩

/-- C25: `has_subdirectories()` is true exactly when `directory_separator()` is
not zero, and a driver that does not override `directory_separator()` reports
0 and no subdirectories. -/
theorem c25_subdirectories (m : filesystem_manager_t) :
    (m.has_subdirectories = true ↔ m.directory_separator ≠ 0) ∧
    (m.directory_separator_override = none →
      m.directory_separator = 0 ∧ m.has_subdirectories = false) := by
  constructor
  · simp [filesystem_manager_t.has_subdirectories]
  · intro h
    have e : m.directory_separator = 0 := by
      rw [filesystem_manager_t.directory_separator, h]; rfl
    exact ⟨e, by simp [filesystem_manager_t.has_subdirectories, e]⟩

theorem c25_subdirectories_witness :
    (⟨true, true, false, none, none, none, none, 256, ⟨none, none, none⟩⟩ :
      filesystem_manager_t).directory_separator = 0 ∧
    (⟨true, true, false, none, none, none, none, 256, ⟨none, none, none⟩⟩ :
      filesystem_manager_t).has_subdirectories = false :=
  (c25_subdirectories ⟨true, true, false, none, none, none, none, 256, ⟨none, none, none⟩⟩).2 rfl

/-! ## Properties of the commands of floptool -/

/-- C26: `flopdir`, `hddir` and `flopread` make a call on a filesystem only when
the manager of the filesystem looked up reports `can_read()`; `create` calls
`format` on every filesystem that has a format type and a manager, without
regard to `can_format()`, and for a driver that inherits `format` the call
raises the error of an unsupported call. -/
theorem c26_capability_checks (w : world) (argv : List String) :
    ((flopdir w argv).ops ≠ [] → ∃ fs m, find_fs_by_name w (arg argv 3) = some fs ∧
      fs.m_manager = some m ∧ m.can_read = true) ∧
    ((hddir w argv).ops ≠ [] → ∃ fs m, find_fs_by_name w (arg argv 2) = some fs ∧
      fs.m_manager = some m ∧ m.can_read = true) ∧
    ((flopread w argv).ops ≠ [] → ∃ fs m, find_fs_by_name w (arg argv 3) = some fs ∧
      fs.m_manager = some m ∧ m.can_read = true) ∧
    (∀ dest_format t source_fs m, argv.length = 5 →
      find_format_by_name w (arg argv 2) = some dest_format →
      find_fs_by_name w (arg argv 3) = some source_fs → source_fs.m_type = some t →
      source_fs.m_manager = some m →
      (create w argv).ops = [.format (create_meta m.volume_meta_description)] ∧
      (m.mount_derived.format = none →
        (create w argv).ending =
          .raised "format called on a filesystem not supporting it.\n")) :=
  ⟨flopdir_gated w argv, hddir_gated w argv, flopread_gated w argv,
    fun dest_format t source_fs m hn hf hs ht hm =>
      create_formats w argv dest_format t source_fs m hn hf hs ht hm⟩

theorem c26_capability_checks_witness :
    demo_manager.can_format = false ∧
    (create demo_world ["floptool", "create", "mfi", "rofs", "out.mfi"]).ops =
      [.format (create_meta demo_manager.volume_meta_description)] ∧
    create_meta demo_manager.volume_meta_description = [(.name, .string "UNTITLED")] ∧
    (create demo_world ["floptool", "create", "mfi", "rofs", "out.mfi"]).ending =
      .raised "format called on a filesystem not supporting it.\n" :=
  ⟨rfl,
   ((c26_capability_checks demo_world ["floptool", "create", "mfi", "rofs", "out.mfi"]).2.2.2
      demo_format demo_format demo_fs demo_manager rfl rfl rfl rfl rfl).1,
   by decide,
   ((c26_capability_checks demo_world ["floptool", "create", "mfi", "rofs", "out.mfi"]).2.2.2
      demo_format demo_format demo_fs demo_manager rfl rfl rfl rfl rfl).2 rfl⟩

/-- C27: every `dir_get` and `file_get` of `dir_scan` resolves an entry of the
listing of its directory with the accessor of the kind of the entry, and
`flopread` never calls `dir_get`; but `flopread` passes the key of the entry
found under the name of its path to `file_get` whatever the kind of the
entry. -/
theorem c27_entry_resolution (w : world) (argv : List String) :
    (∀ dmetad fmetad dir, ∀ o ∈ (dir_scan dmetad fmetad dir).1, o.consistent) ∧
    (∀ c l, fs_op.dir_get c l ∉ (flopread w argv).ops) ∧
    (∀ format t fs m meta c dg fg e, argv.length = 7 →
      find_format_by_name w (arg argv 2) = some format →
      find_fs_by_name w (arg argv 3) = some fs → fs.m_manager = some m →
      m.can_read = true → w.readable (arg argv 4) = true → format.load = true →
      fs.m_type = some t → m.has_subdirectories = false →
      m.mount_derived.root = some (.mk meta c dg fg) →
      c.find? (fun x => x.m_name == arg argv 5) = some e →
      (flopread w argv).ops.take 3 = [.root, .contents, .file_get e c]) :=
  ⟨dir_scan_consistent, flopread_no_dir_get w argv,
    fun format t fs m meta c dg fg e hn hf hs hm hr hrd hl ht hsub hroot he =>
      flopread_file_get w argv format t fs m meta c dg fg e hn hf hs hm hr hrd hl ht hsub
        hroot he⟩

theorem c27_entry_resolution_witness :
    (flopread demo_world
        ["floptool", "flopread", "mfi", "rofs", "in.mfi", "GAMES", "out.bin"]).ops.take 3 =
      [.root, .contents,
        .file_get ⟨"GAMES", .dir, 7⟩ [⟨"GAMES", .dir, 7⟩, ⟨"README", .file, 1⟩]] ∧
    ¬ (fs_op.file_get ⟨"GAMES", .dir, 7⟩
        [⟨"GAMES", .dir, 7⟩, ⟨"README", .file, 1⟩]).consistent ∧
    flopread demo_world ["floptool", "flopread", "mfi", "rofs", "in.mfi", "GAMES", "out.bin"] =
      ⟨.returned 1, [.fprintf "Error: \x00GAMES is not a readable file\n"],
        [.root, .contents,
          .file_get ⟨"GAMES", .dir, 7⟩ [⟨"GAMES", .dir, 7⟩, ⟨"README", .file, 1⟩],
          .file_metadata]⟩ :=
  ⟨(c27_entry_resolution demo_world
      ["floptool", "flopread", "mfi", "rofs", "in.mfi", "GAMES", "out.bin"]).2.2
      demo_format demo_format demo_fs demo_manager [] _ _ _ ⟨"GAMES", .dir, 7⟩ rfl rfl rfl
      rfl rfl rfl rfl rfl (by decide) rfl (by decide),
   by decide, by decide⟩

/-- C28: when the lookup of a name fails, every command returns 1 after one
message; `convert`, `hddir` and `flopread` print the name that was looked up,
while `create` and `flopdir` print the filesystem argument `argv[3]` when the
format `argv[2]` is not found, and the format argument `argv[2]` when the
filesystem `argv[3]` is not found. -/
theorem c28_lookup_messages (w : world) (argv : List String) :
    (argv.length = 6 → w.readable (arg argv 4) = true → is_auto (arg argv 2) = false →
      find_format_by_name w (arg argv 2) = none →
      convert w argv =
        ⟨.returned 1, [.fprintf ("Error: Format '" ++ arg argv 2 ++ "' unknown\n")], []⟩) ∧
    (argv.length = 6 → w.readable (arg argv 4) = true → is_auto (arg argv 2) = false →
      find_format_by_name w (arg argv 2) ≠ none → find_format_by_name w (arg argv 3) = none →
      convert w argv =
        ⟨.returned 1, [.fprintf ("Error: Format '" ++ arg argv 3 ++ "' unknown\n")], []⟩) ∧
    (argv.length = 4 → find_fs_by_name w (arg argv 2) = none →
      hddir w argv =
        ⟨.returned 1, [.fprintf ("Error: Filesystem '" ++ arg argv 2 ++ "' unknown\n")], []⟩) ∧
    (argv.length = 7 → find_format_by_name w (arg argv 2) = none →
      flopread w argv =
        ⟨.returned 1, [.fprintf ("Error: Format '" ++ arg argv 2 ++ "' unknown\n")], []⟩) ∧
    (argv.length = 7 → find_format_by_name w (arg argv 2) ≠ none →
      find_fs_by_name w (arg argv 3) = none →
      flopread w argv =
        ⟨.returned 1, [.fprintf ("Error: Filesystem '" ++ arg argv 3 ++ "' unknown\n")], []⟩) ∧
    (argv.length = 5 → find_format_by_name w (arg argv 2) = none →
      create w argv =
        ⟨.returned 1, [.fprintf ("Error: Format '" ++ arg argv 3 ++ "' unknown\n")], []⟩ ∧
      flopdir w argv =
        ⟨.returned 1, [.fprintf ("Error: Format '" ++ arg argv 3 ++ "' unknown\n")], []⟩) ∧
    (argv.length = 5 → find_format_by_name w (arg argv 2) ≠ none →
      find_fs_by_name w (arg argv 3) = none →
      create w argv =
        ⟨.returned 1, [.fprintf ("Error: Filesystem '" ++ arg argv 2 ++ "' unknown\n")], []⟩ ∧
      flopdir w argv =
        ⟨.returned 1, [.fprintf ("Error: Filesystem '" ++ arg argv 2 ++ "' unknown\n")],
          []⟩) := by
  refine ⟨?_, ?_, ?_, ?_, ?_, ?_, ?_⟩
  · intro hn hr ha hf
    simp [convert, hn, hr, ha, hf]
  · intro hn hr ha hf hd
    obtain ⟨f, hf1⟩ := Option.ne_none_iff_exists'.1 hf
    simp [convert, hn, hr, ha, hf1, hd]
  · intro hn hs
    simp [hddir, hn, hs]
  · intro hn hf
    simp [flopread, hn, hf]
  · intro hn hf hs
    obtain ⟨f, hf1⟩ := Option.ne_none_iff_exists'.1 hf
    simp [flopread, hn, hf1, hs]
  · intro hn hf
    exact ⟨by simp [create, hn, hf], by simp [flopdir, hn, hf]⟩
  · intro hn hf hs
    obtain ⟨f, hf1⟩ := Option.ne_none_iff_exists'.1 hf
    exact ⟨by simp [create, hn, hf1, hs], by simp [flopdir, hn, hf1, hs]⟩

theorem c28_lookup_messages_witness :
    create demo_world ["floptool", "create", "pc", "rofs", "out.img"] =
      ⟨.returned 1, [.fprintf "Error: Format 'rofs' unknown\n"], []⟩ ∧
    ¬ ("pc".data <:+: "Error: Format 'rofs' unknown\n".data) ∧
    flopdir demo_world ["floptool", "flopdir", "mfi", "fat", "in.mfi"] =
      ⟨.returned 1, [.fprintf "Error: Filesystem 'mfi' unknown\n"], []⟩ ∧
    ¬ ("fat".data <:+: "Error: Filesystem 'mfi' unknown\n".data) :=
  ⟨((c28_lookup_messages demo_world ["floptool", "create", "pc", "rofs", "out.img"]).2.2.2.2.2.1
      rfl (by decide)).1,
   by decide,
   ((c28_lookup_messages demo_world ["floptool", "flopdir", "mfi", "fat", "in.mfi"]).2.2.2.2.2.2
      rfl (by decide) rfl).2,
   by decide⟩

/-! ## Frame and width of the block writers -/

/-- C29: a write accessor (`copy`, `fill(offset, data, size)`, `wstr` or a typed
writer) that succeeds leaves the size of the block and every byte outside of
the window from `offset` to `offset + size` as they were. -/
theorem c29_write_frame (b : iblock_t) (c : call) (v : value) (hw : c.is_write = true)
    (h : (run b c).1 = .ok v) :
    (run b c).2.m_size = b.m_size ∧ (run b c).2.bytes.length = b.bytes.length ∧
    ∀ i, (i < c.offset ∨ c.offset + c.size ≤ i) → (run b c).2.bytes[i]? = b.bytes[i]? :=
  run_write_frame b c v hw h

theorem c29_write_frame_witness :
    (run ⟨6, [1, 2, 3, 4, 5, 6]⟩ (.w16b 2 65535)).2 = ⟨6, [1, 2, 255, 255, 5, 6]⟩ ∧
    (run ⟨6, [1, 2, 3, 4, 5, 6]⟩ (.w16b 2 65535)).2.m_size = 6 ∧
    (run ⟨6, [1, 2, 3, 4, 5, 6]⟩ (.w16b 2 65535)).2.bytes[5]? = some 6 :=
  ⟨by decide,
   (c29_write_frame ⟨6, [1, 2, 3, 4, 5, 6]⟩ (.w16b 2 65535) .none (by decide) (by decide)).1,
   (c29_write_frame ⟨6, [1, 2, 3, 4, 5, 6]⟩ (.w16b 2 65535) .none (by decide)
     (by decide)).2.2 5 (by decide)⟩

/-- C30: at an in-range offset of a well-formed block, `r24b` after `w24b` and
`r24l` after `w24l` give the written value modulo 2^24; the bytes written are
the same for `v` and for `v` modulo 2^24; and what `r24b` and `r24l` read is
below 2^24. -/
theorem c30_low_24_bits (b : iblock_t) (o v : Nat) (hwf : b.wf) (h : o + 3 ≤ b.m_size) :
    r24b (w24b b o v).2 o = .ok (v % 2 ^ 24) ∧ r24l (w24l b o v).2 o = .ok (v % 2 ^ 24) ∧
    w24b b o v = w24b b o (v % 2 ^ 24) ∧ w24l b o v = w24l b o (v % 2 ^ 24) ∧
    (∃ x, r24b b o = .ok x ∧ x < 2 ^ 24) ∧ (∃ x, r24l b o = .ok x ∧ x < 2 ^ 24) := by
  have h0 := byte_lt b o
  have h1 := byte_lt b (o + 1)
  have h2 := byte_lt b (o + 2)
  refine ⟨(w24b_r24b b o v hwf h).2, (w24l_r24l b o v hwf h).2, (w24_low b o v).1,
    (w24_low b o v).2, ⟨_, r24b_eq b o hwf h, ?_⟩, ⟨_, r24l_eq b o hwf h, ?_⟩⟩
  · norm_num; omega
  · norm_num; omega

theorem c30_low_24_bits_witness :
    r24b (w24b zero_block 5 4294967295).2 5 = .ok (4294967295 % 2 ^ 24) ∧
    w24l zero_block 5 2164260865 = w24l zero_block 5 (2164260865 % 2 ^ 24) :=
  ⟨(c30_low_24_bits zero_block 5 4294967295 (by decide) (by decide)).1,
   (c30_low_24_bits zero_block 5 2164260865 (by decide) (by decide)).2.2.2.1⟩

/-! ## Filling and byte order -/

/-- C31: on a block whose storage is as long as its size `B`, `fill(d)` returns
normally and leaves `B` bytes `d`; `fill(offset, d, size)` with
`offset + size <= B` returns normally, keeps the size, sets the bytes from
`offset` to `offset + size - 1` to `d`, so that `r8` at each of these positions
gives `d`, and leaves the other bytes as they were; `fill(offset, d, 0)` with
`offset <= B` leaves the block as it was. -/
theorem c31_fill (b : iblock_t) (d : uint8_t) (o n : Nat) (hwf : b.wf) :
    fill_all b d = (.ok (), ⟨b.m_size, List.replicate b.m_size d⟩) ∧
    (o + n ≤ b.m_size →
      (fill b o d n).1 = .ok () ∧ (fill b o d n).2.m_size = b.m_size ∧
      (fill b o d n).2.bytes = b.bytes.take o ++ List.replicate n d ++ b.bytes.drop (o + n) ∧
      (∀ i, o ≤ i → i < o + n → r8 (fill b o d n).2 i = .ok d.val) ∧
      (∀ i, (i < o ∨ o + n ≤ i) → (fill b o d n).2.bytes[i]? = b.bytes[i]?)) ∧
    (o ≤ b.m_size → fill b o d 0 = (.ok (), b)) := by
  refine ⟨fill_all_eq b d hwf, fun h => ?_, fun h => ?_⟩
  · have hl : o + n ≤ b.bytes.length := by rw [hwf]; exact h
    refine ⟨?_, ?_, ?_, fun i h1 h2 => r8_after_fill b o d n hwf h i h1 h2, fun i hi => ?_⟩
    · rw [fill_in_range b o d n hwf h]
    · rw [fill_in_range b o d n hwf h]
    · rw [fill_in_range b o d n hwf h]
      exact poke_fill_eq b.bytes o d n hl
    · rw [fill_in_range b o d n hwf h]
      exact poke_fill_outside b.bytes o d n hl i hi
  · rw [fill_in_range b o d 0 hwf (by omega), poke_fill_zero]

theorem c31_fill_witness :
    (fill zero_block 3 255 4).2.bytes =
      [0, 0, 0, 255, 255, 255, 255, 0, 0, 0, 0, 0, 0, 0, 0, 0] ∧
    r8 (fill zero_block 3 255 4).2 6 = .ok 255 ∧
    fill zero_block 16 255 0 = (.ok (), zero_block) ∧
    fill_all zero_block 7 = (.ok (), ⟨16, List.replicate 16 7⟩) :=
  ⟨((c31_fill zero_block 255 3 4 (by decide)).2.1 (by decide)).2.2.1,
   ((c31_fill zero_block 255 3 4 (by decide)).2.1 (by decide)).2.2.2.1 6 (by decide) (by decide),
   (c31_fill zero_block 255 16 0 (by decide)).2.2 (by decide),
   (c31_fill zero_block 7 0 0 (by decide)).1⟩

/-- C35: at an in-range offset of a block whose storage is as long as its size,
`r32b` after `w32l` and `r32l` after `w32b` give the written value with its four
low bytes reversed, `r16b` after `w16l` and `r16l` after `w16b` give the written
value with its two low bytes swapped, and on any such block `r16l` and `r32l`
read the byte-swapped values of what `r16b` and `r32b` read; swapping twice gives
back a 16-bit and a 32-bit value. -/
theorem c35_byte_reversal (b : iblock_t) (o v : Nat) (hwf : b.wf) :
    (o + 4 ≤ b.m_size →
      r32b (w32l b o v).2 o = .ok (swap32 v) ∧ r32l (w32b b o v).2 o = .ok (swap32 v)) ∧
    (o + 2 ≤ b.m_size →
      r16b (w16l b o v).2 o = .ok (swap16 v) ∧ r16l (w16b b o v).2 o = .ok (swap16 v)) ∧
    (o + 2 ≤ b.m_size → ∃ x, r16b b o = .ok x ∧ r16l b o = .ok (swap16 x) ∧ x < 2 ^ 16) ∧
    (o + 4 ≤ b.m_size → ∃ x, r32b b o = .ok x ∧ r32l b o = .ok (swap32 x) ∧ x < 2 ^ 32) ∧
    (v < 2 ^ 16 → swap16 (swap16 v) = v) ∧ (v < 2 ^ 32 → swap32 (swap32 v) = v) := by
  have h0 := byte_lt b o
  have h1 := byte_lt b (o + 1)
  have h2 := byte_lt b (o + 2)
  have h3 := byte_lt b (o + 3)
  refine ⟨fun h => ?_, fun h => ?_, fun h => ?_, fun h => ?_, fun hv => ?_, fun hv => ?_⟩
  · exact ⟨w32l_r32b b o v hwf h, w32b_r32l b o v hwf h⟩
  · exact ⟨w16l_r16b b o v hwf h, w16b_r16l b o v hwf h⟩
  · refine ⟨_, r16b_eq b o hwf h, ?_, by omega⟩
    rw [r16l_eq b o hwf h, (swap_bytes (b.byte o) (b.byte (o + 1)) 0 0 h0 h1 (by omega)
      (by omega)).1]
  · refine ⟨_, r32b_eq b o hwf h, ?_, by omega⟩
    rw [r32l_eq b o hwf h, (swap_bytes (b.byte o) (b.byte (o + 1)) (b.byte (o + 2))
      (b.byte (o + 3)) h0 h1 h2 h3).2]
  · exact (swap_twice v).1 (by omega)
  · exact (swap_twice v).2 (by omega)

theorem c35_byte_reversal_witness :
    r32b (w32l zero_block 4 287454020).2 4 = .ok (swap32 287454020) ∧
    swap32 287454020 = 1144201745 ∧
    r16l (w16b zero_block 4 4660).2 4 = .ok (swap16 4660) ∧ swap16 4660 = 13330 :=
  ⟨((c35_byte_reversal zero_block 4 287454020 (by decide)).1 (by decide)).1,
   by decide,
   ((c35_byte_reversal zero_block 4 4660 (by decide)).2.1 (by decide)).2,
   by decide⟩

/-! ## Moving and assigning handles -/

namespace fs_refcounted_outer

/-- C32: the move constructor gives a handle with the object and the kind of `h`
and leaves `h` without object, so that `h` converts to false; it calls no member
of any object. Destroying `h` afterwards leaves every heap as it is, destroying
the new handle does what destroying `h` would have done, and the number of
handles of each kind on each object is the same for the two handles after the
move as for `h` before it. -/
theorem c32_move_construct (h : fs_refcounted_outer) (k : Nat) (hp : heap) (weak : Bool)
    (p : Nat) :
    (move_construct h).1.m_object = h.m_object ∧
    (move_construct h).1.m_is_weak_ref = h.m_is_weak_ref ∧
    (move_construct h).2.to_bool = false ∧
    destroy k (move_construct h).2 hp = hp ∧
    destroy k (move_construct h).1 hp = destroy k h hp ∧
    referring [(move_construct h).1, (move_construct h).2] weak p = referring [h] weak p := by
  refine ⟨rfl, rfl, rfl, rfl, rfl, ?_⟩
  simp [referring, move_construct, List.countP_cons]

/-- C34: a copy assignment between two handles of the same kind on one object
leaves the heap as it is when the object has another reference that keeps it
alive (a strong count of 2 or more for strong handles; for weak handles a weak
count of 2 or more, or a strong reference). The self-assignment of the only
strong handle of an object frees the object in `unref()` and then calls `ref()`
on it. -/
theorem c34_copy_assign_same_object (hp : heap) (p k : Nat) (o : fs_refcounted_inner)
    (h : hp[p]? = some o) :
    (o.m_ref < 4294967296 → 2 ≤ o.m_ref →
      copy_assign k ⟨some p, false⟩ ⟨some p, false⟩ hp = (⟨some p, false⟩, hp)) ∧
    (o.m_weak_ref < 4294967296 → (2 ≤ o.m_weak_ref ∨ (1 ≤ o.m_weak_ref ∧ 1 ≤ o.m_ref)) →
      copy_assign k ⟨some p, true⟩ ⟨some p, true⟩ hp = (⟨some p, true⟩, hp)) ∧
    copy_assign k ⟨some 0, false⟩ ⟨some 0, false⟩ [⟨1, 0, []⟩] =
      (⟨some 0, false⟩, [⟨1, 0, [event.freed]⟩]) ∧
    copy_assign k ⟨some 0, true⟩ ⟨some 0, true⟩ [⟨0, 1, []⟩] =
      (⟨some 0, true⟩, [⟨0, 1, [event.freed]⟩]) := by
  refine ⟨fun h1 hc => ?_, fun h1 hc => ?_, ?_, ?_⟩
  · rw [copy_assign, unref_ref_strong hp p k o h h1 hc]
  · rw [copy_assign, unref_ref_weak hp p k o h h1 hc]
  · have hu : fs_refcounted_inner.unref k ⟨1, 0, []⟩ = ⟨0, 0, [event.freed]⟩ :=
      (fs_refcounted_inner.unref_cases ⟨1, 0, []⟩ k).2.1 (by decide) rfl
    simp only [copy_assign, unref, ref, Bool.false_eq_true, if_false,
      on_object_eq [⟨1, 0, []⟩] 0 ⟨1, 0, []⟩ _ rfl, hu]
    decide
  · have hu : fs_refcounted_inner.unref_weak ⟨0, 1, []⟩ = ⟨0, 0, [event.freed]⟩ := by decide
    simp only [copy_assign, unref, ref, if_true,
      on_object_eq [⟨0, 1, []⟩] 0 ⟨0, 1, []⟩ _ rfl, hu]
    decide

theorem c34_copy_assign_same_object_witness :
    copy_assign 0 ⟨some 0, false⟩ ⟨some 0, false⟩ [⟨2, 0, []⟩] = (⟨some 0, false⟩, [⟨2, 0, []⟩]) ∧
    copy_assign 0 ⟨some 0, false⟩ ⟨some 0, false⟩ [⟨1, 0, []⟩] =
      (⟨some 0, false⟩, [⟨1, 0, [event.freed]⟩]) ∧
    (from_object (some 0) false [fs_refcounted_inner.fresh]).2 = [⟨1, 0, []⟩] :=
  ⟨(c34_copy_assign_same_object [⟨2, 0, []⟩] 0 0 ⟨2, 0, []⟩ rfl).1 (by decide) (by decide),
   (c34_copy_assign_same_object [⟨2, 0, []⟩] 0 0 ⟨2, 0, []⟩ rfl).2.2.1,
   by decide⟩

end fs_refcounted_outer

/-! ## The variant lists -/

/-- C33: `has_variant(variants, v)` is true exactly when `v` occurs in `variants`,
and is false for the empty list; for a `form_factor` other than `FF_UNKNOWN`,
`has` is the conjunction of `ff == form_factor` and `has_variant(variants, v)`;
and a result of `has` that is true stays true for every list that contains the
elements of `variants`. -/
theorem c33_has_variant (FF_UNKNOWN : Nat) :
    (∀ variants v, has_variant variants v = true ↔ v ∈ variants) ∧
    (∀ v, has_variant [] v = false) ∧
    (∀ form_factor variants ff v, form_factor ≠ FF_UNKNOWN →
      has FF_UNKNOWN form_factor variants ff v =
        (decide (ff = form_factor) && has_variant variants v)) ∧
    (∀ form_factor variants more ff v, (∀ x ∈ variants, x ∈ more) →
      has FF_UNKNOWN form_factor variants ff v = true →
      has FF_UNKNOWN form_factor more ff v = true) := by
  refine ⟨fun variants v => variant_loop_iff v variants, fun _ => rfl, ?_, ?_⟩
  · intro form_factor variants ff v hne
    rw [has, if_neg hne, has_variant]
    by_cases hff : form_factor = ff
    · simp [hff]
    · have hff1 : ¬ ff = form_factor := fun e => hff e.symm
      simp [hff, hff1]
  · intro form_factor variants more ff v hsub h
    unfold has at h ⊢
    split_ifs at h ⊢ with h1 h2
    · rfl
    · exact (variant_loop_iff v more).2 (hsub v ((variant_loop_iff v variants).1 h))

theorem c33_has_variant_witness :
    has 0 538981683 [1145330500, 1145590596] 538981683 1145330500 = true ∧
    has 0 538981683 [1145330500] 538981683 1145330500 =
      (decide (538981683 = 538981683) && has_variant [1145330500] 1145330500) :=
  ⟨(c33_has_variant 0).2.2.2 538981683 [1145330500] [1145330500, 1145590596] 538981683
      1145330500 (by decide) (by decide),
   (c33_has_variant 0).2.2.1 538981683 [1145330500] 538981683 1145330500 (by decide)⟩

/-! ## Properties of the volume line and of the metadata of a new volume -/

/-- C36: the line `Volume:` of `generic_dir` is rendered without a mismatched
access exactly when, for every volume description, the value under its name in
the map has the variant the description declares, or the name is absent and the
description declares a flag: `vmeta[e.m_name]` gives a fresh `fs_meta()`, which
holds the flag false, for an absent name. A description of another type whose
name is absent makes `fs_meta_to_string` read the flag as that type. -/
theorem c36_volume_line (vmetad : List fs_meta_description) (vmeta : fs_meta_data) :
    ((volume_line vmetad vmeta).isSome = true ↔
      ∀ e ∈ vmetad,
        match vmeta.find e.m_name with
        | some v => v.type = e.m_type
        | none => e.m_type = .flag) ∧
    (∀ e ∈ vmetad, vmeta.find e.m_name = none → e.m_type ≠ .flag →
      volume_line vmetad vmeta = none) ∧
    sparse_manager.volume_meta_description =
      [⟨.name, .string, .string "UNTITLED", false⟩, ⟨.os_version, .number, .number 0, true⟩] ∧
    (sparse_manager.mount (fsblk_t.fresh [])).metadata = .ok [(.os_version, .number 3)] ∧
    generic_dir sparse_manager (fsblk_t.fresh []) = ⟨.undefined, [], [.metadata]⟩ := by
  have key : (volume_line vmetad vmeta).isSome = true ↔
      ∀ e ∈ vmetad,
        match vmeta.find e.m_name with
        | some v => v.type = e.m_type
        | none => e.m_type = .flag := by
    rw [volume_line_isSome]
    refine forall_congr' fun e => forall_congr' fun _ => ?_
    rw [to_string_isSome]
    cases vmeta.find e.m_name with
    | none =>
      simp only [Option.getD_none, fs_meta.initial, fs_meta.type]
      exact eq_comm
    | some v => simp only [Option.getD_some]
  refine ⟨key, fun e he hn ht => ?_, rfl, rfl, by decide⟩
  cases hv : volume_line vmetad vmeta with
  | none => rfl
  | some s =>
    have h1 := key.1 (by rw [hv]; rfl) e he
    rw [hn] at h1
    exact absurd h1 ht

theorem c36_volume_line_witness :
    volume_line sparse_manager.volume_meta_description [(.os_version, .number 3)] = none ∧
    ((volume_line [⟨.locked, .flag, .flag false, false⟩] [(.os_version, .number 3)]).isSome
      = true) :=
  ⟨(c36_volume_line sparse_manager.volume_meta_description [(.os_version, .number 3)]).2.1
      ⟨.name, .string, .string "UNTITLED", false⟩ (by decide) (by decide) (by decide),
   (c36_volume_line [⟨.locked, .flag, .flag false, false⟩] [(.os_version, .number 3)]).1.2
      (fun e he => by rw [List.mem_singleton.1 he]; exact rfl)⟩

/-- C37: the map that `create` hands to `format` has under a name the default of
the last description of that name that is not read-only, and no entry under a
name without such a description; no name occurs twice; for an empty list of
descriptions, which is what a driver without override reports, it is empty. -/
theorem c37_create_meta (metav : List fs_meta_description) (n : fs_meta_name) :
    (create_meta metav).find n =
      ((metav.filter fun e => !e.m_ro && e.m_name == n).getLast?).map (fun e => e.m_default) ∧
    ((create_meta metav).find n = none ↔ ∀ e ∈ metav, e.m_name = n → e.m_ro = true) ∧
    ((create_meta metav).map Prod.fst).Nodup ∧
    create_meta [] = [] ∧
    (∀ m : filesystem_manager_t, m.volume_meta_description_override = none →
      create_meta m.volume_meta_description = []) ∧
    (∀ (w : world) (argv : List String) dest_format t source_fs m, argv.length = 5 →
      find_format_by_name w (arg argv 2) = some dest_format →
      find_fs_by_name w (arg argv 3) = some source_fs → source_fs.m_type = some t →
      source_fs.m_manager = some m →
      (create w argv).ops = [.format (create_meta m.volume_meta_description)]) := by
  refine ⟨create_meta_find metav n, create_meta_find_none metav n,
    create_meta_keys_nodup metav, rfl, fun m hm => ?_,
    fun w argv dest_format t source_fs m hn hf hs ht hm =>
      (create_formats w argv dest_format t source_fs m hn hf hs ht hm).1⟩
  rw [filesystem_manager_t.volume_meta_description, hm]
  rfl

theorem c37_create_meta_witness :
    (create_meta [⟨.name, .string, .string "A", false⟩, ⟨.locked, .flag, .flag true, true⟩,
      ⟨.name, .string, .string "B", false⟩]).find .name = some (.string "B") ∧
    (create_meta [⟨.name, .string, .string "A", false⟩, ⟨.locked, .flag, .flag true, true⟩,
      ⟨.name, .string, .string "B", false⟩]).find .locked = none ∧
    create_meta [⟨.name, .string, .string "A", false⟩, ⟨.locked, .flag, .flag true, true⟩,
      ⟨.name, .string, .string "B", false⟩] = [(.name, .string "B")] :=
  ⟨(c37_create_meta [⟨.name, .string, .string "A", false⟩, ⟨.locked, .flag, .flag true, true⟩,
      ⟨.name, .string, .string "B", false⟩] .name).1,
   (c37_create_meta [⟨.name, .string, .string "A", false⟩, ⟨.locked, .flag, .flag true, true⟩,
      ⟨.name, .string, .string "B", false⟩] .locked).2.1.2 (by decide),
   by decide⟩

/-! ## Properties of the files in memory -/

/-- C38, as stated, fails for `SEEK_CUR`: on a fresh file of four bytes the call
with offset 10 and `SEEK_CUR` returns 0 and leaves the position 10, which is
beyond the size; after `SEEK_CUR` the position is only kept from being
negative. -/
theorem c38_seek_cur_passes_the_end :
    ram_seekproc (ram_open [1, 2, 3, 4]) 10 .SEEK_CUR = some (0, ⟨[1, 2, 3, 4], 10⟩) ∧
    ¬ ((10 : Int) ≤ ([1, 2, 3, 4] : List uint8_t).length) := by
  decide

/-- C38, amended: every call of `ram_seekproc` whose sum for `SEEK_CUR` does not
overflow returns 0; it leaves the data as it is and a position that is not
negative; after a call with `SEEK_SET`, `SEEK_END` or a `whence` that is none of
the three the position is at most the size of the data; after `SEEK_CUR` it is
the larger of `pos + offset` and 0. The same holds after the last call of a
sequence of calls. -/
theorem c38_seek_positions (f : iofile_ram) (offset : Int) (whence : seek_whence) :
    ((whence = .SEEK_CUR → to_i64 (f.pos + offset) = f.pos + offset) →
      ∃ f1, ram_seekproc f offset whence = some (0, f1)) ∧
    (∀ r f1, ram_seekproc f offset whence = some (r, f1) →
      r = 0 ∧ f1.data = f.data ∧ 0 ≤ f1.pos ∧
      (whence ≠ .SEEK_CUR → f1.pos ≤ f1.data.length) ∧
      (whence = .SEEK_CUR → f1.pos = max (f.pos + offset) 0)) ∧
    (∀ calls f1, seeks f (calls ++ [(offset, whence)]) = some f1 →
      f1.data = f.data ∧ 0 ≤ f1.pos ∧ (whence ≠ .SEEK_CUR → f1.pos ≤ f1.data.length)) :=
  ⟨ram_seekproc_returns f offset whence,
   fun r f1 h => ram_seekproc_some f f1 offset r whence h,
   fun calls f1 h => seeks_last calls offset whence f f1 h⟩

theorem c38_seek_positions_witness :
    ram_seekproc ⟨[1, 2, 3, 4], 10⟩ (-7) .SEEK_CUR = some (0, ⟨[1, 2, 3, 4], 3⟩) ∧
    ram_seekproc ⟨[1, 2, 3, 4], 10⟩ 2 .SEEK_END = some (0, ⟨[1, 2, 3, 4], 4⟩) ∧
    (∃ f1, ram_seekproc ⟨[1, 2, 3, 4], 10⟩ (-20) .SEEK_CUR = some (0, f1)) ∧
    ((0 : Int) ≤ 4 ∧ ((4 : Int) ≤ ([1, 2, 3, 4] : List uint8_t).length)) :=
  ⟨by decide, by decide,
   (c38_seek_positions ⟨[1, 2, 3, 4], 10⟩ (-20) .SEEK_CUR).1 (fun _ => by decide),
   have t := (c38_seek_positions ⟨[1, 2, 3, 4], 10⟩ 2 .SEEK_END).2.1 0 ⟨[1, 2, 3, 4], 4⟩
     (by decide)
   ⟨t.2.2.1, t.2.2.2.1 (by decide)⟩⟩

/-- C39: on a file whose position is between 0 and the size of the data,
`ram_readproc` returns the smaller of `length` and `size - pos` with the bytes
of the data from `pos` on, and it never changes the file. But `SEEK_CUR` leaves
positions beyond the size, and there the count is the whole `length`, so that
`memcpy` reads bytes that the data does not have: after a seek by 10 with
`SEEK_CUR` on a file of four bytes, a read of 8 bytes has the count 8. -/
theorem c39_read (f : iofile_ram) (length : Nat) :
    (0 ≤ f.pos → f.pos ≤ f.data.length → f.data.length < 2 ^ 64 →
      ram_readproc f length =
        (.ok (min length (f.data.length - f.pos.toNat),
          (f.data.drop f.pos.toNat).take (min length (f.data.length - f.pos.toNat))), f)) ∧
    (ram_readproc f length).2 = f ∧
    ((f.data.length : Int) < f.pos → f.pos < 2 ^ 63 → 0 < length →
      ram_readproc f length = (.outside, f)) ∧
    seeks (ram_open [1, 2, 3, 4]) [(10, .SEEK_CUR)] = some ⟨[1, 2, 3, 4], 10⟩ ∧
    read_count ⟨[1, 2, 3, 4], 10⟩ 8 = 8 ∧
    ram_readproc ⟨[1, 2, 3, 4], 10⟩ 8 = (.outside, ⟨[1, 2, 3, 4], 10⟩) := by
  refine ⟨fun h0 h1 h2 => ram_readproc_in_range f length h0 h1 (by omega), rfl,
    fun h1 h2 h3 => ram_readproc_past_end f length h1 (by omega) h3, by decide, by decide,
    by decide⟩

theorem c39_read_witness :
    ram_readproc ⟨[1, 2, 3, 4], 1⟩ 8 = (.ok (3, [2, 3, 4]), ⟨[1, 2, 3, 4], 1⟩) ∧
    ram_readproc ⟨[1, 2, 3, 4], 10⟩ 8 = (.outside, ⟨[1, 2, 3, 4], 10⟩) :=
  ⟨(c39_read ⟨[1, 2, 3, 4], 1⟩ 8).1 (by decide) (by decide) (by decide),
   (c39_read ⟨[1, 2, 3, 4], 10⟩ 8).2.2.1 (by decide) (by decide) (by decide)⟩

end fsmgr
